import Mathlib

/-
Verification of the reconciliation core of GoogleTaskSyncer (src/index.ts).

The embedding models the class GoogleTasksSync: the retry wrapper
retryWithBackoff, the task/pair-record data model, and the body of
syncTaskLists (the reconcile pass over two snapshots and the persisted
sync state).  Store-local task identifiers are modelled as natural
numbers together with a fresh-id counter per store (the remote service
assigns globally fresh opaque ids); RFC3339 timestamp strings are
modelled as natural numbers (milliseconds), since the source only ever
compares them through Date objects or copies them verbatim.
-/

namespace GTSync

/-- A task as held by one store (interface Task, src/index.ts lines 7-17).
Fields parent and position are never read by the reconciler and are omitted. -/
structure Task where
  id : Nat
  title : String
  notes : Option String
  status : String
  due : Option Nat
  completed : Option Nat
  updated : Nat
deriving DecidableEq, Repr

/-- The four fields carried by create/update request bodies
(src/index.ts lines 174-179 and 193-199). -/
structure Payload where
  title : String
  notes : Option String
  status : String
  due : Option Nat
deriving DecidableEq, Repr

/-- The payload derived from a task, as built inline at every create/update
call site. -/
def Task.payload (t : Task) : Payload :=
  ⟨t.title, t.notes, t.status, t.due⟩

/-- tasksAreEqual (src/index.ts lines 218-225): field-wise comparison of
title, notes, status and due. -/
def tasksAreEqual (t1 t2 : Task) : Bool :=
  t1.title == t2.title && t1.notes == t2.notes && t1.status == t2.status && t1.due == t2.due

/-- One entry of syncState.tasks (interface SyncState, src/index.ts
lines 19-28). -/
structure PairRecord where
  accountAId : Nat
  accountBId : Nat
  lastSyncedUpdate : Nat
deriving DecidableEq, Repr

/-- The object key under which the source stores and deletes a pair record is
the string accountAId ++ "-" ++ accountBId; decimal rendering makes that
string injective in the two ids, so keys are modelled as the pair itself. -/
abbrev Key := Nat × Nat

/-- The key the source recomputes from a record when deleting or marking it. -/
def PairRecord.key (r : PairRecord) : Key :=
  (r.accountAId, r.accountBId)

/-- syncState.tasks: a JavaScript object, i.e. an insertion-ordered
key-to-record map, modelled as an ordered association list. -/
abbrev Ledger := List (Key × PairRecord)

/-- Object.values of the ledger, in insertion order. -/
def Ledger.values (L : Ledger) : List PairRecord :=
  L.map Prod.snd

/-- Object.values(syncState.tasks).find(r => r.accountAId === id),
returned together with the object key the record is stored under. -/
def findEntryByA (L : Ledger) (id : Nat) : Option (Key × PairRecord) :=
  L.find? (fun e => e.2.accountAId == id)

/-- Object.values(syncState.tasks).find(r => r.accountBId === id),
returned together with the object key the record is stored under. -/
def findEntryByB (L : Ledger) (id : Nat) : Option (Key × PairRecord) :=
  L.find? (fun e => e.2.accountBId == id)

/-- Whether the object already has the key. -/
def Ledger.hasKey (L : Ledger) (k : Key) : Bool :=
  L.any (fun e => e.1 == k)

/-- JavaScript object assignment obj[k] = r: replace in place when the key
exists, append otherwise. -/
def setRecord (L : Ledger) (k : Key) (r : PairRecord) : Ledger :=
  if L.hasKey k then L.map (fun e => if e.1 == k then (k, r) else e)
  else L ++ [(k, r)]

/-- JavaScript delete obj[k]. -/
def delRecord (L : Ledger) (k : Key) : Ledger :=
  L.filter (fun e => e.1 != k)

/-- One remote task store: its current tasks plus the fresh-id counter the
service draws new store-local ids from. -/
structure Store where
  tasks : List Task
  nextId : Nat
deriving DecidableEq, Repr

def Store.getTask (s : Store) (id : Nat) : Option Task :=
  s.tasks.find? (fun t => t.id == id)

def Store.hasId (s : Store) (id : Nat) : Bool :=
  s.tasks.any (fun t => t.id == id)

/-- Effect of a successful update on the stored task: the four payload
fields are replaced and the service stamps a new updated time. -/
def applyPayload (t : Task) (p : Payload) (now : Nat) : Task :=
  { t with title := p.title, notes := p.notes, status := p.status, due := p.due, updated := now }

/-- updateTask (src/index.ts lines 185-203); per the remote interface it
fails with NotFoundError (code 404) when the id no longer exists. -/
def Store.updateTask (s : Store) (id : Nat) (p : Payload) (now : Nat) : Except Nat Store :=
  if s.hasId id then
    Except.ok { s with tasks := s.tasks.map (fun t => if t.id == id then applyPayload t p now else t) }
  else
    Except.error 404

/-- deleteTask (src/index.ts lines 205-212); fails with NotFoundError
(code 404) when the id is already absent. -/
def Store.deleteTask (s : Store) (id : Nat) : Except Nat Store :=
  if s.hasId id then
    Except.ok { s with tasks := s.tasks.filter (fun t => t.id != id) }
  else
    Except.error 404

/-- createTask (src/index.ts lines 170-183): the service assigns a fresh
store-local id and an updated stamp and returns the new task. -/
def Store.createTask (s : Store) (p : Payload) (now : Nat) : Store × Task :=
  let t : Task := ⟨s.nextId, p.title, p.notes, p.status, p.due, none, now⟩
  (⟨s.tasks ++ [t], s.nextId + 1⟩, t)

/-- A remote call issued by the pass, in issue order; an entry is recorded
whether or not the call succeeds. -/
inductive Op where
  | createA (p : Payload)
  | createB (p : Payload)
  | updateA (id : Nat) (p : Payload)
  | updateB (id : Nat) (p : Payload)
  | deleteA (id : Nat)
  | deleteB (id : Nat)
deriving DecidableEq, Repr

/-- The mutable state threaded through the two loops of syncTaskLists:
both stores, syncState.tasks, the processedPairs set (kept in insertion
order) and the log of issued operations. -/
structure Config where
  storeA : Store
  storeB : Store
  ledger : Ledger
  processed : List Key
  ops : List Op
deriving DecidableEq, Repr

/-- The block shared by the conflict branch resolved A to B and the
only-A-modified branch (src/index.ts lines 313-327 and 342-357):
skip the write when tasksAreEqual, otherwise update the task of B;
on success the ledger stamp becomes the updated time of A; an update
failure with code 404 or 400 evicts the pair record. -/
def syncAtoB (now : Nat) (c : Config) (ek : Key) (r : PairRecord) (taskA taskB : Task) : Config :=
  if tasksAreEqual taskA taskB then
    { c with ledger := setRecord c.ledger ek { r with lastSyncedUpdate := taskA.updated } }
  else
    match c.storeB.updateTask taskB.id taskA.payload now with
    | Except.ok sB =>
        { c with storeB := sB,
                 ledger := setRecord c.ledger ek { r with lastSyncedUpdate := taskA.updated },
                 ops := c.ops ++ [Op.updateB taskB.id taskA.payload] }
    | Except.error code =>
        if code == 404 || code == 400 then
          { c with ledger := delRecord c.ledger r.key,
                   ops := c.ops ++ [Op.updateB taskB.id taskA.payload] }
        else { c with ops := c.ops ++ [Op.updateB taskB.id taskA.payload] }

/-- The mirror block writing the content of B onto the task of A
(src/index.ts lines 328-341 and 358-373). -/
def syncBtoA (now : Nat) (c : Config) (ek : Key) (r : PairRecord) (taskA taskB : Task) : Config :=
  if tasksAreEqual taskA taskB then
    { c with ledger := setRecord c.ledger ek { r with lastSyncedUpdate := taskB.updated } }
  else
    match c.storeA.updateTask taskA.id taskB.payload now with
    | Except.ok sA =>
        { c with storeA := sA,
                 ledger := setRecord c.ledger ek { r with lastSyncedUpdate := taskB.updated },
                 ops := c.ops ++ [Op.updateA taskA.id taskB.payload] }
    | Except.error code =>
        if code == 404 || code == 400 then
          { c with ledger := delRecord c.ledger r.key,
                   ops := c.ops ++ [Op.updateA taskA.id taskB.payload] }
        else { c with ops := c.ops ++ [Op.updateA taskA.id taskB.payload] }

/-- The reconcile branch for a pair whose two tasks both exist
(src/index.ts lines 298-376), before the processedPairs mark: detect
modification of each side against the ledger stamp and dispatch to the
winning direction. -/
def reconcileCore (now : Nat) (c : Config) (ek : Key) (r : PairRecord)
    (taskA taskB : Task) : Config :=
  let aModified := decide (r.lastSyncedUpdate < taskA.updated)
  let bModified := decide (r.lastSyncedUpdate < taskB.updated)
  if aModified && bModified then
    if taskB.updated < taskA.updated then syncAtoB now c ek r taskA taskB
    else syncBtoA now c ek r taskA taskB
  else if aModified then syncAtoB now c ek r taskA taskB
  else if bModified then syncBtoA now c ek r taskA taskB
  else c

/-- The reconcile branch followed by the processedPairs mark
(src/index.ts line 378). -/
def reconcilePair (now : Nat) (c : Config) (ek : Key) (r : PairRecord)
    (taskA taskB : Task) : Config :=
  { reconcileCore now c ek r taskA taskB with
    processed := (reconcileCore now c ek r taskA taskB).processed ++ [r.key] }

/-- The deletion-propagation branch of the first loop (src/index.ts lines
379-388): try to delete the task of A (a failure is only logged) and
remove the pair record. -/
def deleteFromA (c : Config) (taskA : Task) (r : PairRecord) : Config :=
  match c.storeA.deleteTask taskA.id with
  | Except.ok sA =>
      { c with storeA := sA,
               ledger := delRecord c.ledger r.key,
               ops := c.ops ++ [Op.deleteA taskA.id] }
  | Except.error _ =>
      { c with ledger := delRecord c.ledger r.key,
               ops := c.ops ++ [Op.deleteA taskA.id] }

/-- The new-task branch of the first loop (src/index.ts lines 389-403):
create in B from the payload of the task of A, record the new pair, mark
it processed. -/
def createInB (now : Nat) (c : Config) (taskA : Task) : Config :=
  let created := c.storeB.createTask taskA.payload now
  { c with storeB := created.1,
           ledger := setRecord c.ledger (taskA.id, created.2.id)
             ⟨taskA.id, created.2.id, taskA.updated⟩,
           processed := c.processed ++ [(taskA.id, created.2.id)],
           ops := c.ops ++ [Op.createB taskA.payload] }

/-- The body of the first loop of syncTaskLists (src/index.ts lines
289-404), processing one task of the A snapshot against the live ledger. -/
def stepA (tasksB : List Task) (now : Nat) (c : Config) (taskA : Task) : Config :=
  match findEntryByA c.ledger taskA.id with
  | some (ek, r) =>
    match tasksB.find? (fun t => t.id == r.accountBId) with
    | some taskB => reconcilePair now c ek r taskA taskB
    | none => deleteFromA c taskA r
  | none => createInB now c taskA

/-- The deletion branch of the second loop (src/index.ts lines 412-425). -/
def deleteFromB (c : Config) (taskB : Task) (r : PairRecord) : Config :=
  match c.storeB.deleteTask taskB.id with
  | Except.ok sB =>
      { c with storeB := sB,
               ledger := delRecord c.ledger r.key,
               ops := c.ops ++ [Op.deleteB taskB.id] }
  | Except.error _ =>
      { c with ledger := delRecord c.ledger r.key,
               ops := c.ops ++ [Op.deleteB taskB.id] }

/-- The new-task branch of the second loop (src/index.ts lines 426-439). -/
def createInA (now : Nat) (c : Config) (taskB : Task) : Config :=
  let created := c.storeA.createTask taskB.payload now
  { c with storeA := created.1,
           ledger := setRecord c.ledger (created.2.id, taskB.id)
             ⟨created.2.id, taskB.id, taskB.updated⟩,
           ops := c.ops ++ [Op.createA taskB.payload] }

/-- The body of the second loop of syncTaskLists (src/index.ts lines
406-440), processing one task of the B snapshot. -/
def stepB (now : Nat) (c : Config) (taskB : Task) : Config :=
  match findEntryByB c.ledger taskB.id with
  | some (_, r) =>
    if c.processed.contains r.key then c
    else deleteFromB c taskB r
  | none => createInA now c taskB

/-- The persisted sync state (interface SyncState). -/
structure SyncState where
  tasks : Ledger
  lastSyncTime : Nat
deriving DecidableEq, Repr

/-- What one pass produces: both stores after all issued calls, the state
that is then persisted, the calls issued in order, and the numeric values
the pass reports (the source logs exactly the two snapshot sizes, line
279 of src/index.ts). -/
structure PassResult where
  storeA : Store
  storeB : Store
  syncState : SyncState
  ops : List Op
  reportedNumbers : List Nat
deriving DecidableEq, Repr

/-- The reconcile pass of syncTaskLists (src/index.ts lines 289-443):
fold the first loop over the A snapshot, the second loop over the B
snapshot, then stamp lastSyncTime.  The snapshots are the task lists
fetched at the start of the pass; the stores are where the issued calls
land (they coincide with the snapshots when nothing changed in between). -/
def syncTaskLists (tasksA tasksB : List Task) (storeA storeB : Store)
    (state : SyncState) (now : Nat) : PassResult :=
  let c0 : Config := ⟨storeA, storeB, state.tasks, [], []⟩
  let c1 := tasksA.foldl (stepA tasksB now) c0
  let c2 := tasksB.foldl (stepB now) c1
  { storeA := c2.storeA, storeB := c2.storeB,
    syncState := ⟨c2.ledger, now⟩,
    ops := c2.ops,
    reportedNumbers := [tasksA.length, tasksB.length] }

/-- MAX_RETRIES (src/index.ts line 42). -/
def MAX_RETRIES : Nat := 5

/-- INITIAL_DELAY_MS (src/index.ts line 43). -/
def INITIAL_DELAY_MS : Nat := 1000

/-- An error value as inspected by retryWithBackoff: an optional code that
is either numeric (429, 404, 500, ...) or a string code such as
ECONNRESET, plus a message. -/
structure JsError where
  code : Option (Sum Nat String)
  message : String
deriving DecidableEq, Repr

/-- message.includes(sub). -/
def strIncludes (hay sub : String) : Bool :=
  (List.range (hay.length + 1)).any (fun i => sub.toList.isPrefixOf (hay.toList.drop i))

/-- isRateLimitError (src/index.ts lines 63-67). -/
def isRateLimitError (e : JsError) : Bool :=
  e.code == some (Sum.inl 429) ||
  strIncludes e.message "Quota Exceeded" ||
  strIncludes e.message "Rate Limit Exceeded" ||
  strIncludes e.message "rateLimitExceeded"

/-- The server-error test of line 73: error.code >= 500 (numeric) or
error.code === ECONNRESET. -/
def isServerError (e : JsError) : Bool :=
  match e.code with
  | some (Sum.inl n) => decide (500 ≤ n)
  | some (Sum.inr s) => s == "ECONNRESET"
  | none => false

/-- The retry loop of retryWithBackoff (src/index.ts lines 54-84), from a
given attempt index.  The operation is modelled as a function from the
attempt number to that attempt's outcome.  Returns the final outcome and
the list of backoff delays slept, in order.  The source line 83 after the
loop is modelled by the out-of-attempts case (it is unreachable since the
last in-budget attempt rethrows any error). -/
def retryFrom (op : Nat → Except JsError α) (retries attempt : Nat) :
    Except JsError α × List Nat :=
  if _h : attempt ≤ retries then
    match op attempt with
    | Except.ok v => (Except.ok v, [])
    | Except.error e =>
      if isRateLimitError e && decide (attempt < retries) then
        let res := retryFrom op retries (attempt + 1)
        (res.1, INITIAL_DELAY_MS * 2 ^ attempt :: res.2)
      else if decide (attempt < retries) && isServerError e then
        let res := retryFrom op retries (attempt + 1)
        (res.1, INITIAL_DELAY_MS * 2 ^ attempt :: res.2)
      else
        (Except.error e, [])
  else
    (Except.error ⟨none, "Failed after retries"⟩, [])
termination_by retries + 1 - attempt
decreasing_by all_goals omega

/-- retryWithBackoff with the default retry budget. -/
def retryWithBackoff (op : Nat → Except JsError α) : Except JsError α × List Nat :=
  retryFrom op MAX_RETRIES 0

/-- An error the retry loop backs off on: rate limit, numeric code at least
500, or a connection reset. -/
def isTransient (e : JsError) : Bool :=
  isRateLimitError e || isServerError e

/-- Number of create calls among the issued operations of a pass. -/
def countCreated (ops : List Op) : Nat :=
  (ops.filter (fun o => match o with
    | Op.createA _ => true
    | Op.createB _ => true
    | _ => false)).length

/-- Number of update calls among the issued operations of a pass. -/
def countUpdated (ops : List Op) : Nat :=
  (ops.filter (fun o => match o with
    | Op.updateA _ _ => true
    | Op.updateB _ _ => true
    | _ => false)).length

/-- Number of delete calls among the issued operations of a pass. -/
def countDeleted (ops : List Op) : Nat :=
  (ops.filter (fun o => match o with
    | Op.deleteA _ => true
    | Op.deleteB _ => true
    | _ => false)).length

/-- A task with only the fields the scenarios vary: id, updated stamp and
title. -/
def mkTask (i u : Nat) (ti : String) : Task :=
  ⟨i, ti, none, "needsAction", none, none, u⟩

/-- A pass over one paired task on each side: snapshots and stores agree,
and the ledger holds the single pair record for them with stamp t0. -/
def pairPass (a b : Task) (t0 na nb now : Nat) : PassResult :=
  syncTaskLists [a] [b] ⟨[a], na⟩ ⟨[b], nb⟩
    ⟨[((a.id, b.id), ⟨a.id, b.id, t0⟩)], 0⟩ now

/-- The ledger uniqueness invariant as the spec states it: no two pair
records share an A-side id, and no two share a B-side id (in particular
there is at most one record per distinct id combination). -/
def ledgerUnique (L : Ledger) : Prop :=
  (Ledger.values L).Pairwise
    (fun r1 r2 => r1.accountAId ≠ r2.accountAId ∧ r1.accountBId ≠ r2.accountBId)

/-- Distinct object keys: automatic for a JavaScript object, an explicit
hypothesis for the association-list model. -/
def keysNodup (L : Ledger) : Prop :=
  (L.map Prod.fst).Nodup

/-- No two records share an A-side id. -/
def sideUniqueA (L : Ledger) : Prop :=
  ((Ledger.values L).map PairRecord.accountAId).Nodup

/-- No two records share a B-side id. -/
def sideUniqueB (L : Ledger) : Prop :=
  ((Ledger.values L).map PairRecord.accountBId).Nodup

/-- The well-formedness the running configuration maintains relative to
the two fixed snapshots: distinct keys, per-side uniqueness of the
ledger, and freshness of the store id counters over every id the ledger
or the snapshots mention. -/
structure WFInv (tasksA tasksB : List Task) (c : Config) : Prop where
  keys : keysNodup c.ledger
  uniqA : sideUniqueA c.ledger
  uniqB : sideUniqueB c.ledger
  freshA : ∀ r ∈ Ledger.values c.ledger, r.accountAId < c.storeA.nextId
  freshB : ∀ r ∈ Ledger.values c.ledger, r.accountBId < c.storeB.nextId
  tfreshA : ∀ t ∈ tasksA, t.id < c.storeA.nextId
  tfreshB : ∀ t ∈ tasksB, t.id < c.storeB.nextId

/-- Every task id of a store is below its fresh-id counter. -/
def StoreFresh (s : Store) : Prop :=
  ∀ x ∈ s.tasks, x.id < s.nextId

/-- Distinct task ids within one snapshot (a set of tasks). -/
def TasksWF (ts : List Task) : Prop :=
  (ts.map Task.id).Nodup

/-- Every entry of the object is stored under the key the source computes
from its record (always true of a state the source itself wrote). -/
def keyConsistent (L : Ledger) : Prop :=
  ∀ e ∈ L, e.1 = e.2.key

/-- A pair the reconcile branch issues no write for: the two tasks carry
equal payloads, or neither side was modified since the stamp. -/
def goodPair (a b : Task) (t : Nat) : Prop :=
  tasksAreEqual a b = true ∨ (a.updated ≤ t ∧ b.updated ≤ t)

/-- A record of a converged state: both its sides exist and form a good
pair, or both its sides are gone. -/
def recOKplus (tsA tsB : List Task) (r : PairRecord) : Prop :=
  (∃ a ∈ tsA, a.id = r.accountAId ∧ ∃ b ∈ tsB, b.id = r.accountBId ∧
    goodPair a b r.lastSyncedUpdate)
  ∨ ((∀ a ∈ tsA, a.id ≠ r.accountAId) ∧ (∀ b ∈ tsB, b.id ≠ r.accountBId))

/-- A record both of whose sides exist in the current stores and form a
good pair under its stamp. -/
def PairGood (c : Config) (e : Key × PairRecord) : Prop :=
  ∃ x ∈ c.storeA.tasks, x.id = e.2.accountAId ∧
  ∃ y ∈ c.storeB.tasks, y.id = e.2.accountBId ∧ goodPair x y e.2.lastSyncedUpdate

/-- The invariant of the first loop of a pass started from consistent
snapshots (stores equal to snapshots): todo is the suffix of the A
snapshot not yet processed; every already handled record pairs two
existing equal-or-quiescent tasks and is marked, or lost its A side. -/
structure PhaseA (tasksA tasksB : List Task) (nB : Nat) (todo : List Task) (c : Config) : Prop where
  wf : WFInv [] [] c
  kc : keyConsistent c.ledger
  sfA : StoreFresh c.storeA
  sfB : StoreFresh c.storeB
  twA : TasksWF c.storeA.tasks
  twB : TasksWF c.storeB.tasks
  nextB : nB ≤ c.storeB.nextId
  monoB : ∀ x ∈ tasksB, ∃ y ∈ c.storeB.tasks, y.id = x.id
  todoA : ∀ x ∈ todo, x ∈ c.storeA.tasks
  covSA : ∀ x ∈ c.storeA.tasks, (∃ e ∈ c.ledger, e.2.accountAId = x.id) ∨ x ∈ todo
  cls : ∀ e ∈ c.ledger,
      (∃ x ∈ todo, x.id = e.2.accountAId) ∨
      (PairGood c e ∧ e.2.key ∈ c.processed) ∨
      (∀ x ∈ c.storeA.tasks, x.id ≠ e.2.accountAId)
  snapB : ∀ e ∈ c.ledger, (∃ x ∈ todo, x.id = e.2.accountAId) →
      ∀ y ∈ c.storeB.tasks, y.id = e.2.accountBId → y ∈ tasksB
  origBu : ∀ e ∈ c.ledger, nB ≤ e.2.accountBId →
      (PairGood c e ∧ e.2.key ∈ c.processed)
  bigB : ∀ y ∈ c.storeB.tasks, y.id ∈ tasksB.map Task.id ∨ nB ≤ y.id
  covSB : ∀ y ∈ c.storeB.tasks,
      y.id ∈ tasksB.map Task.id ∨ (∃ e ∈ c.ledger, e.2.accountBId = y.id)
  snapB2 : ∀ y ∈ c.storeB.tasks, y.id ∈ tasksB.map Task.id →
      (∃ e ∈ c.ledger, e.2.accountBId = y.id) ∨ y ∈ tasksB
  prc : ∀ k ∈ c.processed, ∃ e ∈ c.ledger, e.2.key = k ∧
      (∃ x ∈ c.storeA.tasks, x.id = e.2.accountAId)
  unm : ∀ e ∈ c.ledger, (∃ x ∈ todo, x.id = e.2.accountAId) →
      e.2.key ∉ c.processed

/-- The invariant of the second loop: todoB is the suffix of the B
snapshot not yet examined; every record either pairs two good tasks and
is skipped when met again, or lost its A side and its B side is still
pending or already gone. -/
structure PhaseB (tasksB : List Task) (nB : Nat) (todoB : List Task) (c : Config) : Prop where
  wf : WFInv [] [] c
  kc : keyConsistent c.ledger
  sfA : StoreFresh c.storeA
  sfB : StoreFresh c.storeB
  twA : TasksWF c.storeA.tasks
  twB : TasksWF c.storeB.tasks
  todoBpres : ∀ z ∈ todoB, ∃ y ∈ c.storeB.tasks, y.id = z.id
  covSA : ∀ x ∈ c.storeA.tasks, ∃ e ∈ c.ledger, e.2.accountAId = x.id
  covSB : ∀ y ∈ c.storeB.tasks,
      (∃ e ∈ c.ledger, e.2.accountBId = y.id) ∨ (∃ z ∈ todoB, z.id = y.id)
  cls : ∀ e ∈ c.ledger,
      (PairGood c e ∧ (e.2.key ∈ c.processed ∨ ∀ z ∈ todoB, z.id ≠ e.2.accountBId)) ∨
      ((∀ x ∈ c.storeA.tasks, x.id ≠ e.2.accountAId) ∧
        ((∃ z ∈ todoB, z.id = e.2.accountBId) ∨
         (∀ y ∈ c.storeB.tasks, y.id ≠ e.2.accountBId)))
  snapB2 : ∀ y ∈ c.storeB.tasks, y.id ∈ tasksB.map Task.id →
      (∃ e ∈ c.ledger, e.2.accountBId = y.id) ∨ y ∈ tasksB
  prcB : ∀ k ∈ c.processed, ∃ e ∈ c.ledger, e.2.key = k ∧
      (∃ x ∈ c.storeA.tasks, x.id = e.2.accountAId)

/-- The invariant of a pass over an already converged state: stores and
the issued-operation log never change, every snapshot task is covered by
a record, and every record is converged. -/
structure NInv (tsA tsB : List Task) (sA sB : Store) (c : Config) : Prop where
  wf : WFInv tsA tsB c
  stA : c.storeA = sA
  stB : c.storeB = sB
  ops0 : c.ops = []
  covA : ∀ a ∈ tsA, a.id ∈ (Ledger.values c.ledger).map PairRecord.accountAId
  covB : ∀ b ∈ tsB, b.id ∈ (Ledger.values c.ledger).map PairRecord.accountBId
  rOK : ∀ r ∈ Ledger.values c.ledger, recOKplus tsA tsB r

theorem retryFrom_transient {α : Type} (errs : Nat → JsError) (retries : Nat) :
    ∀ n attempt, retries - attempt = n → attempt ≤ retries →
    (∀ i, attempt ≤ i → i ≤ retries → isTransient (errs i) = true) →
    retryFrom (α := α) (fun i => Except.error (errs i)) retries attempt =
      (Except.error (errs retries),
       (List.range (retries - attempt)).map (fun k => INITIAL_DELAY_MS * 2 ^ (attempt + k))) := by
  intro n
  induction n with
  | zero =>
    intro attempt hn hle _hT
    have heq : attempt = retries := by omega
    subst heq
    rw [retryFrom]
    simp [Nat.lt_irrefl]
  | succ n ih =>
    intro attempt hn hle hT
    have hlt : attempt < retries := by omega
    have htr : isTransient (errs attempt) = true := hT attempt le_rfl hle
    have hrec := ih (attempt + 1) (by omega) (by omega)
      (fun i hi1 hi2 => hT i (by omega) hi2)
    have hrange : (List.range (retries - attempt)).map
        (fun k => INITIAL_DELAY_MS * 2 ^ (attempt + k)) =
        INITIAL_DELAY_MS * 2 ^ attempt ::
          (List.range (retries - (attempt + 1))).map
            (fun k => INITIAL_DELAY_MS * 2 ^ (attempt + 1 + k)) := by
      have h1 : retries - attempt = (retries - (attempt + 1)) + 1 := by omega
      rw [h1, List.range_succ_eq_map, List.map_cons, List.map_map]
      refine congrArg₂ List.cons (by norm_num) (List.map_congr_left ?_)
      intro k _
      show INITIAL_DELAY_MS * 2 ^ (attempt + (k + 1)) = INITIAL_DELAY_MS * 2 ^ (attempt + 1 + k)
      rw [show attempt + (k + 1) = attempt + 1 + k from by omega]
    rw [retryFrom, dif_pos hle]
    cases hb : isRateLimitError (errs attempt) with
    | true =>
      simp [hb, hlt, hrec, hrange]
    | false =>
      have hs : isServerError (errs attempt) = true := by
        have h2 := htr
        simp [isTransient, hb] at h2
        exact h2
      simp [hb, hs, hlt, hrec, hrange]

/-- C8.  On transient errors (rate limit, 5xx, connection reset) the call
is retried up to five times with backoff delays of exactly 1000, 2000,
4000, 8000 and 16000 milliseconds, and when the budget is exhausted the
last error is surfaced to the caller; a non-transient error propagates
immediately, with no retry and no delay. -/
theorem retry_policy {α : Type} (errs : Nat → JsError) (op : Nat → Except JsError α) (e0 : JsError)
    (htrans : ∀ i, i ≤ 5 → isTransient (errs i) = true)
    (hop : op 0 = Except.error e0)
    (hnt : isTransient e0 = false) :
    retryWithBackoff (α := α) (fun i => Except.error (errs i)) =
      (Except.error (errs 5), [1000, 2000, 4000, 8000, 16000])
    ∧ retryWithBackoff op = (Except.error e0, []) := by
  constructor
  · have h := retryFrom_transient (α := α) errs 5 5 0 rfl (by omega)
      (fun i _ hi2 => htrans i hi2)
    rw [retryWithBackoff, MAX_RETRIES, h]
    constructor
  · rw [retryWithBackoff, retryFrom]
    have hle : (0 : Nat) ≤ MAX_RETRIES := by omega
    simp only [dif_pos hle, hop]
    have h1 : isRateLimitError e0 = false := by
      have := hnt; simp [isTransient] at this; exact this.1
    have h2 : isServerError e0 = false := by
      have := hnt; simp [isTransient] at this; exact this.2
    rw [if_neg (by simp [h1]), if_neg (by simp [h2])]

/-- Witness for retry_policy at a concrete rate-limit error and a concrete
404 error. -/
theorem retry_policy_witness :
    retryWithBackoff (α := Nat) (fun _ => Except.error ⟨some (Sum.inl 429), "q"⟩) =
      (Except.error ⟨some (Sum.inl 429), "q"⟩, [1000, 2000, 4000, 8000, 16000])
    ∧ retryWithBackoff (α := Nat) (fun _ => Except.error ⟨some (Sum.inl 404), "m"⟩) =
      (Except.error ⟨some (Sum.inl 404), "m"⟩, []) := by
  have hc : isTransient ⟨some (Sum.inl 429), "q"⟩ = true := by decide
  have h := retry_policy (α := Nat)
    (fun _ => ⟨some (Sum.inl 429), "q"⟩)
    (fun _ => Except.error ⟨some (Sum.inl 404), "m"⟩)
    ⟨some (Sum.inl 404), "m"⟩
    (fun i _ => hc) rfl (by decide)
  exact h

/-- C9 counterexample.  A pass over three tasks new in A and two tasks new
in B applies five create operations, but the numbers it reports are only
the two snapshot sizes [3, 2]: the created count (and likewise every other
per-category operation count) is nowhere in what the pass reports, so the
pass does not report a count of applied operations per category. -/
theorem pass_reports_no_op_counts :
    (countCreated (syncTaskLists
        [mkTask 0 5 "p", mkTask 1 6 "q", mkTask 2 7 "r"]
        [mkTask 100 8 "s", mkTask 101 9 "t"]
        ⟨[mkTask 0 5 "p", mkTask 1 6 "q", mkTask 2 7 "r"], 3⟩
        ⟨[mkTask 100 8 "s", mkTask 101 9 "t"], 102⟩
        ⟨[], 0⟩ 50).ops = 5)
    ∧ ¬ (countCreated (syncTaskLists
        [mkTask 0 5 "p", mkTask 1 6 "q", mkTask 2 7 "r"]
        [mkTask 100 8 "s", mkTask 101 9 "t"]
        ⟨[mkTask 0 5 "p", mkTask 1 6 "q", mkTask 2 7 "r"], 3⟩
        ⟨[mkTask 100 8 "s", mkTask 101 9 "t"], 102⟩
        ⟨[], 0⟩ 50).ops ∈ (syncTaskLists
        [mkTask 0 5 "p", mkTask 1 6 "q", mkTask 2 7 "r"]
        [mkTask 100 8 "s", mkTask 101 9 "t"]
        ⟨[mkTask 0 5 "p", mkTask 1 6 "q", mkTask 2 7 "r"], 3⟩
        ⟨[mkTask 100 8 "s", mkTask 101 9 "t"], 102⟩
        ⟨[], 0⟩ 50).reportedNumbers) := by
  decide

/-- C9 amended.  On completion a pass reports the sizes of the two
snapshots it processed (and nothing else numeric): no per-category count
of applied operations is part of the report. -/
theorem pass_reports_snapshot_sizes (tasksA tasksB : List Task) (storeA storeB : Store)
    (state : SyncState) (now : Nat) :
    (syncTaskLists tasksA tasksB storeA storeB state now).reportedNumbers =
      [tasksA.length, tasksB.length] :=
  rfl

/-- tasksAreEqual holds exactly when the two tasks carry the same payload,
i.e. agree on title, notes, status and due. -/
theorem tasksAreEqual_iff_payload (t1 t2 : Task) :
    tasksAreEqual t1 t2 = true ↔ t1.payload = t2.payload := by
  simp [tasksAreEqual, Task.payload, Payload.mk.injEq, Bool.and_eq_true, beq_iff_eq]
  tauto

/-- C1.  When both sides of a pair were modified after the last synced
stamp and the updated time of A is strictly later, the task of B ends the
pass carrying the payload of A (title, notes, status, due), the pair
record stamp becomes the updated time of A, and the only issued call is
the corresponding update of B (none when the payloads already agree);
symmetrically when B is strictly later. -/
theorem conflict_strictly_later_wins (a b : Task) (t0 na nb now : Nat) :
    (t0 < b.updated → b.updated < a.updated →
      ((pairPass a b t0 na nb now).storeB.getTask b.id).map Task.payload = some a.payload
      ∧ Ledger.values (pairPass a b t0 na nb now).syncState.tasks = [⟨a.id, b.id, a.updated⟩]
      ∧ (pairPass a b t0 na nb now).ops =
          (if tasksAreEqual a b then [] else [Op.updateB b.id a.payload]))
    ∧ (t0 < a.updated → a.updated < b.updated →
      ((pairPass a b t0 na nb now).storeA.getTask a.id).map Task.payload = some b.payload
      ∧ Ledger.values (pairPass a b t0 na nb now).syncState.tasks = [⟨a.id, b.id, b.updated⟩]
      ∧ (pairPass a b t0 na nb now).ops =
          (if tasksAreEqual a b then [] else [Op.updateA a.id b.payload])) := by
  constructor
  · intro h1 h2
    have ha : t0 < a.updated := h1.trans h2
    have hnba : ¬ a.updated < b.updated := by omega
    cases heq : tasksAreEqual a b with
    | true =>
      have hpq : a.payload = b.payload := (tasksAreEqual_iff_payload a b).mp heq
      simp [pairPass, syncTaskLists, stepA, stepB, reconcilePair, reconcileCore, deleteFromA, createInB, deleteFromB, createInA, findEntryByA, findEntryByB, syncAtoB,
        Store.getTask, setRecord, Ledger.hasKey, Ledger.values, PairRecord.key,
        heq, h1, h2, ha, hpq]
    | false =>
      simp [pairPass, syncTaskLists, stepA, stepB, reconcilePair, reconcileCore, deleteFromA, createInB, deleteFromB, createInA, findEntryByA, findEntryByB, syncAtoB,
        Store.updateTask, Store.hasId, Store.getTask, setRecord, Ledger.hasKey,
        Ledger.values, PairRecord.key, applyPayload, Task.payload,
        heq, h1, h2, ha]
  · intro h1 h2
    have hb : t0 < b.updated := h1.trans h2
    have hnab : ¬ b.updated < a.updated := by omega
    cases heq : tasksAreEqual a b with
    | true =>
      have hpq : a.payload = b.payload := (tasksAreEqual_iff_payload a b).mp heq
      simp [pairPass, syncTaskLists, stepA, stepB, reconcilePair, reconcileCore, deleteFromA, createInB, deleteFromB, createInA, findEntryByA, findEntryByB, syncBtoA,
        Store.getTask, setRecord, Ledger.hasKey, Ledger.values, PairRecord.key,
        heq, h1, h2, hb, hnab, hpq]
    | false =>
      simp [pairPass, syncTaskLists, stepA, stepB, reconcilePair, reconcileCore, deleteFromA, createInB, deleteFromB, createInA, findEntryByA, findEntryByB, syncBtoA,
        Store.updateTask, Store.hasId, Store.getTask, setRecord, Ledger.hasKey,
        Ledger.values, PairRecord.key, applyPayload, Task.payload,
        heq, h1, h2, hb, hnab]

/-- Witness for conflict_strictly_later_wins: both directions at concrete
tasks. -/
theorem conflict_strictly_later_wins_witness :
    (((pairPass (mkTask 0 10 "A") (mkTask 100 7 "B") 5 1 101 50).storeB.getTask 100).map Task.payload
        = some (mkTask 0 10 "A").payload
      ∧ Ledger.values (pairPass (mkTask 0 10 "A") (mkTask 100 7 "B") 5 1 101 50).syncState.tasks
        = [⟨0, 100, 10⟩]
      ∧ (pairPass (mkTask 0 10 "A") (mkTask 100 7 "B") 5 1 101 50).ops
        = (if tasksAreEqual (mkTask 0 10 "A") (mkTask 100 7 "B") then []
           else [Op.updateB 100 (mkTask 0 10 "A").payload]))
    ∧ (((pairPass (mkTask 0 7 "A") (mkTask 100 10 "B") 5 1 101 50).storeA.getTask 0).map Task.payload
        = some (mkTask 100 10 "B").payload
      ∧ Ledger.values (pairPass (mkTask 0 7 "A") (mkTask 100 10 "B") 5 1 101 50).syncState.tasks
        = [⟨0, 100, 10⟩]
      ∧ (pairPass (mkTask 0 7 "A") (mkTask 100 10 "B") 5 1 101 50).ops
        = (if tasksAreEqual (mkTask 0 7 "A") (mkTask 100 10 "B") then []
           else [Op.updateA 0 (mkTask 100 10 "B").payload])) :=
  ⟨(conflict_strictly_later_wins (mkTask 0 10 "A") (mkTask 100 7 "B") 5 1 101 50).1
      (by decide) (by decide),
   (conflict_strictly_later_wins (mkTask 0 7 "A") (mkTask 100 10 "B") 5 1 101 50).2
      (by decide) (by decide)⟩

/-- C2 counterexample.  On an exact tie (both updated stamps 10, last
synced 5) with differing contents, the task of B is NOT overwritten with
the content of A: the strict comparison sends ties to the B-wins branch,
so B keeps its payload (and the update lands on A instead). -/
theorem tie_a_wins_cex :
    ¬ (((pairPass (mkTask 0 10 "A") (mkTask 100 10 "B") 5 1 101 50).storeB.getTask 100).map Task.payload
        = some (mkTask 0 10 "A").payload) := by
  decide

/-- C2 amended.  On a tie after a true conflict (equal updated stamps,
both strictly later than the last synced stamp) the content of B wins:
the task of A is overwritten with the payload of B, the record stamp
becomes the updated time of B (numerically equal to that of A), the only
issued call is the update of A (none when the payloads agree), and the
task of B is untouched. -/
theorem tie_b_wins (a b : Task) (t0 na nb now : Nat)
    (h0 : t0 < a.updated) (htie : a.updated = b.updated) :
    ((pairPass a b t0 na nb now).storeA.getTask a.id).map Task.payload = some b.payload
    ∧ Ledger.values (pairPass a b t0 na nb now).syncState.tasks = [⟨a.id, b.id, b.updated⟩]
    ∧ (pairPass a b t0 na nb now).ops =
        (if tasksAreEqual a b then [] else [Op.updateA a.id b.payload])
    ∧ (pairPass a b t0 na nb now).storeB = ⟨[b], nb⟩ := by
  have hb : t0 < b.updated := by omega
  have hnab : ¬ b.updated < a.updated := by omega
  cases heq : tasksAreEqual a b with
  | true =>
    have hpq : a.payload = b.payload := (tasksAreEqual_iff_payload a b).mp heq
    simp [pairPass, syncTaskLists, stepA, stepB, reconcilePair, reconcileCore, deleteFromA, createInB, deleteFromB, createInA, findEntryByA, findEntryByB, syncBtoA,
      Store.getTask, setRecord, Ledger.hasKey, Ledger.values, PairRecord.key,
      heq, h0, hb, hnab, hpq]
  | false =>
    simp [pairPass, syncTaskLists, stepA, stepB, reconcilePair, reconcileCore, deleteFromA, createInB, deleteFromB, createInA, findEntryByA, findEntryByB, syncBtoA,
      Store.updateTask, Store.hasId, Store.getTask, setRecord, Ledger.hasKey,
      Ledger.values, PairRecord.key, applyPayload, Task.payload,
      heq, h0, hb, hnab]

/-- Witness for tie_b_wins at concrete tied tasks. -/
theorem tie_b_wins_witness :
    ((pairPass (mkTask 0 10 "A") (mkTask 100 10 "B") 5 1 101 50).storeA.getTask 0).map Task.payload
      = some (mkTask 100 10 "B").payload
    ∧ Ledger.values (pairPass (mkTask 0 10 "A") (mkTask 100 10 "B") 5 1 101 50).syncState.tasks
      = [⟨0, 100, 10⟩]
    ∧ (pairPass (mkTask 0 10 "A") (mkTask 100 10 "B") 5 1 101 50).ops
      = (if tasksAreEqual (mkTask 0 10 "A") (mkTask 100 10 "B") then []
         else [Op.updateA 0 (mkTask 100 10 "B").payload])
    ∧ (pairPass (mkTask 0 10 "A") (mkTask 100 10 "B") 5 1 101 50).storeB
      = ⟨[mkTask 100 10 "B"], 101⟩ :=
  tie_b_wins (mkTask 0 10 "A") (mkTask 100 10 "B") 5 1 101 50 (by decide) rfl

/-- C3.  When the two tasks of a pair already carry identical title,
notes, status and due but at least one side was modified since the last
synced stamp, the pass issues no operation at all and leaves both stores
untouched, yet the record stamp advances to the later updated time. -/
theorem noop_when_content_equal (a b : Task) (t0 na nb now : Nat)
    (heq : tasksAreEqual a b = true) (hmod : t0 < a.updated ∨ t0 < b.updated) :
    (pairPass a b t0 na nb now).ops = []
    ∧ Ledger.values (pairPass a b t0 na nb now).syncState.tasks =
        [⟨a.id, b.id, max a.updated b.updated⟩]
    ∧ (pairPass a b t0 na nb now).storeA = ⟨[a], na⟩
    ∧ (pairPass a b t0 na nb now).storeB = ⟨[b], nb⟩ := by
  by_cases haM : t0 < a.updated
  · by_cases hbM : t0 < b.updated
    · by_cases hcmp : b.updated < a.updated
      · have hmax : max a.updated b.updated = a.updated := by omega
        simp [pairPass, syncTaskLists, stepA, stepB, reconcilePair, reconcileCore, deleteFromA, createInB, deleteFromB, createInA, findEntryByA, findEntryByB, syncAtoB,
          Store.getTask, setRecord, Ledger.hasKey, Ledger.values, PairRecord.key,
          heq, haM, hbM, hcmp, hmax]
      · have hmax : max a.updated b.updated = b.updated := by omega
        simp [pairPass, syncTaskLists, stepA, stepB, reconcilePair, reconcileCore, deleteFromA, createInB, deleteFromB, createInA, findEntryByA, findEntryByB, syncBtoA,
          Store.getTask, setRecord, Ledger.hasKey, Ledger.values, PairRecord.key,
          heq, haM, hbM, hcmp, hmax]
    · have hmax : max a.updated b.updated = a.updated := by omega
      simp [pairPass, syncTaskLists, stepA, stepB, reconcilePair, reconcileCore, deleteFromA, createInB, deleteFromB, createInA, findEntryByA, findEntryByB, syncAtoB,
        Store.getTask, setRecord, Ledger.hasKey, Ledger.values, PairRecord.key,
        heq, haM, hbM, hmax]
  · have hbM : t0 < b.updated := by tauto
    have hmax : max a.updated b.updated = b.updated := by omega
    simp [pairPass, syncTaskLists, stepA, stepB, reconcilePair, reconcileCore, deleteFromA, createInB, deleteFromB, createInA, findEntryByA, findEntryByB, syncBtoA,
      Store.getTask, setRecord, Ledger.hasKey, Ledger.values, PairRecord.key,
      heq, haM, hbM, hmax]

/-- Witness for noop_when_content_equal: same payload, A modified. -/
theorem noop_when_content_equal_witness :
    (pairPass (mkTask 0 10 "X") (mkTask 100 4 "X") 5 1 101 50).ops = []
    ∧ Ledger.values (pairPass (mkTask 0 10 "X") (mkTask 100 4 "X") 5 1 101 50).syncState.tasks
      = [⟨0, 100, max 10 4⟩]
    ∧ (pairPass (mkTask 0 10 "X") (mkTask 100 4 "X") 5 1 101 50).storeA = ⟨[mkTask 0 10 "X"], 1⟩
    ∧ (pairPass (mkTask 0 10 "X") (mkTask 100 4 "X") 5 1 101 50).storeB = ⟨[mkTask 100 4 "X"], 101⟩ :=
  noop_when_content_equal (mkTask 0 10 "X") (mkTask 100 4 "X") 5 1 101 50
    (by decide) (Or.inl (by decide))

/-- C5.  A task present only in one store (no pair record matches its id)
is propagated by exactly one create call against the other store carrying
its title, notes, status and due, and exactly one new pair record is
appended, pairing the task id with the newly created id under stamp equal
to the updated time of the source task; stated for both directions. -/
theorem new_task_propagates (a b : Task) (sA sB : Store) (L : Ledger) (t now : Nat) :
    (findEntryByA L a.id = none → L.hasKey (a.id, sB.nextId) = false →
      (syncTaskLists [a] [] sA sB ⟨L, t⟩ now).ops = [Op.createB a.payload]
      ∧ (syncTaskLists [a] [] sA sB ⟨L, t⟩ now).syncState.tasks =
          L ++ [((a.id, sB.nextId), ⟨a.id, sB.nextId, a.updated⟩)]
      ∧ (syncTaskLists [a] [] sA sB ⟨L, t⟩ now).storeB.tasks =
          sB.tasks ++ [⟨sB.nextId, a.title, a.notes, a.status, a.due, none, now⟩]
      ∧ (syncTaskLists [a] [] sA sB ⟨L, t⟩ now).storeA = sA)
    ∧ (findEntryByB L b.id = none → L.hasKey (sA.nextId, b.id) = false →
      (syncTaskLists [] [b] sA sB ⟨L, t⟩ now).ops = [Op.createA b.payload]
      ∧ (syncTaskLists [] [b] sA sB ⟨L, t⟩ now).syncState.tasks =
          L ++ [((sA.nextId, b.id), ⟨sA.nextId, b.id, b.updated⟩)]
      ∧ (syncTaskLists [] [b] sA sB ⟨L, t⟩ now).storeA.tasks =
          sA.tasks ++ [⟨sA.nextId, b.title, b.notes, b.status, b.due, none, now⟩]
      ∧ (syncTaskLists [] [b] sA sB ⟨L, t⟩ now).storeB = sB) := by
  constructor
  · intro hA hk
    simp [syncTaskLists, stepA, stepB, reconcilePair, reconcileCore, deleteFromA, createInB, deleteFromB, createInA, Store.createTask, setRecord, Task.payload,
      hA, hk]
  · intro hB hk
    simp [syncTaskLists, stepA, stepB, reconcilePair, reconcileCore, deleteFromA, createInB, deleteFromB, createInA, Store.createTask, setRecord, Task.payload,
      hB, hk]

/-- Witness for new_task_propagates: a single fresh task on each side,
empty ledger. -/
theorem new_task_propagates_witness :
    ((syncTaskLists [mkTask 0 10 "N"] [] ⟨[mkTask 0 10 "N"], 1⟩ ⟨[], 100⟩ ⟨[], 3⟩ 50).ops
        = [Op.createB (mkTask 0 10 "N").payload]
      ∧ (syncTaskLists [mkTask 0 10 "N"] [] ⟨[mkTask 0 10 "N"], 1⟩ ⟨[], 100⟩ ⟨[], 3⟩ 50).syncState.tasks
        = [] ++ [((0, 100), ⟨0, 100, 10⟩)]
      ∧ (syncTaskLists [mkTask 0 10 "N"] [] ⟨[mkTask 0 10 "N"], 1⟩ ⟨[], 100⟩ ⟨[], 3⟩ 50).storeB.tasks
        = [] ++ [⟨100, "N", none, "needsAction", none, none, 50⟩]
      ∧ (syncTaskLists [mkTask 0 10 "N"] [] ⟨[mkTask 0 10 "N"], 1⟩ ⟨[], 100⟩ ⟨[], 3⟩ 50).storeA
        = ⟨[mkTask 0 10 "N"], 1⟩)
    ∧ ((syncTaskLists [] [mkTask 100 10 "M"] ⟨[], 1⟩ ⟨[mkTask 100 10 "M"], 101⟩ ⟨[], 3⟩ 50).ops
        = [Op.createA (mkTask 100 10 "M").payload]
      ∧ (syncTaskLists [] [mkTask 100 10 "M"] ⟨[], 1⟩ ⟨[mkTask 100 10 "M"], 101⟩ ⟨[], 3⟩ 50).syncState.tasks
        = [] ++ [((1, 100), ⟨1, 100, 10⟩)]
      ∧ (syncTaskLists [] [mkTask 100 10 "M"] ⟨[], 1⟩ ⟨[mkTask 100 10 "M"], 101⟩ ⟨[], 3⟩ 50).storeA.tasks
        = [] ++ [⟨1, "M", none, "needsAction", none, none, 50⟩]
      ∧ (syncTaskLists [] [mkTask 100 10 "M"] ⟨[], 1⟩ ⟨[mkTask 100 10 "M"], 101⟩ ⟨[], 3⟩ 50).storeB
        = ⟨[mkTask 100 10 "M"], 101⟩) :=
  ⟨(new_task_propagates (mkTask 0 10 "N") (mkTask 100 10 "M") ⟨[mkTask 0 10 "N"], 1⟩ ⟨[], 100⟩ [] 3 50).1
      rfl rfl,
   (new_task_propagates (mkTask 0 10 "N") (mkTask 100 10 "M") ⟨[], 1⟩ ⟨[mkTask 100 10 "M"], 101⟩ [] 3 50).2
      rfl rfl⟩

/-- C6.  A pair record whose B-side task is absent from the B snapshot
makes the pass issue the delete of the A-side task and remove the pair
record; when the A-side task is already gone from store A too (the delete
fails with NotFoundError) the pass still completes, the record is still
removed and the store is untouched; symmetrically a record whose A-side
task is absent makes the pass delete the B-side task and remove the
record. -/
theorem deletion_propagates (a b : Task) (aid bid t0 na nb now : Nat) (sA sB : Store) :
    ((syncTaskLists [a] [] ⟨[a], na⟩ sB ⟨[((a.id, bid), ⟨a.id, bid, t0⟩)], 0⟩ now).ops
        = [Op.deleteA a.id]
      ∧ (syncTaskLists [a] [] ⟨[a], na⟩ sB ⟨[((a.id, bid), ⟨a.id, bid, t0⟩)], 0⟩ now).syncState.tasks
        = []
      ∧ (syncTaskLists [a] [] ⟨[a], na⟩ sB ⟨[((a.id, bid), ⟨a.id, bid, t0⟩)], 0⟩ now).storeA.tasks
        = [])
    ∧ ((syncTaskLists [a] [] ⟨[], na⟩ sB ⟨[((a.id, bid), ⟨a.id, bid, t0⟩)], 0⟩ now).ops
        = [Op.deleteA a.id]
      ∧ (syncTaskLists [a] [] ⟨[], na⟩ sB ⟨[((a.id, bid), ⟨a.id, bid, t0⟩)], 0⟩ now).syncState.tasks
        = []
      ∧ (syncTaskLists [a] [] ⟨[], na⟩ sB ⟨[((a.id, bid), ⟨a.id, bid, t0⟩)], 0⟩ now).storeA
        = ⟨[], na⟩)
    ∧ ((syncTaskLists [] [b] sA ⟨[b], nb⟩ ⟨[((aid, b.id), ⟨aid, b.id, t0⟩)], 0⟩ now).ops
        = [Op.deleteB b.id]
      ∧ (syncTaskLists [] [b] sA ⟨[b], nb⟩ ⟨[((aid, b.id), ⟨aid, b.id, t0⟩)], 0⟩ now).syncState.tasks
        = []
      ∧ (syncTaskLists [] [b] sA ⟨[b], nb⟩ ⟨[((aid, b.id), ⟨aid, b.id, t0⟩)], 0⟩ now).storeB.tasks
        = []) := by
  refine ⟨?_, ?_, ?_⟩
  · simp [syncTaskLists, stepA, stepB, reconcilePair, reconcileCore, deleteFromA, createInB, deleteFromB, createInA, findEntryByA, Store.deleteTask, Store.hasId,
      delRecord, PairRecord.key]
  · simp [syncTaskLists, stepA, stepB, reconcilePair, reconcileCore, deleteFromA, createInB, deleteFromB, createInA, findEntryByA, Store.deleteTask, Store.hasId,
      delRecord, PairRecord.key]
  · simp [syncTaskLists, stepA, stepB, reconcilePair, reconcileCore, deleteFromA, createInB, deleteFromB, createInA, findEntryByB, Store.deleteTask, Store.hasId,
      delRecord, PairRecord.key]

/-- C10.  When the A-loop update of the B-side task fails with 404 (the
target vanished from store B), the pair record is evicted mid-pass; the
B-loop then finds no record for the B-side task, which is present in the
B snapshot, and creates it as a brand-new task in store A with a fresh
pair record - the processedPairs mark, consulted only when a record is
found, does not prevent this. -/
theorem update_eviction_recreates (a b : Task) (t0 na now : Nat) (sB : Store)
    (hmod : t0 < a.updated) (hlate : b.updated < a.updated)
    (hne : tasksAreEqual a b = false) (habs : sB.hasId b.id = false) :
    (syncTaskLists [a] [b] ⟨[a], na⟩ sB ⟨[((a.id, b.id), ⟨a.id, b.id, t0⟩)], 0⟩ now).ops
      = [Op.updateB b.id a.payload, Op.createA b.payload]
    ∧ (syncTaskLists [a] [b] ⟨[a], na⟩ sB ⟨[((a.id, b.id), ⟨a.id, b.id, t0⟩)], 0⟩ now).syncState.tasks
      = [((na, b.id), ⟨na, b.id, b.updated⟩)]
    ∧ (syncTaskLists [a] [b] ⟨[a], na⟩ sB ⟨[((a.id, b.id), ⟨a.id, b.id, t0⟩)], 0⟩ now).storeA.tasks
      = [a, ⟨na, b.title, b.notes, b.status, b.due, none, now⟩]
    ∧ (syncTaskLists [a] [b] ⟨[a], na⟩ sB ⟨[((a.id, b.id), ⟨a.id, b.id, t0⟩)], 0⟩ now).storeB
      = sB := by
  by_cases hbM : t0 < b.updated
  · simp [syncTaskLists, stepA, stepB, reconcilePair, reconcileCore, deleteFromA, createInB, deleteFromB, createInA, findEntryByA, findEntryByB, syncAtoB,
      Store.updateTask, Store.createTask, setRecord, delRecord, Ledger.hasKey,
      PairRecord.key, Task.payload, hmod, hlate, hne, habs, hbM]
  · simp [syncTaskLists, stepA, stepB, reconcilePair, reconcileCore, deleteFromA, createInB, deleteFromB, createInA, findEntryByA, findEntryByB, syncAtoB,
      Store.updateTask, Store.createTask, setRecord, delRecord, Ledger.hasKey,
      PairRecord.key, Task.payload, hmod, hlate, hne, habs, hbM]

/-- Witness for update_eviction_recreates at concrete tasks with an empty
store B. -/
theorem update_eviction_recreates_witness :
    (syncTaskLists [mkTask 0 10 "new"] [mkTask 100 3 "old"] ⟨[mkTask 0 10 "new"], 1⟩ ⟨[], 101⟩
        ⟨[((0, 100), ⟨0, 100, 5⟩)], 0⟩ 50).ops
      = [Op.updateB 100 (mkTask 0 10 "new").payload, Op.createA (mkTask 100 3 "old").payload]
    ∧ (syncTaskLists [mkTask 0 10 "new"] [mkTask 100 3 "old"] ⟨[mkTask 0 10 "new"], 1⟩ ⟨[], 101⟩
        ⟨[((0, 100), ⟨0, 100, 5⟩)], 0⟩ 50).syncState.tasks
      = [((1, 100), ⟨1, 100, 3⟩)]
    ∧ (syncTaskLists [mkTask 0 10 "new"] [mkTask 100 3 "old"] ⟨[mkTask 0 10 "new"], 1⟩ ⟨[], 101⟩
        ⟨[((0, 100), ⟨0, 100, 5⟩)], 0⟩ 50).storeA.tasks
      = [mkTask 0 10 "new", ⟨1, "old", none, "needsAction", none, none, 50⟩]
    ∧ (syncTaskLists [mkTask 0 10 "new"] [mkTask 100 3 "old"] ⟨[mkTask 0 10 "new"], 1⟩ ⟨[], 101⟩
        ⟨[((0, 100), ⟨0, 100, 5⟩)], 0⟩ 50).storeB
      = ⟨[], 101⟩ :=
  update_eviction_recreates (mkTask 0 10 "new") (mkTask 100 3 "old") 5 1 50 ⟨[], 101⟩
    (by decide) (by decide) (by decide) (by decide)

theorem values_setRecord_replace (L : Ledger) (k : Key) (r : PairRecord)
    (h : L.hasKey k = true) :
    Ledger.values (setRecord L k r) = L.map (fun e => if e.1 == k then r else e.2) := by
  simp only [setRecord, h, if_true, Ledger.values, List.map_map]
  apply List.map_congr_left
  intro e _
  by_cases he : e.1 == k
  · simp [Function.comp, he]
  · simp [Function.comp, he]

theorem values_setRecord_append (L : Ledger) (k : Key) (r : PairRecord)
    (h : L.hasKey k = false) :
    Ledger.values (setRecord L k r) = Ledger.values L ++ [r] := by
  simp [setRecord, h, Ledger.values]

theorem mem_values_setRecord (L : Ledger) (k : Key) (r : PairRecord) (x : PairRecord)
    (hx : x ∈ Ledger.values (setRecord L k r)) : x ∈ Ledger.values L ∨ x = r := by
  cases h : L.hasKey k with
  | true =>
    rw [values_setRecord_replace L k r h] at hx
    obtain ⟨e, he, heq⟩ := List.mem_map.mp hx
    by_cases hek : e.1 == k
    · rw [if_pos hek] at heq
      exact Or.inr heq.symm
    · rw [if_neg hek] at heq
      exact Or.inl (heq ▸ List.mem_map_of_mem Prod.snd he)
  | false =>
    rw [values_setRecord_append L k r h] at hx
    rcases List.mem_append.mp hx with h1 | h1
    · exact Or.inl h1
    · exact Or.inr (List.mem_singleton.mp h1)

theorem delRecord_sublist (L : Ledger) (k : Key) : (delRecord L k).Sublist L :=
  List.filter_sublist L

theorem mem_values_delRecord (L : Ledger) (k : Key) (x : PairRecord)
    (hx : x ∈ Ledger.values (delRecord L k)) : x ∈ Ledger.values L :=
  ((delRecord_sublist L k).map Prod.snd).mem hx

theorem keys_setRecord (L : Ledger) (k : Key) (r : PairRecord) :
    (setRecord L k r).map Prod.fst =
      if L.hasKey k then L.map Prod.fst else L.map Prod.fst ++ [k] := by
  by_cases h : L.hasKey k
  · simp only [setRecord, h, if_true, List.map_map]
    apply List.map_congr_left
    intro e _
    by_cases he : e.1 == k
    · simp [Function.comp, he]
      exact (beq_iff_eq.mp he).symm
    · simp [Function.comp, he]
  · simp [setRecord, h]

theorem not_hasKey_iff (L : Ledger) (k : Key) :
    L.hasKey k = false ↔ k ∉ L.map Prod.fst := by
  rw [Ledger.hasKey, List.any_eq_false]
  constructor
  · intro h hm
    obtain ⟨e, he, hk⟩ := List.mem_map.mp hm
    exact absurd (beq_iff_eq.mpr hk) (by simpa using h e he)
  · intro h e he
    intro hk
    exact h ((beq_iff_eq.mp hk) ▸ List.mem_map_of_mem Prod.fst he)

theorem keysNodup_setRecord (L : Ledger) (k : Key) (r : PairRecord)
    (h : keysNodup L) : keysNodup (setRecord L k r) := by
  unfold keysNodup at h ⊢
  rw [keys_setRecord]
  by_cases hk : L.hasKey k = true
  · rw [if_pos hk]
    exact h
  · have hk0 : L.hasKey k = false := by simpa using hk
    rw [if_neg hk]
    rw [List.nodup_append]
    refine ⟨h, List.nodup_singleton k, ?_⟩
    intro x hx hx1
    rw [List.mem_singleton] at hx1
    exact (not_hasKey_iff L k).mp hk0 (hx1 ▸ hx)

theorem keysNodup_delRecord (L : Ledger) (k : Key) (h : keysNodup L) :
    keysNodup (delRecord L k) :=
  List.Nodup.sublist ((delRecord_sublist L k).map Prod.fst) h

theorem entry_unique_of_keysNodup (L : Ledger) (h : keysNodup L)
    (k : Key) (r : PairRecord) (hm : (k, r) ∈ L) :
    ∀ e ∈ L, e.1 = k → e = (k, r) := by
  intro e he hk
  exact List.inj_on_of_nodup_map h he hm hk

theorem map_values_setRecord_same (L : Ledger) (k : Key) (r r' : PairRecord)
    (f : PairRecord → Nat) (hnd : keysNodup L) (hm : (k, r) ∈ L) (hf : f r' = f r) :
    (Ledger.values (setRecord L k r')).map f = (Ledger.values L).map f := by
  have hh : L.hasKey k = true := by
    simp only [Ledger.hasKey, List.any_eq_true]
    exact ⟨(k, r), hm, by simp⟩
  rw [values_setRecord_replace L k r' hh, Ledger.values, List.map_map, List.map_map]
  apply List.map_congr_left
  intro e he
  by_cases hek : e.1 == k
  · have he2 : e = (k, r) := entry_unique_of_keysNodup L hnd k r hm e he (beq_iff_eq.mp hek)
    simp [Function.comp, hek, hf, he2]
  · simp [Function.comp, hek]

theorem nodup_map_values_setRecord (L : Ledger) (k : Key) (r' : PairRecord)
    (f : PairRecord → Nat) (hnd : keysNodup L)
    (h1 : ((Ledger.values L).map f).Nodup)
    (h2 : f r' ∉ (Ledger.values L).map f) :
    ((Ledger.values (setRecord L k r')).map f).Nodup := by
  cases hh : L.hasKey k with
  | false =>
    rw [values_setRecord_append L k r' hh, List.map_append, List.nodup_append]
    refine ⟨h1, by simp, ?_⟩
    intro x hx hx1
    simp only [List.map_singleton, List.mem_singleton] at hx1
    exact h2 (hx1 ▸ hx)
  | true =>
    rw [values_setRecord_replace L k r' hh, List.map_map]
    have hkeys : L.Pairwise (fun e1 e2 => e1.1 ≠ e2.1) := by
      unfold keysNodup at hnd
      rw [List.Nodup, List.pairwise_map] at hnd
      exact hnd
    have hvals : L.Pairwise (fun e1 e2 => f e1.2 ≠ f e2.2) := by
      rw [Ledger.values, List.map_map, List.Nodup, List.pairwise_map] at h1
      exact h1
    have h2x : ∀ e ∈ L, f r' ≠ f e.2 := by
      intro e he hfe
      exact h2 (hfe ▸ List.mem_map_of_mem f (List.mem_map_of_mem Prod.snd he))
    rw [List.Nodup, List.pairwise_map]
    refine (hkeys.and hvals).imp_of_mem ?_
    intro a b ha hb hr
    by_cases hk1 : a.1 == k <;> by_cases hk2 : b.1 == k <;>
      simp only [Function.comp, hk1, hk2, if_true, if_false]
    · exact absurd ((beq_iff_eq.mp hk1).trans (beq_iff_eq.mp hk2).symm) hr.1
    · exact h2x b hb
    · exact fun hfe => h2x a ha hfe.symm
    · exact hr.2

theorem nodup_map_values_delRecord (L : Ledger) (k : Key) (f : PairRecord → Nat)
    (h : ((Ledger.values L).map f).Nodup) :
    ((Ledger.values (delRecord L k)).map f).Nodup :=
  List.Nodup.sublist (((delRecord_sublist L k).map Prod.snd).map f) h

theorem findEntryByA_some (L : Ledger) (id : Nat) (k : Key) (r : PairRecord)
    (h : findEntryByA L id = some (k, r)) : (k, r) ∈ L ∧ r.accountAId = id := by
  unfold findEntryByA at h
  refine ⟨List.mem_of_find?_eq_some h, ?_⟩
  have h2 := List.find?_some h
  simpa using h2

theorem findEntryByA_none (L : Ledger) (id : Nat)
    (h : findEntryByA L id = none) : ∀ e ∈ L, e.2.accountAId ≠ id := by
  intro e he
  have := List.find?_eq_none.mp h e he
  simpa using this

theorem findEntryByB_some (L : Ledger) (id : Nat) (k : Key) (r : PairRecord)
    (h : findEntryByB L id = some (k, r)) : (k, r) ∈ L ∧ r.accountBId = id := by
  unfold findEntryByB at h
  refine ⟨List.mem_of_find?_eq_some h, ?_⟩
  have h2 := List.find?_some h
  simpa using h2

theorem findEntryByB_none (L : Ledger) (id : Nat)
    (h : findEntryByB L id = none) : ∀ e ∈ L, e.2.accountBId ≠ id := by
  intro e he
  have := List.find?_eq_none.mp h e he
  simpa using this

theorem WFInv_congr (tA tB : List Task) (c c' : Config)
    (hL : c'.ledger = c.ledger) (hA : c'.storeA.nextId = c.storeA.nextId)
    (hB : c'.storeB.nextId = c.storeB.nextId) (h : WFInv tA tB c) : WFInv tA tB c' := by
  refine ⟨hL ▸ h.keys, hL ▸ h.uniqA, hL ▸ h.uniqB, ?_, ?_, ?_, ?_⟩
  · intro x hx
    rw [hA]
    exact h.freshA x (hL ▸ hx)
  · intro x hx
    rw [hB]
    exact h.freshB x (hL ▸ hx)
  · intro t ht
    rw [hA]
    exact h.tfreshA t ht
  · intro t ht
    rw [hB]
    exact h.tfreshB t ht

theorem WFInv_setStamp (tA tB : List Task) (c : Config) (ek : Key) (r : PairRecord) (t : Nat)
    (h : WFInv tA tB c) (hm : (ek, r) ∈ c.ledger) :
    WFInv tA tB { c with ledger := setRecord c.ledger ek { r with lastSyncedUpdate := t } } := by
  have hrv : r ∈ Ledger.values c.ledger := List.mem_map_of_mem Prod.snd hm
  refine ⟨keysNodup_setRecord _ _ _ h.keys, ?_, ?_, ?_, ?_, h.tfreshA, h.tfreshB⟩
  · show ((Ledger.values (setRecord c.ledger ek { r with lastSyncedUpdate := t })).map
      PairRecord.accountAId).Nodup
    rw [map_values_setRecord_same c.ledger ek r { r with lastSyncedUpdate := t }
      PairRecord.accountAId h.keys hm rfl]
    exact h.uniqA
  · show ((Ledger.values (setRecord c.ledger ek { r with lastSyncedUpdate := t })).map
      PairRecord.accountBId).Nodup
    rw [map_values_setRecord_same c.ledger ek r { r with lastSyncedUpdate := t }
      PairRecord.accountBId h.keys hm rfl]
    exact h.uniqB
  · intro x hx
    rcases mem_values_setRecord _ _ _ _ hx with h1 | h1
    · exact h.freshA x h1
    · rw [h1]
      exact h.freshA r hrv
  · intro x hx
    rcases mem_values_setRecord _ _ _ _ hx with h1 | h1
    · exact h.freshB x h1
    · rw [h1]
      exact h.freshB r hrv

theorem WFInv_delLedger (tA tB : List Task) (c : Config) (k : Key) (h : WFInv tA tB c) :
    WFInv tA tB { c with ledger := delRecord c.ledger k } :=
  ⟨keysNodup_delRecord _ _ h.keys,
    nodup_map_values_delRecord _ _ _ h.uniqA,
    nodup_map_values_delRecord _ _ _ h.uniqB,
    fun x hx => h.freshA x (mem_values_delRecord _ _ _ hx),
    fun x hx => h.freshB x (mem_values_delRecord _ _ _ hx),
    h.tfreshA, h.tfreshB⟩

theorem not_mem_map_of_lt (vs : List PairRecord) (f : PairRecord → Nat) (n : Nat)
    (h : ∀ r ∈ vs, f r < n) : n ∉ vs.map f := by
  intro hm
  obtain ⟨r, hr, hf⟩ := List.mem_map.mp hm
  exact absurd (h r hr) (by omega)

theorem not_memA_of_findEntryByA_none (L : Ledger) (id : Nat)
    (h : findEntryByA L id = none) :
    id ∉ (Ledger.values L).map PairRecord.accountAId := by
  intro hm
  obtain ⟨r, hr, hid⟩ := List.mem_map.mp hm
  obtain ⟨e, he, hre⟩ := List.mem_map.mp hr
  exact findEntryByA_none L id h e he (by rw [hre]; exact hid)

theorem not_memB_of_findEntryByB_none (L : Ledger) (id : Nat)
    (h : findEntryByB L id = none) :
    id ∉ (Ledger.values L).map PairRecord.accountBId := by
  intro hm
  obtain ⟨r, hr, hid⟩ := List.mem_map.mp hm
  obtain ⟨e, he, hre⟩ := List.mem_map.mp hr
  exact findEntryByB_none L id h e he (by rw [hre]; exact hid)

theorem updateTask_ok_nextId (s : Store) (id : Nat) (p : Payload) (now : Nat) (s' : Store)
    (h : s.updateTask id p now = Except.ok s') : s'.nextId = s.nextId := by
  unfold Store.updateTask at h
  by_cases hid : s.hasId id = true
  · rw [if_pos hid] at h
    cases h
    rfl
  · rw [if_neg hid] at h
    cases h

theorem deleteTask_ok_nextId (s : Store) (id : Nat) (s' : Store)
    (h : s.deleteTask id = Except.ok s') : s'.nextId = s.nextId := by
  unfold Store.deleteTask at h
  by_cases hid : s.hasId id = true
  · rw [if_pos hid] at h
    cases h
    rfl
  · rw [if_neg hid] at h
    cases h

theorem syncAtoB_wf (tA tB : List Task) (now : Nat) (c : Config) (ek : Key) (r : PairRecord)
    (taskA taskB : Task) (h : WFInv tA tB c) (hm : (ek, r) ∈ c.ledger) :
    WFInv tA tB (syncAtoB now c ek r taskA taskB) := by
  unfold syncAtoB
  by_cases heq : tasksAreEqual taskA taskB = true
  · rw [if_pos heq]
    exact WFInv_setStamp tA tB c ek r taskA.updated h hm
  · rw [if_neg heq]
    cases hup : c.storeB.updateTask taskB.id taskA.payload now with
    | ok sB =>
      exact WFInv_congr tA tB
        { c with ledger := setRecord c.ledger ek { r with lastSyncedUpdate := taskA.updated } } _
        rfl rfl (updateTask_ok_nextId _ _ _ _ _ hup)
        (WFInv_setStamp tA tB c ek r taskA.updated h hm)
    | error code =>
      show WFInv tA tB (if (code == 404 || code == 400) = true then
          { c with ledger := delRecord c.ledger r.key,
                   ops := c.ops ++ [Op.updateB taskB.id taskA.payload] }
        else { c with ops := c.ops ++ [Op.updateB taskB.id taskA.payload] })
      by_cases hc : (code == 404 || code == 400) = true
      · rw [if_pos hc]
        exact WFInv_congr tA tB { c with ledger := delRecord c.ledger r.key } _
          rfl rfl rfl (WFInv_delLedger tA tB c r.key h)
      · rw [if_neg hc]
        exact WFInv_congr tA tB c _ rfl rfl rfl h

theorem syncBtoA_wf (tA tB : List Task) (now : Nat) (c : Config) (ek : Key) (r : PairRecord)
    (taskA taskB : Task) (h : WFInv tA tB c) (hm : (ek, r) ∈ c.ledger) :
    WFInv tA tB (syncBtoA now c ek r taskA taskB) := by
  unfold syncBtoA
  by_cases heq : tasksAreEqual taskA taskB = true
  · rw [if_pos heq]
    exact WFInv_setStamp tA tB c ek r taskB.updated h hm
  · rw [if_neg heq]
    cases hup : c.storeA.updateTask taskA.id taskB.payload now with
    | ok sA =>
      exact WFInv_congr tA tB
        { c with ledger := setRecord c.ledger ek { r with lastSyncedUpdate := taskB.updated } } _
        rfl (updateTask_ok_nextId _ _ _ _ _ hup) rfl
        (WFInv_setStamp tA tB c ek r taskB.updated h hm)
    | error code =>
      show WFInv tA tB (if (code == 404 || code == 400) = true then
          { c with ledger := delRecord c.ledger r.key,
                   ops := c.ops ++ [Op.updateA taskA.id taskB.payload] }
        else { c with ops := c.ops ++ [Op.updateA taskA.id taskB.payload] })
      by_cases hc : (code == 404 || code == 400) = true
      · rw [if_pos hc]
        exact WFInv_congr tA tB { c with ledger := delRecord c.ledger r.key } _
          rfl rfl rfl (WFInv_delLedger tA tB c r.key h)
      · rw [if_neg hc]
        exact WFInv_congr tA tB c _ rfl rfl rfl h

theorem reconcileCore_wf (tA tB : List Task) (now : Nat) (c : Config) (ek : Key)
    (r : PairRecord) (taskA taskB : Task) (h : WFInv tA tB c) (hm : (ek, r) ∈ c.ledger) :
    WFInv tA tB (reconcileCore now c ek r taskA taskB) := by
  show WFInv tA tB (if (decide (r.lastSyncedUpdate < taskA.updated) &&
      decide (r.lastSyncedUpdate < taskB.updated)) = true then
        if taskB.updated < taskA.updated then syncAtoB now c ek r taskA taskB
        else syncBtoA now c ek r taskA taskB
      else if decide (r.lastSyncedUpdate < taskA.updated) = true then
        syncAtoB now c ek r taskA taskB
      else if decide (r.lastSyncedUpdate < taskB.updated) = true then
        syncBtoA now c ek r taskA taskB
      else c)
  split_ifs
  all_goals first
    | exact syncAtoB_wf tA tB now c ek r taskA taskB h hm
    | exact syncBtoA_wf tA tB now c ek r taskA taskB h hm
    | exact h

theorem reconcilePair_wf (tA tB : List Task) (now : Nat) (c : Config) (ek : Key)
    (r : PairRecord) (taskA taskB : Task) (h : WFInv tA tB c) (hm : (ek, r) ∈ c.ledger) :
    WFInv tA tB (reconcilePair now c ek r taskA taskB) :=
  WFInv_congr tA tB (reconcileCore now c ek r taskA taskB) _ rfl rfl rfl
    (reconcileCore_wf tA tB now c ek r taskA taskB h hm)

theorem deleteFromA_wf (tA tB : List Task) (c : Config) (taskA : Task) (r : PairRecord)
    (h : WFInv tA tB c) : WFInv tA tB (deleteFromA c taskA r) := by
  unfold deleteFromA
  cases hd : c.storeA.deleteTask taskA.id with
  | ok sA =>
    exact WFInv_congr tA tB { c with ledger := delRecord c.ledger r.key } _
      rfl (deleteTask_ok_nextId _ _ _ hd) rfl (WFInv_delLedger tA tB c r.key h)
  | error _ =>
    exact WFInv_congr tA tB { c with ledger := delRecord c.ledger r.key } _
      rfl rfl rfl (WFInv_delLedger tA tB c r.key h)

theorem createInB_wf (tA tB : List Task) (now : Nat) (c : Config) (taskA : Task)
    (h : WFInv tA tB c) (hA : taskA.id < c.storeA.nextId)
    (hf : findEntryByA c.ledger taskA.id = none) :
    WFInv tA tB (createInB now c taskA) := by
  unfold createInB
  have hidA := not_memA_of_findEntryByA_none c.ledger taskA.id hf
  refine ⟨keysNodup_setRecord _ _ _ h.keys, ?_, ?_, ?_, ?_, ?_, ?_⟩
  · exact nodup_map_values_setRecord _ _ _ _ h.keys h.uniqA hidA
  · exact nodup_map_values_setRecord _ _ _ _ h.keys h.uniqB
      (not_mem_map_of_lt _ _ _ h.freshB)
  · intro x hx
    rcases mem_values_setRecord _ _ _ _ hx with h1 | h1
    · exact h.freshA x h1
    · rw [h1]
      exact hA
  · intro x hx
    rcases mem_values_setRecord _ _ _ _ hx with h1 | h1
    · have := h.freshB x h1
      simp only [Store.createTask]
      omega
    · rw [h1]
      simp only [Store.createTask]
      omega
  · intro t ht
    exact h.tfreshA t ht
  · intro t ht
    have := h.tfreshB t ht
    simp only [Store.createTask]
    omega

theorem deleteFromB_wf (tA tB : List Task) (c : Config) (taskB : Task) (r : PairRecord)
    (h : WFInv tA tB c) : WFInv tA tB (deleteFromB c taskB r) := by
  unfold deleteFromB
  cases hd : c.storeB.deleteTask taskB.id with
  | ok sB =>
    exact WFInv_congr tA tB { c with ledger := delRecord c.ledger r.key } _
      rfl rfl (deleteTask_ok_nextId _ _ _ hd) (WFInv_delLedger tA tB c r.key h)
  | error _ =>
    exact WFInv_congr tA tB { c with ledger := delRecord c.ledger r.key } _
      rfl rfl rfl (WFInv_delLedger tA tB c r.key h)

theorem createInA_wf (tA tB : List Task) (now : Nat) (c : Config) (taskB : Task)
    (h : WFInv tA tB c) (hB : taskB.id < c.storeB.nextId)
    (hf : findEntryByB c.ledger taskB.id = none) :
    WFInv tA tB (createInA now c taskB) := by
  unfold createInA
  have hidB := not_memB_of_findEntryByB_none c.ledger taskB.id hf
  refine ⟨keysNodup_setRecord _ _ _ h.keys, ?_, ?_, ?_, ?_, ?_, ?_⟩
  · exact nodup_map_values_setRecord _ _ _ _ h.keys h.uniqA
      (not_mem_map_of_lt _ _ _ h.freshA)
  · exact nodup_map_values_setRecord _ _ _ _ h.keys h.uniqB hidB
  · intro x hx
    rcases mem_values_setRecord _ _ _ _ hx with h1 | h1
    · have := h.freshA x h1
      simp only [Store.createTask]
      omega
    · rw [h1]
      simp only [Store.createTask]
      omega
  · intro x hx
    rcases mem_values_setRecord _ _ _ _ hx with h1 | h1
    · exact h.freshB x h1
    · rw [h1]
      exact hB
  · intro t ht
    have := h.tfreshA t ht
    simp only [Store.createTask]
    omega
  · intro t ht
    exact h.tfreshB t ht

theorem stepA_wf (tA tB : List Task) (now : Nat) (c : Config) (taskA : Task)
    (h : WFInv tA tB c) (hA : taskA.id < c.storeA.nextId) :
    WFInv tA tB (stepA tB now c taskA) := by
  unfold stepA
  cases hf : findEntryByA c.ledger taskA.id with
  | none =>
    exact createInB_wf tA tB now c taskA h hA hf
  | some e =>
    obtain ⟨ek, r⟩ := e
    have hmem := (findEntryByA_some c.ledger taskA.id ek r hf).1
    show WFInv tA tB (match tB.find? (fun t => t.id == r.accountBId) with
      | some taskB => reconcilePair now c ek r taskA taskB
      | none => deleteFromA c taskA r)
    cases tB.find? (fun t => t.id == r.accountBId) with
    | some taskB => exact reconcilePair_wf tA tB now c ek r taskA taskB h hmem
    | none => exact deleteFromA_wf tA tB c taskA r h

theorem stepB_wf (tA tB : List Task) (now : Nat) (c : Config) (taskB : Task)
    (h : WFInv tA tB c) (hB : taskB.id < c.storeB.nextId) :
    WFInv tA tB (stepB now c taskB) := by
  unfold stepB
  cases hf : findEntryByB c.ledger taskB.id with
  | none =>
    exact createInA_wf tA tB now c taskB h hB hf
  | some e =>
    obtain ⟨ek, r⟩ := e
    show WFInv tA tB (if c.processed.contains r.key then c else deleteFromB c taskB r)
    by_cases hp : c.processed.contains r.key = true
    · rw [if_pos hp]
      exact h
    · rw [if_neg hp]
      exact deleteFromB_wf tA tB c taskB r h

theorem foldl_stepA_wf (tA tB : List Task) (now : Nat) :
    ∀ (l : List Task) (c : Config), (∀ x ∈ l, x ∈ tA) → WFInv tA tB c →
    WFInv tA tB (l.foldl (stepA tB now) c) := by
  intro l
  induction l with
  | nil => intro c _ h; exact h
  | cons a l ih =>
    intro c hsub h
    rw [List.foldl_cons]
    refine ih _ (fun x hx => hsub x (List.mem_cons_of_mem a hx)) ?_
    exact stepA_wf tA tB now c a h (h.tfreshA a (hsub a (List.mem_cons_self a l)))

theorem foldl_stepB_wf (tA tB : List Task) (now : Nat) :
    ∀ (l : List Task) (c : Config), (∀ x ∈ l, x ∈ tB) → WFInv tA tB c →
    WFInv tA tB (l.foldl (stepB now) c) := by
  intro l
  induction l with
  | nil => intro c _ h; exact h
  | cons b l ih =>
    intro c hsub h
    rw [List.foldl_cons]
    refine ih _ (fun x hx => hsub x (List.mem_cons_of_mem b hx)) ?_
    exact stepB_wf tA tB now c b h (h.tfreshB b (hsub b (List.mem_cons_self b l)))

theorem ledgerUnique_iff (L : Ledger) :
    ledgerUnique L ↔ sideUniqueA L ∧ sideUniqueB L := by
  unfold ledgerUnique sideUniqueA sideUniqueB
  constructor
  · intro h
    constructor
    · rw [List.Nodup, List.pairwise_map]
      exact h.imp (fun hab => hab.1)
    · rw [List.Nodup, List.pairwise_map]
      exact h.imp (fun hab => hab.2)
  · intro hh
    have h1 := hh.1
    have h2 := hh.2
    rw [List.Nodup, List.pairwise_map] at h1
    rw [List.Nodup, List.pairwise_map] at h2
    exact h1.and h2

/-- C7.  For all snapshots and every input ledger satisfying the
uniqueness invariant (with distinct object keys and store id counters
fresh over every id in sight), the ledger produced by the pass again
satisfies the invariant: at most one pair record per (idInA, idInB)
combination, and any task id of either store appears in at most one
record. -/
theorem ledger_uniqueness_preserved (tasksA tasksB : List Task) (sA sB : Store)
    (L : Ledger) (t now : Nat)
    (hkeys : keysNodup L) (hu : ledgerUnique L)
    (hfA : ∀ r ∈ Ledger.values L, r.accountAId < sA.nextId)
    (hfB : ∀ r ∈ Ledger.values L, r.accountBId < sB.nextId)
    (htA : ∀ x ∈ tasksA, x.id < sA.nextId)
    (htB : ∀ x ∈ tasksB, x.id < sB.nextId) :
    ledgerUnique (syncTaskLists tasksA tasksB sA sB ⟨L, t⟩ now).syncState.tasks := by
  obtain ⟨huA, huB⟩ := (ledgerUnique_iff L).mp hu
  have h0 : WFInv tasksA tasksB ⟨sA, sB, L, [], []⟩ :=
    ⟨hkeys, huA, huB, hfA, hfB, htA, htB⟩
  have h1 := foldl_stepA_wf tasksA tasksB now tasksA ⟨sA, sB, L, [], []⟩ (fun x hx => hx) h0
  have h2 := foldl_stepB_wf tasksA tasksB now tasksB _ (fun x hx => hx) h1
  exact (ledgerUnique_iff _).mpr ⟨h2.uniqA, h2.uniqB⟩

/-- Witness for ledger_uniqueness_preserved on a small concrete pass. -/
theorem ledger_uniqueness_preserved_witness :
    ledgerUnique (syncTaskLists [mkTask 0 10 "x", mkTask 1 3 "y"] [mkTask 100 12 "z"]
      ⟨[mkTask 0 10 "x", mkTask 1 3 "y"], 50⟩ ⟨[mkTask 100 12 "z"], 150⟩
      ⟨[((0, 100), ⟨0, 100, 5⟩)], 0⟩ 1000).syncState.tasks := by
  have h := ledger_uniqueness_preserved [mkTask 0 10 "x", mkTask 1 3 "y"] [mkTask 100 12 "z"]
    ⟨[mkTask 0 10 "x", mkTask 1 3 "y"], 50⟩ ⟨[mkTask 100 12 "z"], 150⟩
    [((0, 100), ⟨0, 100, 5⟩)] 0 1000
    (by unfold keysNodup; decide) (by unfold ledgerUnique; decide)
    (by decide) (by decide) (by decide) (by decide)
  exact h

theorem value_unique_by_A (L : Ledger) (h : sideUniqueA L) (x y : PairRecord)
    (hx : x ∈ Ledger.values L) (hy : y ∈ Ledger.values L)
    (hxy : x.accountAId = y.accountAId) : x = y :=
  List.inj_on_of_nodup_map h hx hy hxy

theorem value_unique_by_B (L : Ledger) (h : sideUniqueB L) (x y : PairRecord)
    (hx : x ∈ Ledger.values L) (hy : y ∈ Ledger.values L)
    (hxy : x.accountBId = y.accountBId) : x = y :=
  List.inj_on_of_nodup_map h hx hy hxy

theorem find_task_first (ts : List Task) (n : Nat) (b : Task) (hw : TasksWF ts)
    (hb : b ∈ ts) (hid : b.id = n) : ts.find? (fun t => t.id == n) = some b := by
  cases hft : ts.find? (fun t => t.id == n) with
  | none =>
    have := List.find?_eq_none.mp hft b hb
    simp [hid] at this
  | some x =>
    have hx1 := List.mem_of_find?_eq_some hft
    have hx2 := List.find?_some hft
    simp only [beq_iff_eq] at hx2
    have hxb : x = b := List.inj_on_of_nodup_map hw hx1 hb (by rw [hx2, hid])
    rw [hxb]

theorem mem_setRecord_of_key_ne (L : Ledger) (k : Key) (r : PairRecord)
    (e : Key × PairRecord) (he : e ∈ L) (hne : e.1 ≠ k) : e ∈ setRecord L k r := by
  unfold setRecord
  by_cases hk : L.hasKey k = true
  · rw [if_pos hk]
    have hmap : (fun x => if x.1 == k then (k, r) else x) e = e := by
      simp [hne]
    exact List.mem_map.mpr ⟨e, he, hmap⟩
  · rw [if_neg hk]
    exact List.mem_append_left _ he

theorem mem_setRecord_self (L : Ledger) (k : Key) (r : PairRecord) :
    (k, r) ∈ setRecord L k r := by
  unfold setRecord
  by_cases hk : L.hasKey k = true
  · rw [if_pos hk]
    unfold Ledger.hasKey at hk
    obtain ⟨e, he, hek⟩ := List.any_eq_true.mp hk
    have hmap : (fun x => if x.1 == k then (k, r) else x) e = (k, r) := by
      simp only [hek, if_true]
    exact List.mem_map.mpr ⟨e, he, hmap⟩
  · rw [if_neg hk]
    exact List.mem_append_right _ (List.mem_singleton.mpr rfl)

theorem reconcileCore_eq (now : Nat) (c : Config) (ek : Key) (r : PairRecord) (a b : Task) :
    reconcileCore now c ek r a b =
      if (decide (r.lastSyncedUpdate < a.updated) &&
          decide (r.lastSyncedUpdate < b.updated)) = true then
        if b.updated < a.updated then syncAtoB now c ek r a b else syncBtoA now c ek r a b
      else if decide (r.lastSyncedUpdate < a.updated) = true then syncAtoB now c ek r a b
      else if decide (r.lastSyncedUpdate < b.updated) = true then syncBtoA now c ek r a b
      else c :=
  rfl

theorem syncAtoB_equal (now : Nat) (c : Config) (ek : Key) (r : PairRecord) (a b : Task)
    (heq : tasksAreEqual a b = true) :
    syncAtoB now c ek r a b =
      { c with ledger := setRecord c.ledger ek { r with lastSyncedUpdate := a.updated } } := by
  unfold syncAtoB
  rw [if_pos heq]

theorem syncBtoA_equal (now : Nat) (c : Config) (ek : Key) (r : PairRecord) (a b : Task)
    (heq : tasksAreEqual a b = true) :
    syncBtoA now c ek r a b =
      { c with ledger := setRecord c.ledger ek { r with lastSyncedUpdate := b.updated } } := by
  unfold syncBtoA
  rw [if_pos heq]

theorem reconcileCore_noop (now : Nat) (c : Config) (ek : Key) (r : PairRecord) (a b : Task)
    (hg : goodPair a b r.lastSyncedUpdate) :
    reconcileCore now c ek r a b = c ∨
    (tasksAreEqual a b = true ∧ ∃ X, reconcileCore now c ek r a b =
      { c with ledger := setRecord c.ledger ek { r with lastSyncedUpdate := X } }) := by
  rw [reconcileCore_eq]
  rcases hg with heq | hunmod
  · split_ifs
    · exact Or.inr ⟨heq, a.updated, syncAtoB_equal now c ek r a b heq⟩
    · exact Or.inr ⟨heq, b.updated, syncBtoA_equal now c ek r a b heq⟩
    · exact Or.inr ⟨heq, a.updated, syncAtoB_equal now c ek r a b heq⟩
    · exact Or.inr ⟨heq, b.updated, syncBtoA_equal now c ek r a b heq⟩
    · exact Or.inl rfl
  · have h1 : decide (r.lastSyncedUpdate < a.updated) = false := by
      simp only [decide_eq_false_iff_not]
      omega
    have h2 : decide (r.lastSyncedUpdate < b.updated) = false := by
      simp only [decide_eq_false_iff_not]
      omega
    rw [h1, h2]
    simp

theorem stepA_noop (tsA tsB : List Task) (sA sB : Store) (now : Nat) (c : Config) (a : Task)
    (h : NInv tsA tsB sA sB c) (htwA : TasksWF tsA) (htwB : TasksWF tsB) (ha : a ∈ tsA) :
    NInv tsA tsB sA sB (stepA tsB now c a)
    ∧ (∃ e ∈ (stepA tsB now c a).ledger,
        e.2.accountAId = a.id ∧ e.2.key ∈ (stepA tsB now c a).processed)
    ∧ (∀ x : Nat, (∃ e ∈ c.ledger, e.2.accountAId = x ∧ e.2.key ∈ c.processed) →
        (∃ e ∈ (stepA tsB now c a).ledger,
          e.2.accountAId = x ∧ e.2.key ∈ (stepA tsB now c a).processed)) := by
  obtain ⟨rv, hrv, hrva⟩ := List.mem_map.mp (h.covA a ha)
  obtain ⟨e0, he0, he0v⟩ := List.mem_map.mp hrv
  have hfind : ∃ u, findEntryByA c.ledger a.id = some u := by
    apply Option.isSome_iff_exists.mp
    unfold findEntryByA
    rw [List.find?_isSome]
    exact ⟨e0, he0, by simp [he0v, hrva]⟩
  obtain ⟨⟨ek, r⟩, hf⟩ := hfind
  have hfs := findEntryByA_some c.ledger a.id ek r hf
  have hrval : r ∈ Ledger.values c.ledger := List.mem_map_of_mem Prod.snd hfs.1
  rcases h.rOK r hrval with ⟨a0, ha0, ha0id, b0, hb0, hb0id, hg⟩ | ⟨habs, _⟩
  · have ha0a : a0 = a := by
      apply List.inj_on_of_nodup_map htwA ha0 ha
      rw [ha0id, hfs.2]
    subst ha0a
    have hfb : tsB.find? (fun t => t.id == r.accountBId) = some b0 :=
      find_task_first tsB r.accountBId b0 htwB hb0 hb0id
    have hstep : stepA tsB now c a0 = reconcilePair now c ek r a0 b0 := by
      unfold stepA
      rw [hf]
      show (match tsB.find? (fun t => t.id == r.accountBId) with
        | some taskB => reconcilePair now c ek r a0 taskB
        | none => deleteFromA c a0 r) = reconcilePair now c ek r a0 b0
      rw [hfb]
    rw [hstep]
    rcases reconcileCore_noop now c ek r a0 b0 hg with hc | ⟨heq, X, hcX⟩
    · have hrp : reconcilePair now c ek r a0 b0 =
          { c with processed := c.processed ++ [r.key] } := by
        unfold reconcilePair
        rw [hc]
      rw [hrp]
      refine ⟨⟨WFInv_congr tsA tsB c _ rfl rfl rfl h.wf, h.stA, h.stB, h.ops0,
          h.covA, h.covB, h.rOK⟩, ?_, ?_⟩
      · exact ⟨(ek, r), hfs.1, hfs.2,
          List.mem_append_right _ (List.mem_singleton.mpr rfl)⟩
      · intro x hx
        obtain ⟨e, he, hex, hek⟩ := hx
        exact ⟨e, he, hex, List.mem_append_left _ hek⟩
    · have hrp : reconcilePair now c ek r a0 b0 =
          { c with ledger := setRecord c.ledger ek { r with lastSyncedUpdate := X },
                   processed := c.processed ++ [r.key] } := by
        unfold reconcilePair
        rw [hcX]
      rw [hrp]
      have hmapA := map_values_setRecord_same c.ledger ek r
        { r with lastSyncedUpdate := X } PairRecord.accountAId h.wf.keys hfs.1 rfl
      have hmapB := map_values_setRecord_same c.ledger ek r
        { r with lastSyncedUpdate := X } PairRecord.accountBId h.wf.keys hfs.1 rfl
      refine ⟨⟨WFInv_congr tsA tsB
          { c with ledger := setRecord c.ledger ek { r with lastSyncedUpdate := X } } _
          rfl rfl rfl (WFInv_setStamp tsA tsB c ek r X h.wf hfs.1),
          h.stA, h.stB, h.ops0, ?_, ?_, ?_⟩, ?_, ?_⟩
      · intro a1 ha1
        show a1.id ∈ (Ledger.values (setRecord c.ledger ek
          { r with lastSyncedUpdate := X })).map PairRecord.accountAId
        rw [hmapA]
        exact h.covA a1 ha1
      · intro b1 hb1
        show b1.id ∈ (Ledger.values (setRecord c.ledger ek
          { r with lastSyncedUpdate := X })).map PairRecord.accountBId
        rw [hmapB]
        exact h.covB b1 hb1
      · intro r1 hr1
        rcases mem_values_setRecord _ _ _ _ hr1 with h1 | h1
        · exact h.rOK r1 h1
        · rw [h1]
          exact Or.inl ⟨a0, ha, hfs.2.symm, b0, hb0, hb0id, Or.inl heq⟩
      · refine ⟨(ek, { r with lastSyncedUpdate := X }), mem_setRecord_self _ _ _,
          hfs.2, ?_⟩
        show { r with lastSyncedUpdate := X }.key ∈ c.processed ++ [r.key]
        have hkk : { r with lastSyncedUpdate := X }.key = r.key := rfl
        rw [hkk]
        exact List.mem_append_right _ (List.mem_singleton.mpr rfl)
      · intro x hx
        obtain ⟨e, he, hex, hek⟩ := hx
        by_cases hke : e.1 = ek
        · have hee : e = (ek, r) := entry_unique_of_keysNodup c.ledger h.wf.keys ek r hfs.1 e he hke
          refine ⟨(ek, { r with lastSyncedUpdate := X }), mem_setRecord_self _ _ _, ?_, ?_⟩
          · show { r with lastSyncedUpdate := X }.accountAId = x
            rw [← hex, hee]
          · show { r with lastSyncedUpdate := X }.key ∈ c.processed ++ [r.key]
            have hkk : { r with lastSyncedUpdate := X }.key = r.key := rfl
            rw [hkk]
            have : e.2.key = r.key := by rw [hee]
            exact List.mem_append_left _ (this ▸ hek)
        · exact ⟨e, mem_setRecord_of_key_ne c.ledger ek _ e he hke, hex,
            List.mem_append_left _ hek⟩
  · exact absurd hfs.2.symm (habs a ha)

theorem stepB_skip (tsA tsB : List Task) (sA sB : Store) (now : Nat) (c : Config) (b : Task)
    (h : NInv tsA tsB sA sB c) (hb : b ∈ tsB)
    (hmarked : ∀ x ∈ tsA, ∃ e ∈ c.ledger, e.2.accountAId = x.id ∧ e.2.key ∈ c.processed) :
    stepB now c b = c := by
  obtain ⟨rv, hrv, hrvb⟩ := List.mem_map.mp (h.covB b hb)
  obtain ⟨e0, he0, he0v⟩ := List.mem_map.mp hrv
  have hfind : ∃ u, findEntryByB c.ledger b.id = some u := by
    apply Option.isSome_iff_exists.mp
    unfold findEntryByB
    rw [List.find?_isSome]
    exact ⟨e0, he0, by simp [he0v, hrvb]⟩
  obtain ⟨⟨ek1, r1⟩, hf⟩ := hfind
  have hfs := findEntryByB_some c.ledger b.id ek1 r1 hf
  have hr1val : r1 ∈ Ledger.values c.ledger := List.mem_map_of_mem Prod.snd hfs.1
  rcases h.rOK r1 hr1val with ⟨a1, ha1, ha1id, b1, hb1, hb1id, _⟩ | ⟨_, habsB⟩
  · obtain ⟨e2, he2, he2a, he2k⟩ := hmarked a1 ha1
    have he2r : e2.2 = r1 := by
      apply value_unique_by_A c.ledger h.wf.uniqA e2.2 r1
        (List.mem_map_of_mem Prod.snd he2) hr1val
      rw [he2a, ← ha1id]
    have hkey : r1.key ∈ c.processed := he2r ▸ he2k
    unfold stepB
    rw [hf]
    show (if c.processed.contains r1.key then c else deleteFromB c b r1) = c
    rw [if_pos ?hc]
    case hc =>
      exact List.elem_iff.mpr hkey
  · exact absurd hfs.2.symm (habsB b hb)

theorem foldA_noop (tsA tsB : List Task) (sA sB : Store) (now : Nat)
    (htwA : TasksWF tsA) (htwB : TasksWF tsB) :
    ∀ (l : List Task) (c : Config), (∀ x ∈ l, x ∈ tsA) → NInv tsA tsB sA sB c →
    NInv tsA tsB sA sB (l.foldl (stepA tsB now) c)
    ∧ (∀ x : Nat, (∃ e ∈ c.ledger, e.2.accountAId = x ∧ e.2.key ∈ c.processed) →
        (∃ e ∈ (l.foldl (stepA tsB now) c).ledger,
          e.2.accountAId = x ∧ e.2.key ∈ (l.foldl (stepA tsB now) c).processed))
    ∧ (∀ a ∈ l, ∃ e ∈ (l.foldl (stepA tsB now) c).ledger,
        e.2.accountAId = a.id ∧ e.2.key ∈ (l.foldl (stepA tsB now) c).processed) := by
  intro l
  induction l with
  | nil =>
    intro c _ h
    exact ⟨h, fun x hx => hx, fun a ha => absurd ha (List.not_mem_nil a)⟩
  | cons a l ih =>
    intro c hsub h
    have hstep := stepA_noop tsA tsB sA sB now c a h htwA htwB (hsub a (List.mem_cons_self a l))
    rw [List.foldl_cons]
    obtain ⟨hrest, hper, hmark⟩ := ih (stepA tsB now c a)
      (fun x hx => hsub x (List.mem_cons_of_mem a hx)) hstep.1
    refine ⟨hrest, ?_, ?_⟩
    · intro x hx
      exact hper x (hstep.2.2 x hx)
    · intro a1 ha1
      rcases List.mem_cons.mp ha1 with h1 | h1
      · subst h1
        obtain ⟨e, he, hea, hek⟩ := hstep.2.1
        exact hper a1.id ⟨e, he, hea, hek⟩
      · exact hmark a1 h1

theorem foldB_skip (tsA tsB : List Task) (sA sB : Store) (now : Nat) :
    ∀ (l : List Task) (c : Config), (∀ x ∈ l, x ∈ tsB) → NInv tsA tsB sA sB c →
    (∀ x ∈ tsA, ∃ e ∈ c.ledger, e.2.accountAId = x.id ∧ e.2.key ∈ c.processed) →
    l.foldl (stepB now) c = c := by
  intro l
  induction l with
  | nil => intro c _ _ _; rfl
  | cons b l ih =>
    intro c hsub h hmarked
    rw [List.foldl_cons,
      stepB_skip tsA tsB sA sB now c b h (hsub b (List.mem_cons_self b l)) hmarked]
    exact ih c (fun x hx => hsub x (List.mem_cons_of_mem b hx)) h hmarked

theorem converged_pass_noop (sA sB : Store) (L : Ledger) (t now : Nat)
    (hkeys : keysNodup L) (huA : sideUniqueA L) (huB : sideUniqueB L)
    (hfA : ∀ r ∈ Ledger.values L, r.accountAId < sA.nextId)
    (hfB : ∀ r ∈ Ledger.values L, r.accountBId < sB.nextId)
    (hsfA : StoreFresh sA) (hsfB : StoreFresh sB)
    (htwA : TasksWF sA.tasks) (htwB : TasksWF sB.tasks)
    (hcovA : ∀ a ∈ sA.tasks, a.id ∈ (Ledger.values L).map PairRecord.accountAId)
    (hcovB : ∀ b ∈ sB.tasks, b.id ∈ (Ledger.values L).map PairRecord.accountBId)
    (hrOK : ∀ r ∈ Ledger.values L, recOKplus sA.tasks sB.tasks r) :
    (syncTaskLists sA.tasks sB.tasks sA sB ⟨L, t⟩ now).ops = []
    ∧ (syncTaskLists sA.tasks sB.tasks sA sB ⟨L, t⟩ now).storeA = sA
    ∧ (syncTaskLists sA.tasks sB.tasks sA sB ⟨L, t⟩ now).storeB = sB := by
  have h0 : NInv sA.tasks sB.tasks sA sB ⟨sA, sB, L, [], []⟩ :=
    ⟨⟨hkeys, huA, huB, hfA, hfB, hsfA, hsfB⟩, rfl, rfl, rfl, hcovA, hcovB, hrOK⟩
  obtain ⟨h1, _, hmarkedAll⟩ := foldA_noop sA.tasks sB.tasks sA sB now htwA htwB
    sA.tasks ⟨sA, sB, L, [], []⟩ (fun x hx => hx) h0
  have hm : ∀ x ∈ sA.tasks,
      ∃ e ∈ (sA.tasks.foldl (stepA sB.tasks now) ⟨sA, sB, L, [], []⟩).ledger,
        e.2.accountAId = x.id ∧
        e.2.key ∈ (sA.tasks.foldl (stepA sB.tasks now) ⟨sA, sB, L, [], []⟩).processed := by
    intro x hx
    obtain ⟨e, he, hea, hek⟩ := hmarkedAll x hx
    exact ⟨e, he, hea, hek⟩
  have h2 := foldB_skip sA.tasks sB.tasks sA sB now sB.tasks
    (sA.tasks.foldl (stepA sB.tasks now) ⟨sA, sB, L, [], []⟩) (fun x hx => hx) h1 hm
  refine ⟨?_, ?_, ?_⟩
  · show (sB.tasks.foldl (stepB now)
      (sA.tasks.foldl (stepA sB.tasks now) ⟨sA, sB, L, [], []⟩)).ops = []
    rw [h2]
    exact h1.ops0
  · show (sB.tasks.foldl (stepB now)
      (sA.tasks.foldl (stepA sB.tasks now) ⟨sA, sB, L, [], []⟩)).storeA = sA
    rw [h2]
    exact h1.stA
  · show (sB.tasks.foldl (stepB now)
      (sA.tasks.foldl (stepA sB.tasks now) ⟨sA, sB, L, [], []⟩)).storeB = sB
    rw [h2]
    exact h1.stB

theorem setRecord_eq_append (L : Ledger) (k : Key) (r : PairRecord)
    (h : L.hasKey k = false) : setRecord L k r = L ++ [(k, r)] := by
  unfold setRecord
  rw [if_neg (by simp [h])]

theorem mem_delRecord_iff (L : Ledger) (k : Key) (e : Key × PairRecord) :
    e ∈ delRecord L k ↔ e ∈ L ∧ e.1 ≠ k := by
  unfold delRecord
  rw [List.mem_filter]
  simp [bne_iff_ne]

theorem mem_setRecord_elim (L : Ledger) (k : Key) (r : PairRecord) (e : Key × PairRecord)
    (he : e ∈ setRecord L k r) : e = (k, r) ∨ (e ∈ L ∧ e.1 ≠ k) := by
  unfold setRecord at he
  by_cases hk : L.hasKey k = true
  · rw [if_pos hk] at he
    obtain ⟨e0, he0, heq⟩ := List.mem_map.mp he
    by_cases hek : (e0.1 == k) = true
    · rw [if_pos hek] at heq
      exact Or.inl heq.symm
    · rw [if_neg hek] at heq
      refine Or.inr ⟨heq ▸ he0, ?_⟩
      rw [← heq]
      simpa using hek
  · rw [if_neg hk] at he
    rcases List.mem_append.mp he with h1 | h1
    · refine Or.inr ⟨h1, ?_⟩
      intro hek
      exact (not_hasKey_iff L k).mp (by simpa using hk) (hek ▸ List.mem_map_of_mem Prod.fst h1)
    · exact Or.inl (List.mem_singleton.mp h1)

theorem kc_setRecord (L : Ledger) (k : Key) (r : PairRecord) (hkc : keyConsistent L)
    (hk : k = r.key) : keyConsistent (setRecord L k r) := by
  intro e he
  rcases mem_setRecord_elim L k r e he with h1 | ⟨h1, _⟩
  · rw [h1]
    exact hk
  · exact hkc e h1

theorem kc_delRecord (L : Ledger) (k : Key) (hkc : keyConsistent L) :
    keyConsistent (delRecord L k) := by
  intro e he
  exact hkc e ((mem_delRecord_iff L k e).mp he).1

theorem record_eq_of_key_eq (L : Ledger) (huA : sideUniqueA L) (x y : PairRecord)
    (hx : x ∈ Ledger.values L) (hy : y ∈ Ledger.values L) (h : x.key = y.key) : x = y := by
  apply value_unique_by_A L huA x y hx hy
  unfold PairRecord.key at h
  exact ((Prod.mk.injEq _ _ _ _).mp h).1

theorem applyPayload_id (t : Task) (p : Payload) (now : Nat) :
    (applyPayload t p now).id = t.id := rfl

theorem applyPayload_payload (t : Task) (p : Payload) (now : Nat) :
    (applyPayload t p now).payload = p := rfl

theorem tasksAreEqual_applied (a y : Task) (now : Nat) :
    tasksAreEqual a (applyPayload y a.payload now) = true := by
  rw [tasksAreEqual_iff_payload, applyPayload_payload]

theorem ids_map_update (ts : List Task) (p : Payload) (id now : Nat) :
    (ts.map (fun t => if t.id == id then applyPayload t p now else t)).map Task.id =
      ts.map Task.id := by
  rw [List.map_map]
  apply List.map_congr_left
  intro t _
  by_cases ht : (t.id == id) = true
  · simp [Function.comp, ht, applyPayload]
  · simp [Function.comp, ht]

theorem mem_map_update_of_ne (ts : List Task) (p : Payload) (id now : Nat) (x : Task)
    (hx : x ∈ ts) (hne : x.id ≠ id) :
    x ∈ ts.map (fun t => if t.id == id then applyPayload t p now else t) :=
  List.mem_map.mpr ⟨x, hx, by simp [hne]⟩

theorem mem_map_update_self (ts : List Task) (p : Payload) (id now : Nat) (y : Task)
    (hy : y ∈ ts) (hid : y.id = id) :
    applyPayload y p now ∈ ts.map (fun t => if t.id == id then applyPayload t p now else t) :=
  List.mem_map.mpr ⟨y, hy, by simp [hid]⟩

theorem mem_map_update_elim (ts : List Task) (p : Payload) (id now : Nat) (x : Task)
    (hx : x ∈ ts.map (fun t => if t.id == id then applyPayload t p now else t)) :
    (x ∈ ts ∧ x.id ≠ id) ∨ (∃ y ∈ ts, y.id = id ∧ x = applyPayload y p now) := by
  obtain ⟨y, hy, heq⟩ := List.mem_map.mp hx
  by_cases hid : (y.id == id) = true
  · rw [if_pos hid] at heq
    exact Or.inr ⟨y, hy, by simpa using hid, heq.symm⟩
  · rw [if_neg hid] at heq
    refine Or.inl ⟨heq ▸ hy, ?_⟩
    rw [← heq]
    simpa using hid

theorem mem_filter_ne (ts : List Task) (n : Nat) (x : Task) (hx : x ∈ ts)
    (hne : x.id ≠ n) : x ∈ ts.filter (fun t => t.id != n) :=
  List.mem_filter.mpr ⟨hx, by simp [hne]⟩

theorem mem_filter_ne_elim (ts : List Task) (n : Nat) (x : Task)
    (hx : x ∈ ts.filter (fun t => t.id != n)) : x ∈ ts ∧ x.id ≠ n := by
  have h := List.mem_filter.mp hx
  exact ⟨h.1, by simpa using h.2⟩

theorem hasId_of_mem (s : Store) (y : Task) (hy : y ∈ s.tasks) (n : Nat)
    (hid : y.id = n) : s.hasId n = true := by
  unfold Store.hasId
  rw [List.any_eq_true]
  exact ⟨y, hy, by simp [hid]⟩

theorem task_unique (ts : List Task) (hw : TasksWF ts) (x y : Task)
    (hx : x ∈ ts) (hy : y ∈ ts) (h : x.id = y.id) : x = y :=
  List.inj_on_of_nodup_map hw hx hy h

theorem syncAtoB_write (now : Nat) (c : Config) (ek : Key) (r : PairRecord) (a b : Task)
    (hne : tasksAreEqual a b = false) (hpre : c.storeB.hasId b.id = true) :
    syncAtoB now c ek r a b =
      { c with storeB := { c.storeB with tasks := c.storeB.tasks.map (fun t => (if t.id == b.id then applyPayload t a.payload now else t)) },
               ledger := setRecord c.ledger ek { r with lastSyncedUpdate := a.updated },
               ops := c.ops ++ [Op.updateB b.id a.payload] } := by
  unfold syncAtoB
  rw [if_neg (by simp [hne])]
  have hup : c.storeB.updateTask b.id a.payload now = Except.ok
      { c.storeB with tasks := c.storeB.tasks.map (fun t => (if t.id == b.id then applyPayload t a.payload now else t)) } := by
    unfold Store.updateTask
    rw [if_pos hpre]
  rw [hup]

theorem syncBtoA_write (now : Nat) (c : Config) (ek : Key) (r : PairRecord) (a b : Task)
    (hne : tasksAreEqual a b = false) (hpre : c.storeA.hasId a.id = true) :
    syncBtoA now c ek r a b =
      { c with storeA := { c.storeA with tasks := c.storeA.tasks.map (fun t => (if t.id == a.id then applyPayload t b.payload now else t)) },
               ledger := setRecord c.ledger ek { r with lastSyncedUpdate := b.updated },
               ops := c.ops ++ [Op.updateA a.id b.payload] } := by
  unfold syncBtoA
  rw [if_neg (by simp [hne])]
  have hup : c.storeA.updateTask a.id b.payload now = Except.ok
      { c.storeA with tasks := c.storeA.tasks.map (fun t => (if t.id == a.id then applyPayload t b.payload now else t)) } := by
    unfold Store.updateTask
    rw [if_pos hpre]
  rw [hup]

theorem deleteFromA_present (c : Config) (taskA : Task) (r : PairRecord)
    (hpre : c.storeA.hasId taskA.id = true) :
    deleteFromA c taskA r =
      { c with storeA := { c.storeA with tasks := c.storeA.tasks.filter (fun t => (t.id != taskA.id)) },
               ledger := delRecord c.ledger r.key,
               ops := c.ops ++ [Op.deleteA taskA.id] } := by
  unfold deleteFromA
  have hd : c.storeA.deleteTask taskA.id = Except.ok
      { c.storeA with tasks := c.storeA.tasks.filter (fun t => (t.id != taskA.id)) } := by
    unfold Store.deleteTask
    rw [if_pos hpre]
  rw [hd]

theorem deleteFromB_present (c : Config) (taskB : Task) (r : PairRecord)
    (hpre : c.storeB.hasId taskB.id = true) :
    deleteFromB c taskB r =
      { c with storeB := { c.storeB with tasks := c.storeB.tasks.filter (fun t => (t.id != taskB.id)) },
               ledger := delRecord c.ledger r.key,
               ops := c.ops ++ [Op.deleteB taskB.id] } := by
  unfold deleteFromB
  have hd : c.storeB.deleteTask taskB.id = Except.ok
      { c.storeB with tasks := c.storeB.tasks.filter (fun t => (t.id != taskB.id)) } := by
    unfold Store.deleteTask
    rw [if_pos hpre]
  rw [hd]

theorem reconcileCore_phase1 (now : Nat) (c : Config) (ek : Key) (r : PairRecord) (a b : Task)
    (hpreA : c.storeA.hasId a.id = true) (hpreB : c.storeB.hasId b.id = true) :
    (reconcileCore now c ek r a b = c ∧
      a.updated ≤ r.lastSyncedUpdate ∧ b.updated ≤ r.lastSyncedUpdate)
    ∨ (tasksAreEqual a b = true ∧ ∃ X, reconcileCore now c ek r a b =
        { c with ledger := setRecord c.ledger ek { r with lastSyncedUpdate := X } })
    ∨ (tasksAreEqual a b = false ∧ reconcileCore now c ek r a b =
        { c with storeB := { c.storeB with tasks := c.storeB.tasks.map (fun t => (if t.id == b.id then applyPayload t a.payload now else t)) },
                 ledger := setRecord c.ledger ek { r with lastSyncedUpdate := a.updated },
                 ops := c.ops ++ [Op.updateB b.id a.payload] })
    ∨ (tasksAreEqual a b = false ∧ reconcileCore now c ek r a b =
        { c with storeA := { c.storeA with tasks := c.storeA.tasks.map (fun t => (if t.id == a.id then applyPayload t b.payload now else t)) },
                 ledger := setRecord c.ledger ek { r with lastSyncedUpdate := b.updated },
                 ops := c.ops ++ [Op.updateA a.id b.payload] }) := by
  rw [reconcileCore_eq]
  split_ifs with h1 h2 h3 h4
  · by_cases heq : tasksAreEqual a b = true
    · exact Or.inr (Or.inl ⟨heq, a.updated, syncAtoB_equal now c ek r a b heq⟩)
    · have hne : tasksAreEqual a b = false := by simpa using heq
      exact Or.inr (Or.inr (Or.inl ⟨hne, syncAtoB_write now c ek r a b hne hpreB⟩))
  · by_cases heq : tasksAreEqual a b = true
    · exact Or.inr (Or.inl ⟨heq, b.updated, syncBtoA_equal now c ek r a b heq⟩)
    · have hne : tasksAreEqual a b = false := by simpa using heq
      exact Or.inr (Or.inr (Or.inr ⟨hne, syncBtoA_write now c ek r a b hne hpreA⟩))
  · by_cases heq : tasksAreEqual a b = true
    · exact Or.inr (Or.inl ⟨heq, a.updated, syncAtoB_equal now c ek r a b heq⟩)
    · have hne : tasksAreEqual a b = false := by simpa using heq
      exact Or.inr (Or.inr (Or.inl ⟨hne, syncAtoB_write now c ek r a b hne hpreB⟩))
  · by_cases heq : tasksAreEqual a b = true
    · exact Or.inr (Or.inl ⟨heq, b.updated, syncBtoA_equal now c ek r a b heq⟩)
    · have hne : tasksAreEqual a b = false := by simpa using heq
      exact Or.inr (Or.inr (Or.inr ⟨hne, syncBtoA_write now c ek r a b hne hpreA⟩))
  · refine Or.inl ⟨rfl, ?_, ?_⟩
    · have h3x : ¬ (r.lastSyncedUpdate < a.updated) := by simpa using h3
      omega
    · have h4x : ¬ (r.lastSyncedUpdate < b.updated) := by simpa using h4
      omega

theorem key_inj_A (r s : PairRecord) (h : r.key = s.key) : r.accountAId = s.accountAId :=
  congrArg Prod.fst h

theorem key_inj_B (r s : PairRecord) (h : r.key = s.key) : r.accountBId = s.accountBId :=
  congrArg Prod.snd h

theorem PairGood_mono (c c' : Config) (e : Key × PairRecord)
    (hA : ∀ x ∈ c.storeA.tasks, x.id = e.2.accountAId → x ∈ c'.storeA.tasks)
    (hB : ∀ y ∈ c.storeB.tasks, y.id = e.2.accountBId → y ∈ c'.storeB.tasks)
    (h : PairGood c e) : PairGood c' e := by
  obtain ⟨x, hx, hxid, y, hy, hyid, hg⟩ := h
  exact ⟨x, hA x hx hxid, hxid, y, hB y hy hyid, hyid, hg⟩

theorem exists_entry_setRecord_A (L : Ledger) (ek : Key) (r r' : PairRecord)
    (hkeys : keysNodup L) (hm : (ek, r) ∈ L) (hAA : r'.accountAId = r.accountAId) (x : Nat)
    (h : ∃ e ∈ L, e.2.accountAId = x) : ∃ e ∈ setRecord L ek r', e.2.accountAId = x := by
  obtain ⟨e, he, hea⟩ := h
  by_cases hke : e.1 = ek
  · have hee := entry_unique_of_keysNodup L hkeys ek r hm e he hke
    refine ⟨(ek, r'), mem_setRecord_self L ek r', ?_⟩
    rw [hAA, ← hea, hee]
  · exact ⟨e, mem_setRecord_of_key_ne L ek r' e he hke, hea⟩

theorem exists_entry_setRecord_B (L : Ledger) (ek : Key) (r r' : PairRecord)
    (hkeys : keysNodup L) (hm : (ek, r) ∈ L) (hBB : r'.accountBId = r.accountBId) (x : Nat)
    (h : ∃ e ∈ L, e.2.accountBId = x) : ∃ e ∈ setRecord L ek r', e.2.accountBId = x := by
  obtain ⟨e, he, hea⟩ := h
  by_cases hke : e.1 = ek
  · have hee := entry_unique_of_keysNodup L hkeys ek r hm e he hke
    refine ⟨(ek, r'), mem_setRecord_self L ek r', ?_⟩
    rw [hBB, ← hea, hee]
  · exact ⟨e, mem_setRecord_of_key_ne L ek r' e he hke, hea⟩

theorem TasksWF_filter (ts : List Task) (n : Nat) (h : TasksWF ts) :
    TasksWF (ts.filter (fun t => t.id != n)) :=
  List.Nodup.sublist ((List.filter_sublist ts).map Task.id) h

theorem TasksWF_map_update (ts : List Task) (p : Payload) (id now : Nat) (h : TasksWF ts) :
    TasksWF (ts.map (fun t => if t.id == id then applyPayload t p now else t)) := by
  unfold TasksWF
  rw [ids_map_update]
  exact h

theorem nodup_ids_append (ts : List Task) (t : Task) (h : TasksWF ts)
    (hn : ∀ x ∈ ts, x.id ≠ t.id) : TasksWF (ts ++ [t]) := by
  unfold TasksWF
  rw [List.map_append]
  refine List.Nodup.append h (List.nodup_singleton t.id) ?_
  intro i hi hi1
  obtain ⟨x, hx, hxid⟩ := List.mem_map.mp hi
  rw [List.map_singleton, List.mem_singleton] at hi1
  exact hn x hx (hxid ▸ hi1)

theorem exists_task_update (ts : List Task) (p : Payload) (id now : Nat) (x : Nat)
    (h : ∃ y ∈ ts, y.id = x) :
    ∃ y ∈ ts.map (fun t => if t.id == id then applyPayload t p now else t), y.id = x := by
  obtain ⟨y, hy, hyid⟩ := h
  by_cases hyi : y.id = id
  · exact ⟨applyPayload y p now, mem_map_update_self ts p id now y hy hyi,
      by rw [applyPayload_id, hyid]⟩
  · exact ⟨y, mem_map_update_of_ne ts p id now y hy hyi, hyid⟩

theorem tasksAreEqual_applied2 (b y : Task) (now : Nat) :
    tasksAreEqual (applyPayload y b.payload now) b = true := by
  rw [tasksAreEqual_iff_payload, applyPayload_payload]

theorem phaseA_mark (tasksA tasksB : List Task) (nB : Nat) (todo' : List Task) (c : Config)
    (a b : Task) (ek : Key) (r : PairRecord)
    (h : PhaseA tasksA tasksB nB (a :: todo') c)
    (hnin : a.id ∉ todo'.map Task.id)
    (hm : (ek, r) ∈ c.ledger) (hra : r.accountAId = a.id)
    (hbS : b ∈ c.storeB.tasks) (hrb : r.accountBId = b.id)
    (hg : goodPair a b r.lastSyncedUpdate) :
    PhaseA tasksA tasksB nB todo' { c with processed := c.processed ++ [r.key] } := by
  have ha_store : a ∈ c.storeA.tasks := h.todoA a (List.mem_cons_self a todo')
  have hrval : r ∈ Ledger.values c.ledger := List.mem_map_of_mem Prod.snd hm
  refine ⟨WFInv_congr [] [] c _ rfl rfl rfl h.wf, h.kc, h.sfA, h.sfB, h.twA, h.twB, h.nextB,
    h.monoB, ?_, ?_, ?_, ?_, ?_, h.bigB, h.covSB, h.snapB2, ?_, ?_⟩
  · intro x hx
    exact h.todoA x (List.mem_cons_of_mem a hx)
  · intro x hx
    rcases h.covSA x hx with he | ht
    · exact Or.inl he
    · rcases List.mem_cons.mp ht with h1 | h1
      · refine Or.inl ⟨(ek, r), hm, ?_⟩
        rw [hra, h1]
      · exact Or.inr h1
  · intro e he
    rcases h.cls e he with ⟨x, hx, hxid⟩ | ⟨hpg, hpk⟩ | habs
    · rcases List.mem_cons.mp hx with h1 | h1
      · have he2r : e.2 = r := by
          apply value_unique_by_A c.ledger h.wf.uniqA e.2 r
            (List.mem_map_of_mem Prod.snd he) hrval
          rw [← hxid, h1, hra]
        refine Or.inr (Or.inl ⟨⟨a, ha_store, ?_, b, hbS, ?_, ?_⟩, ?_⟩)
        · rw [he2r, hra]
        · rw [he2r, hrb]
        · rw [he2r]
          exact hg
        · rw [he2r]
          exact List.mem_append_right _ (List.mem_singleton.mpr rfl)
      · exact Or.inl ⟨x, h1, hxid⟩
    · exact Or.inr (Or.inl ⟨hpg, List.mem_append_left _ hpk⟩)
    · exact Or.inr (Or.inr habs)
  · intro e he hex y hy hyid
    obtain ⟨x, hx, hxid⟩ := hex
    exact h.snapB e he ⟨x, List.mem_cons_of_mem a hx, hxid⟩ y hy hyid
  · intro e he hnb
    obtain ⟨hpg, hpk⟩ := h.origBu e he hnb
    exact ⟨hpg, List.mem_append_left _ hpk⟩
  · intro k hk
    rcases List.mem_append.mp hk with h1 | h1
    · exact h.prc k h1
    · have hk1 : k = r.key := List.mem_singleton.mp h1
      refine ⟨(ek, r), hm, ?_, a, ha_store, hra.symm⟩
      rw [hk1]
  · intro e he hex hmem
    obtain ⟨x, hx, hxid⟩ := hex
    rcases List.mem_append.mp hmem with h1 | h1
    · exact h.unm e he ⟨x, List.mem_cons_of_mem a hx, hxid⟩ h1
    · have hkk : e.2.key = r.key := List.mem_singleton.mp h1
      have hxa : x.id = a.id := by
        rw [hxid, ← hra]
        exact key_inj_A e.2 r hkk
      exact hnin (List.mem_map.mpr ⟨x, hx, hxa⟩)

theorem phaseA_stamp (tasksA tasksB : List Task) (nB : Nat) (todo' : List Task) (c : Config)
    (a b : Task) (ek : Key) (r : PairRecord) (X : Nat)
    (h : PhaseA tasksA tasksB nB (a :: todo') c)
    (hnin : a.id ∉ todo'.map Task.id)
    (hm : (ek, r) ∈ c.ledger) (hra : r.accountAId = a.id)
    (hbS : b ∈ c.storeB.tasks) (hrb : r.accountBId = b.id)
    (heq : tasksAreEqual a b = true) :
    PhaseA tasksA tasksB nB todo'
      { c with ledger := setRecord c.ledger ek { r with lastSyncedUpdate := X },
               processed := c.processed ++ [r.key] } := by
  have ha_store : a ∈ c.storeA.tasks := h.todoA a (List.mem_cons_self a todo')
  have hrval : r ∈ Ledger.values c.ledger := List.mem_map_of_mem Prod.snd hm
  have hek : ek = r.key := h.kc (ek, r) hm
  have hA2 : ({ r with lastSyncedUpdate := X } : PairRecord).accountAId = a.id := hra
  have hB2 : ({ r with lastSyncedUpdate := X } : PairRecord).accountBId = b.id := hrb
  have hAcontra : ∀ e' ∈ c.ledger, e'.1 ≠ ek → e'.2.accountAId ≠ a.id := by
    intro e' he' hkne habs2
    have he2r : e'.2 = r := value_unique_by_A c.ledger h.wf.uniqA e'.2 r
      (List.mem_map_of_mem Prod.snd he') hrval (by rw [habs2, hra])
    exact hkne (by rw [h.kc e' he', he2r, ← hek])
  refine ⟨?_, ?_, h.sfA, h.sfB, h.twA, h.twB, h.nextB, h.monoB, ?_, ?_, ?_, ?_, ?_, h.bigB,
    ?_, ?_, ?_, ?_⟩
  · exact WFInv_congr [] []
      { c with ledger := setRecord c.ledger ek { r with lastSyncedUpdate := X } } _
      rfl rfl rfl (WFInv_setStamp [] [] c ek r X h.wf hm)
  · exact kc_setRecord c.ledger ek { r with lastSyncedUpdate := X } h.kc hek
  · intro x hx
    exact h.todoA x (List.mem_cons_of_mem a hx)
  · intro x hx
    rcases h.covSA x hx with he | ht
    · exact Or.inl (exists_entry_setRecord_A c.ledger ek r { r with lastSyncedUpdate := X } h.wf.keys hm rfl x.id he)
    · rcases List.mem_cons.mp ht with h1 | h1
      · refine Or.inl ⟨(ek, { r with lastSyncedUpdate := X }), mem_setRecord_self _ _ _, ?_⟩
        rw [h1]
        exact hA2
      · exact Or.inr h1
  · intro e' he'
    rcases mem_setRecord_elim c.ledger ek _ e' he' with h1 | ⟨h1, hkne⟩
    · subst h1
      exact Or.inr (Or.inl ⟨⟨a, ha_store, hA2.symm, b, hbS, hB2.symm, Or.inl heq⟩,
        List.mem_append_right _ (List.mem_singleton.mpr rfl)⟩)
    · rcases h.cls e' h1 with ⟨x, hx, hxid⟩ | ⟨hpg, hpk⟩ | habs
      · rcases List.mem_cons.mp hx with h2 | h2
        · refine absurd ?_ (hAcontra e' h1 hkne)
          rw [← hxid, h2]
        · exact Or.inl ⟨x, h2, hxid⟩
      · exact Or.inr (Or.inl ⟨hpg, List.mem_append_left _ hpk⟩)
      · exact Or.inr (Or.inr habs)
  · intro e' he' hex y hy hyid
    rcases mem_setRecord_elim c.ledger ek _ e' he' with h1 | ⟨h1, _⟩
    · subst h1
      obtain ⟨x, hx, hxid⟩ := hex
      exact absurd (List.mem_map.mpr ⟨x, hx, hxid.trans hA2⟩) hnin
    · obtain ⟨x, hx, hxid⟩ := hex
      exact h.snapB e' h1 ⟨x, List.mem_cons_of_mem a hx, hxid⟩ y hy hyid
  · intro e' he' hnb
    rcases mem_setRecord_elim c.ledger ek _ e' he' with h1 | ⟨h1, _⟩
    · subst h1
      exact ⟨⟨a, ha_store, hA2.symm, b, hbS, hB2.symm, Or.inl heq⟩,
        List.mem_append_right _ (List.mem_singleton.mpr rfl)⟩
    · obtain ⟨hpg, hpk⟩ := h.origBu e' h1 hnb
      exact ⟨hpg, List.mem_append_left _ hpk⟩
  · intro y hy
    rcases h.covSB y hy with hid | he
    · exact Or.inl hid
    · exact Or.inr (exists_entry_setRecord_B c.ledger ek r { r with lastSyncedUpdate := X } h.wf.keys hm rfl y.id he)
  · intro y hy hid
    rcases h.snapB2 y hy hid with he | hyb
    · exact Or.inl (exists_entry_setRecord_B c.ledger ek r { r with lastSyncedUpdate := X } h.wf.keys hm rfl y.id he)
    · exact Or.inr hyb
  · intro k hk
    rcases List.mem_append.mp hk with h1 | h1
    · obtain ⟨e, he, hekk, x, hxs, hxid⟩ := h.prc k h1
      by_cases hke : e.1 = ek
      · have hee := entry_unique_of_keysNodup c.ledger h.wf.keys ek r hm e he hke
        refine ⟨(ek, { r with lastSyncedUpdate := X }), mem_setRecord_self _ _ _, ?_,
          a, ha_store, hA2.symm⟩
        rw [← hekk, hee]
        rfl
      · exact ⟨e, mem_setRecord_of_key_ne c.ledger ek _ e he hke, hekk, x, hxs, hxid⟩
    · have hk1 : k = r.key := List.mem_singleton.mp h1
      refine ⟨(ek, { r with lastSyncedUpdate := X }), mem_setRecord_self _ _ _, ?_,
        a, ha_store, hA2.symm⟩
      rw [hk1]
      rfl
  · intro e' he' hex hmem
    rcases mem_setRecord_elim c.ledger ek _ e' he' with h1 | ⟨h1, _⟩
    · subst h1
      obtain ⟨x, hx, hxid⟩ := hex
      exact hnin (List.mem_map.mpr ⟨x, hx, hxid.trans hA2⟩)
    · obtain ⟨x, hx, hxid⟩ := hex
      rcases List.mem_append.mp hmem with h2 | h2
      · exact h.unm e' h1 ⟨x, List.mem_cons_of_mem a hx, hxid⟩ h2
      · have hkk : e'.2.key = r.key := List.mem_singleton.mp h2
        have hxa : x.id = a.id := by
          rw [hxid, ← hra]
          exact key_inj_A e'.2 r hkk
        exact hnin (List.mem_map.mpr ⟨x, hx, hxa⟩)

theorem phaseA_writeB (tasksA tasksB : List Task) (nB : Nat) (todo' : List Task) (c : Config)
    (a b : Task) (ek : Key) (r : PairRecord) (now : Nat)
    (h : PhaseA tasksA tasksB nB (a :: todo') c)
    (hnin : a.id ∉ todo'.map Task.id)
    (hm : (ek, r) ∈ c.ledger) (hra : r.accountAId = a.id)
    (hbS : b ∈ c.storeB.tasks) (hrb : r.accountBId = b.id) :
    PhaseA tasksA tasksB nB todo'
      { c with storeB := { c.storeB with tasks := c.storeB.tasks.map (fun t => (if t.id == b.id then applyPayload t a.payload now else t)) },
               ledger := setRecord c.ledger ek { r with lastSyncedUpdate := a.updated },
               processed := c.processed ++ [r.key],
               ops := c.ops ++ [Op.updateB b.id a.payload] } := by
  have ha_store : a ∈ c.storeA.tasks := h.todoA a (List.mem_cons_self a todo')
  have hrval : r ∈ Ledger.values c.ledger := List.mem_map_of_mem Prod.snd hm
  have hek : ek = r.key := h.kc (ek, r) hm
  have hAcontra : ∀ e' ∈ c.ledger, e'.1 ≠ ek → e'.2.accountAId ≠ a.id := by
    intro e' he' hkne habs2
    have he2r : e'.2 = r := value_unique_by_A c.ledger h.wf.uniqA e'.2 r
      (List.mem_map_of_mem Prod.snd he') hrval (by rw [habs2, hra])
    exact hkne (by rw [h.kc e' he', he2r, ← hek])
  have hBcontra : ∀ e' ∈ c.ledger, e'.1 ≠ ek → e'.2.accountBId ≠ b.id := by
    intro e' he' hkne habs2
    have he2r : e'.2 = r := value_unique_by_B c.ledger h.wf.uniqB e'.2 r
      (List.mem_map_of_mem Prod.snd he') hrval (by rw [habs2, hrb])
    exact hkne (by rw [h.kc e' he', he2r, ← hek])
  have hupd : applyPayload b a.payload now ∈ c.storeB.tasks.map
      (fun t => (if t.id == b.id then applyPayload t a.payload now else t)) :=
    mem_map_update_self c.storeB.tasks a.payload b.id now b hbS rfl
  refine ⟨?_, ?_, h.sfA, ?_, h.twA, ?_, h.nextB, ?_, ?_, ?_, ?_, ?_, ?_, ?_, ?_, ?_, ?_, ?_⟩
  · exact WFInv_congr [] []
      { c with ledger := setRecord c.ledger ek { r with lastSyncedUpdate := a.updated } } _
      rfl rfl rfl (WFInv_setStamp [] [] c ek r a.updated h.wf hm)
  · exact kc_setRecord c.ledger ek { r with lastSyncedUpdate := a.updated } h.kc hek
  · intro x hx
    rcases mem_map_update_elim _ _ _ _ x hx with ⟨hx0, _⟩ | ⟨y, hy, _, hxy⟩
    · exact h.sfB x hx0
    · rw [hxy, applyPayload_id]
      exact h.sfB y hy
  · exact TasksWF_map_update c.storeB.tasks a.payload b.id now h.twB
  · intro x hx
    exact exists_task_update c.storeB.tasks a.payload b.id now x.id (h.monoB x hx)
  · intro x hx
    exact h.todoA x (List.mem_cons_of_mem a hx)
  · intro x hx
    rcases h.covSA x hx with he | ht
    · exact Or.inl (exists_entry_setRecord_A c.ledger ek r
        { r with lastSyncedUpdate := a.updated } h.wf.keys hm rfl x.id he)
    · rcases List.mem_cons.mp ht with h1 | h1
      · refine Or.inl ⟨(ek, { r with lastSyncedUpdate := a.updated }),
          mem_setRecord_self _ _ _, ?_⟩
        rw [h1]
        exact hra
      · exact Or.inr h1
  · intro e' he'
    rcases mem_setRecord_elim c.ledger ek _ e' he' with h1 | ⟨h1, hkne⟩
    · subst h1
      refine Or.inr (Or.inl ⟨⟨a, ha_store, hra.symm, applyPayload b a.payload now, hupd, ?_,
        Or.inl (tasksAreEqual_applied a b now)⟩,
        List.mem_append_right _ (List.mem_singleton.mpr rfl)⟩)
      rw [applyPayload_id]
      exact hrb.symm
    · rcases h.cls e' h1 with ⟨x, hx, hxid⟩ | ⟨hpg, hpk⟩ | habs
      · rcases List.mem_cons.mp hx with h2 | h2
        · refine absurd ?_ (hAcontra e' h1 hkne)
          rw [← hxid, h2]
        · exact Or.inl ⟨x, h2, hxid⟩
      · refine Or.inr (Or.inl ⟨PairGood_mono c _ e' ?_ ?_ hpg, List.mem_append_left _ hpk⟩)
        · intro x hx hxid
          exact hx
        · intro y hy hyid
          refine mem_map_update_of_ne _ _ _ _ y hy ?_
          rw [hyid]
          exact hBcontra e' h1 hkne
      · exact Or.inr (Or.inr habs)
  · intro e' he' hex y hy hyid
    rcases mem_setRecord_elim c.ledger ek _ e' he' with h1 | ⟨h1, hkne⟩
    · subst h1
      obtain ⟨x, hx, hxid⟩ := hex
      exact absurd (List.mem_map.mpr ⟨x, hx, hxid.trans hra⟩) hnin
    · obtain ⟨x, hx, hxid⟩ := hex
      have hbne : e'.2.accountBId ≠ b.id := hBcontra e' h1 hkne
      rcases mem_map_update_elim _ _ _ _ y hy with ⟨hy0, _⟩ | ⟨y0, hy0, hy0id, hyy⟩
      · exact h.snapB e' h1 ⟨x, List.mem_cons_of_mem a hx, hxid⟩ y hy0 hyid
      · rw [hyy, applyPayload_id, hy0id] at hyid
        exact absurd hyid.symm hbne
  · intro e' he' hnb
    rcases mem_setRecord_elim c.ledger ek _ e' he' with h1 | ⟨h1, hkne⟩
    · subst h1
      refine ⟨⟨a, ha_store, hra.symm, applyPayload b a.payload now, hupd, ?_,
        Or.inl (tasksAreEqual_applied a b now)⟩,
        List.mem_append_right _ (List.mem_singleton.mpr rfl)⟩
      rw [applyPayload_id]
      exact hrb.symm
    · obtain ⟨hpg, hpk⟩ := h.origBu e' h1 hnb
      refine ⟨PairGood_mono c _ e' ?_ ?_ hpg, List.mem_append_left _ hpk⟩
      · intro x hx hxid
        exact hx
      · intro y hy hyid
        refine mem_map_update_of_ne _ _ _ _ y hy ?_
        rw [hyid]
        exact hBcontra e' h1 hkne
  · intro y hy
    rcases mem_map_update_elim _ _ _ _ y hy with ⟨hy0, _⟩ | ⟨y0, hy0, _, hyy⟩
    · exact h.bigB y hy0
    · rw [hyy, applyPayload_id]
      exact h.bigB y0 hy0
  · intro y hy
    rcases mem_map_update_elim _ _ _ _ y hy with ⟨hy0, _⟩ | ⟨y0, hy0, hy0id, hyy⟩
    · rcases h.covSB y hy0 with hid | he
      · exact Or.inl hid
      · exact Or.inr (exists_entry_setRecord_B c.ledger ek r
          { r with lastSyncedUpdate := a.updated } h.wf.keys hm rfl y.id he)
    · refine Or.inr ⟨(ek, { r with lastSyncedUpdate := a.updated }),
        mem_setRecord_self _ _ _, ?_⟩
      rw [hyy, applyPayload_id, hy0id]
      exact hrb
  · intro y hy hid
    rcases mem_map_update_elim _ _ _ _ y hy with ⟨hy0, _⟩ | ⟨y0, hy0, hy0id, hyy⟩
    · rcases h.snapB2 y hy0 hid with he | hyb
      · exact Or.inl (exists_entry_setRecord_B c.ledger ek r
          { r with lastSyncedUpdate := a.updated } h.wf.keys hm rfl y.id he)
      · exact Or.inr hyb
    · refine Or.inl ⟨(ek, { r with lastSyncedUpdate := a.updated }),
        mem_setRecord_self _ _ _, ?_⟩
      rw [hyy, applyPayload_id, hy0id]
      exact hrb
  · intro k hk
    rcases List.mem_append.mp hk with h1 | h1
    · obtain ⟨e, he, hekk, x, hxs, hxid⟩ := h.prc k h1
      by_cases hke : e.1 = ek
      · have hee := entry_unique_of_keysNodup c.ledger h.wf.keys ek r hm e he hke
        refine ⟨(ek, { r with lastSyncedUpdate := a.updated }), mem_setRecord_self _ _ _, ?_,
          a, ha_store, hra.symm⟩
        rw [← hekk, hee]
        rfl
      · exact ⟨e, mem_setRecord_of_key_ne c.ledger ek _ e he hke, hekk, x, hxs, hxid⟩
    · have hk1 : k = r.key := List.mem_singleton.mp h1
      refine ⟨(ek, { r with lastSyncedUpdate := a.updated }), mem_setRecord_self _ _ _, ?_,
        a, ha_store, hra.symm⟩
      rw [hk1]
      rfl
  · intro e' he' hex hmem
    rcases mem_setRecord_elim c.ledger ek _ e' he' with h1 | ⟨h1, _⟩
    · subst h1
      obtain ⟨x, hx, hxid⟩ := hex
      exact hnin (List.mem_map.mpr ⟨x, hx, hxid.trans hra⟩)
    · obtain ⟨x, hx, hxid⟩ := hex
      rcases List.mem_append.mp hmem with h2 | h2
      · exact h.unm e' h1 ⟨x, List.mem_cons_of_mem a hx, hxid⟩ h2
      · have hkk : e'.2.key = r.key := List.mem_singleton.mp h2
        have hxa : x.id = a.id := by
          rw [hxid, ← hra]
          exact key_inj_A e'.2 r hkk
        exact hnin (List.mem_map.mpr ⟨x, hx, hxa⟩)

theorem phaseA_writeA (tasksA tasksB : List Task) (nB : Nat) (todo' : List Task) (c : Config)
    (a b : Task) (ek : Key) (r : PairRecord) (now : Nat)
    (h : PhaseA tasksA tasksB nB (a :: todo') c)
    (hnin : a.id ∉ todo'.map Task.id)
    (hm : (ek, r) ∈ c.ledger) (hra : r.accountAId = a.id)
    (hbS : b ∈ c.storeB.tasks) (hrb : r.accountBId = b.id) :
    PhaseA tasksA tasksB nB todo'
      { c with storeA := { c.storeA with tasks := c.storeA.tasks.map (fun t => (if t.id == a.id then applyPayload t b.payload now else t)) },
               ledger := setRecord c.ledger ek { r with lastSyncedUpdate := b.updated },
               processed := c.processed ++ [r.key],
               ops := c.ops ++ [Op.updateA a.id b.payload] } := by
  have ha_store : a ∈ c.storeA.tasks := h.todoA a (List.mem_cons_self a todo')
  have hrval : r ∈ Ledger.values c.ledger := List.mem_map_of_mem Prod.snd hm
  have hek : ek = r.key := h.kc (ek, r) hm
  have hAcontra : ∀ e' ∈ c.ledger, e'.1 ≠ ek → e'.2.accountAId ≠ a.id := by
    intro e' he' hkne habs2
    have he2r : e'.2 = r := value_unique_by_A c.ledger h.wf.uniqA e'.2 r
      (List.mem_map_of_mem Prod.snd he') hrval (by rw [habs2, hra])
    exact hkne (by rw [h.kc e' he', he2r, ← hek])
  have hupdA : applyPayload a b.payload now ∈ c.storeA.tasks.map
      (fun t => (if t.id == a.id then applyPayload t b.payload now else t)) :=
    mem_map_update_self c.storeA.tasks b.payload a.id now a ha_store rfl
  refine ⟨?_, ?_, ?_, h.sfB, ?_, h.twB, h.nextB, h.monoB, ?_, ?_, ?_, ?_, ?_, h.bigB,
    ?_, ?_, ?_, ?_⟩
  · exact WFInv_congr [] []
      { c with ledger := setRecord c.ledger ek { r with lastSyncedUpdate := b.updated } } _
      rfl rfl rfl (WFInv_setStamp [] [] c ek r b.updated h.wf hm)
  · exact kc_setRecord c.ledger ek { r with lastSyncedUpdate := b.updated } h.kc hek
  · intro x hx
    rcases mem_map_update_elim _ _ _ _ x hx with ⟨hx0, _⟩ | ⟨y, hy, _, hxy⟩
    · exact h.sfA x hx0
    · rw [hxy, applyPayload_id]
      exact h.sfA y hy
  · exact TasksWF_map_update c.storeA.tasks b.payload a.id now h.twA
  · intro x hx
    have hxs := h.todoA x (List.mem_cons_of_mem a hx)
    refine mem_map_update_of_ne _ _ _ _ x hxs ?_
    intro hxa
    exact hnin (List.mem_map.mpr ⟨x, hx, hxa⟩)
  · intro x hx
    rcases mem_map_update_elim _ _ _ _ x hx with ⟨hx0, hxna⟩ | ⟨y0, hy0, hy0id, hxy⟩
    · rcases h.covSA x hx0 with he | ht
      · exact Or.inl (exists_entry_setRecord_A c.ledger ek r
          { r with lastSyncedUpdate := b.updated } h.wf.keys hm rfl x.id he)
      · rcases List.mem_cons.mp ht with h1 | h1
        · rw [h1] at hxna
          exact absurd rfl hxna
        · exact Or.inr h1
    · refine Or.inl ⟨(ek, { r with lastSyncedUpdate := b.updated }),
        mem_setRecord_self _ _ _, ?_⟩
      rw [hxy, applyPayload_id, hy0id]
      exact hra
  · intro e' he'
    rcases mem_setRecord_elim c.ledger ek _ e' he' with h1 | ⟨h1, hkne⟩
    · subst h1
      refine Or.inr (Or.inl ⟨⟨applyPayload a b.payload now, hupdA, ?_, b, hbS, hrb.symm,
        Or.inl (tasksAreEqual_applied2 b a now)⟩,
        List.mem_append_right _ (List.mem_singleton.mpr rfl)⟩)
      rw [applyPayload_id]
      exact hra.symm
    · rcases h.cls e' h1 with ⟨x, hx, hxid⟩ | ⟨hpg, hpk⟩ | habs
      · rcases List.mem_cons.mp hx with h2 | h2
        · refine absurd ?_ (hAcontra e' h1 hkne)
          rw [← hxid, h2]
        · exact Or.inl ⟨x, h2, hxid⟩
      · refine Or.inr (Or.inl ⟨PairGood_mono c _ e' ?_ ?_ hpg, List.mem_append_left _ hpk⟩)
        · intro x hx hxid
          refine mem_map_update_of_ne _ _ _ _ x hx ?_
          rw [hxid]
          exact hAcontra e' h1 hkne
        · intro y hy hyid
          exact hy
      · refine Or.inr (Or.inr ?_)
        intro x hx
        rcases mem_map_update_elim _ _ _ _ x hx with ⟨hx0, _⟩ | ⟨y0, hy0, hy0id, hxy⟩
        · exact habs x hx0
        · rw [hxy, applyPayload_id, hy0id]
          exact Ne.symm (hAcontra e' h1 hkne)
  · intro e' he' hex y hy hyid
    rcases mem_setRecord_elim c.ledger ek _ e' he' with h1 | ⟨h1, _⟩
    · subst h1
      obtain ⟨x, hx, hxid⟩ := hex
      exact absurd (List.mem_map.mpr ⟨x, hx, hxid.trans hra⟩) hnin
    · obtain ⟨x, hx, hxid⟩ := hex
      exact h.snapB e' h1 ⟨x, List.mem_cons_of_mem a hx, hxid⟩ y hy hyid
  · intro e' he' hnb
    rcases mem_setRecord_elim c.ledger ek _ e' he' with h1 | ⟨h1, hkne⟩
    · subst h1
      refine ⟨⟨applyPayload a b.payload now, hupdA, ?_, b, hbS, hrb.symm,
        Or.inl (tasksAreEqual_applied2 b a now)⟩,
        List.mem_append_right _ (List.mem_singleton.mpr rfl)⟩
      rw [applyPayload_id]
      exact hra.symm
    · obtain ⟨hpg, hpk⟩ := h.origBu e' h1 hnb
      refine ⟨PairGood_mono c _ e' ?_ ?_ hpg, List.mem_append_left _ hpk⟩
      · intro x hx hxid
        refine mem_map_update_of_ne _ _ _ _ x hx ?_
        rw [hxid]
        exact hAcontra e' h1 hkne
      · intro y hy hyid
        exact hy
  · intro y hy
    rcases h.covSB y hy with hid | he
    · exact Or.inl hid
    · exact Or.inr (exists_entry_setRecord_B c.ledger ek r
        { r with lastSyncedUpdate := b.updated } h.wf.keys hm rfl y.id he)
  · intro y hy hid
    rcases h.snapB2 y hy hid with he | hyb
    · exact Or.inl (exists_entry_setRecord_B c.ledger ek r
        { r with lastSyncedUpdate := b.updated } h.wf.keys hm rfl y.id he)
    · exact Or.inr hyb
  · intro k hk
    rcases List.mem_append.mp hk with h1 | h1
    · obtain ⟨e, he, hekk, x, hxs, hxid⟩ := h.prc k h1
      by_cases hke : e.1 = ek
      · have hee := entry_unique_of_keysNodup c.ledger h.wf.keys ek r hm e he hke
        refine ⟨(ek, { r with lastSyncedUpdate := b.updated }), mem_setRecord_self _ _ _, ?_,
          applyPayload a b.payload now, hupdA, ?_⟩
        · rw [← hekk, hee]
          rfl
        · rw [applyPayload_id]
          exact hra.symm
      · refine ⟨e, mem_setRecord_of_key_ne c.ledger ek _ e he hke, hekk, ?_⟩
        exact exists_task_update c.storeA.tasks b.payload a.id now e.2.accountAId ⟨x, hxs, hxid⟩
    · have hk1 : k = r.key := List.mem_singleton.mp h1
      refine ⟨(ek, { r with lastSyncedUpdate := b.updated }), mem_setRecord_self _ _ _, ?_,
        applyPayload a b.payload now, hupdA, ?_⟩
      · rw [hk1]
        rfl
      · rw [applyPayload_id]
        exact hra.symm
  · intro e' he' hex hmem
    rcases mem_setRecord_elim c.ledger ek _ e' he' with h1 | ⟨h1, _⟩
    · subst h1
      obtain ⟨x, hx, hxid⟩ := hex
      exact hnin (List.mem_map.mpr ⟨x, hx, hxid.trans hra⟩)
    · obtain ⟨x, hx, hxid⟩ := hex
      rcases List.mem_append.mp hmem with h2 | h2
      · exact h.unm e' h1 ⟨x, List.mem_cons_of_mem a hx, hxid⟩ h2
      · have hkk : e'.2.key = r.key := List.mem_singleton.mp h2
        have hxa : x.id = a.id := by
          rw [hxid, ← hra]
          exact key_inj_A e'.2 r hkk
        exact hnin (List.mem_map.mpr ⟨x, hx, hxa⟩)

theorem reconcilePair_phase1 (tasksA tasksB : List Task) (nB : Nat) (todo' : List Task)
    (c : Config) (a b : Task) (ek : Key) (r : PairRecord) (now : Nat)
    (h : PhaseA tasksA tasksB nB (a :: todo') c)
    (hnin : a.id ∉ todo'.map Task.id)
    (hm : (ek, r) ∈ c.ledger) (hra : r.accountAId = a.id)
    (hbS : b ∈ c.storeB.tasks) (hrb : r.accountBId = b.id) :
    PhaseA tasksA tasksB nB todo' (reconcilePair now c ek r a b) := by
  have ha_store : a ∈ c.storeA.tasks := h.todoA a (List.mem_cons_self a todo')
  have hpreA : c.storeA.hasId a.id = true := hasId_of_mem c.storeA a ha_store a.id rfl
  have hpreB : c.storeB.hasId b.id = true := hasId_of_mem c.storeB b hbS b.id rfl
  rcases reconcileCore_phase1 now c ek r a b hpreA hpreB with
    ⟨hcc, hau, hbu⟩ | ⟨heq, X, hcc⟩ | ⟨hne, hcc⟩ | ⟨hne, hcc⟩
  · have hrp : reconcilePair now c ek r a b =
        { c with processed := c.processed ++ [r.key] } := by
      unfold reconcilePair
      rw [hcc]
    rw [hrp]
    exact phaseA_mark tasksA tasksB nB todo' c a b ek r h hnin hm hra hbS hrb (Or.inr ⟨hau, hbu⟩)
  · have hrp : reconcilePair now c ek r a b =
        { c with ledger := setRecord c.ledger ek { r with lastSyncedUpdate := X },
                 processed := c.processed ++ [r.key] } := by
      unfold reconcilePair
      rw [hcc]
    rw [hrp]
    exact phaseA_stamp tasksA tasksB nB todo' c a b ek r X h hnin hm hra hbS hrb heq
  · have hrp : reconcilePair now c ek r a b =
        { c with storeB := { c.storeB with tasks := c.storeB.tasks.map (fun t => (if t.id == b.id then applyPayload t a.payload now else t)) },
                 ledger := setRecord c.ledger ek { r with lastSyncedUpdate := a.updated },
                 processed := c.processed ++ [r.key],
                 ops := c.ops ++ [Op.updateB b.id a.payload] } := by
      unfold reconcilePair
      rw [hcc]
    rw [hrp]
    exact phaseA_writeB tasksA tasksB nB todo' c a b ek r now h hnin hm hra hbS hrb
  · have hrp : reconcilePair now c ek r a b =
        { c with storeA := { c.storeA with tasks := c.storeA.tasks.map (fun t => (if t.id == a.id then applyPayload t b.payload now else t)) },
                 ledger := setRecord c.ledger ek { r with lastSyncedUpdate := b.updated },
                 processed := c.processed ++ [r.key],
                 ops := c.ops ++ [Op.updateA a.id b.payload] } := by
      unfold reconcilePair
      rw [hcc]
    rw [hrp]
    exact phaseA_writeA tasksA tasksB nB todo' c a b ek r now h hnin hm hra hbS hrb

theorem deleteFromA_phase1 (tasksA tasksB : List Task) (nB : Nat) (todo' : List Task)
    (c : Config) (a : Task) (ek : Key) (r : PairRecord)
    (h : PhaseA tasksA tasksB nB (a :: todo') c)
    (hnin : a.id ∉ todo'.map Task.id)
    (hm : (ek, r) ∈ c.ledger) (hra : r.accountAId = a.id)
    (hBnot : ∀ z ∈ tasksB, z.id ≠ r.accountBId) :
    PhaseA tasksA tasksB nB todo' (deleteFromA c a r) := by
  have ha_store : a ∈ c.storeA.tasks := h.todoA a (List.mem_cons_self a todo')
  have hrval : r ∈ Ledger.values c.ledger := List.mem_map_of_mem Prod.snd hm
  have hek : ek = r.key := h.kc (ek, r) hm
  have hpre : c.storeA.hasId a.id = true := hasId_of_mem c.storeA a ha_store a.id rfl
  rw [deleteFromA_present c a r hpre]
  have hKr : ∀ e ∈ c.ledger, e.1 = r.key → e = (ek, r) := by
    intro e he hk
    exact entry_unique_of_keysNodup c.ledger h.wf.keys ek r hm e he (by rw [hk, hek])
  have hAeq : ∀ e ∈ c.ledger, e.2.accountAId = a.id → e.1 = r.key := by
    intro e he hai
    have he2r : e.2 = r := value_unique_by_A c.ledger h.wf.uniqA e.2 r
      (List.mem_map_of_mem Prod.snd he) hrval (by rw [hai, hra])
    rw [h.kc e he, he2r]
  have hnoB : ∀ y ∈ c.storeB.tasks, y.id ≠ r.accountBId := by
    intro y hy hyid
    rcases h.bigB y hy with hid | hge
    · obtain ⟨z, hz, hzid⟩ := List.mem_map.mp hid
      exact hBnot z hz (by rw [hzid, hyid])
    · have hnb : nB ≤ r.accountBId := by
        rw [← hyid]
        exact hge
      obtain ⟨_, hpk⟩ := h.origBu (ek, r) hm hnb
      exact h.unm (ek, r) hm ⟨a, List.mem_cons_self a todo', hra.symm⟩ hpk
  have hrkeyNP : r.key ∉ c.processed :=
    h.unm (ek, r) hm ⟨a, List.mem_cons_self a todo', hra.symm⟩
  refine ⟨?_, ?_, ?_, h.sfB, ?_, h.twB, h.nextB, h.monoB, ?_, ?_, ?_, ?_, ?_, h.bigB,
    ?_, ?_, ?_, ?_⟩
  · exact WFInv_congr [] [] { c with ledger := delRecord c.ledger r.key } _ rfl rfl rfl
      (WFInv_delLedger [] [] c r.key h.wf)
  · exact kc_delRecord c.ledger r.key h.kc
  · intro x hx
    exact h.sfA x (mem_filter_ne_elim c.storeA.tasks a.id x hx).1
  · exact TasksWF_filter c.storeA.tasks a.id h.twA
  · intro x hx
    refine mem_filter_ne c.storeA.tasks a.id x (h.todoA x (List.mem_cons_of_mem a hx)) ?_
    intro hxa
    exact hnin (List.mem_map.mpr ⟨x, hx, hxa⟩)
  · intro x hx
    obtain ⟨hx0, hxna⟩ := mem_filter_ne_elim c.storeA.tasks a.id x hx
    rcases h.covSA x hx0 with ⟨e, he, hea⟩ | ht
    · refine Or.inl ⟨e, (mem_delRecord_iff c.ledger r.key e).mpr ⟨he, ?_⟩, hea⟩
      intro hk
      have hee := hKr e he hk
      apply hxna
      rw [← hea, hee]
      exact hra
    · rcases List.mem_cons.mp ht with h1 | h1
      · rw [h1] at hxna
        exact absurd rfl hxna
      · exact Or.inr h1
  · intro e' he'
    obtain ⟨h1, hkne⟩ := (mem_delRecord_iff c.ledger r.key e').mp he'
    rcases h.cls e' h1 with ⟨x, hx, hxid⟩ | ⟨hpg, hpk⟩ | habs
    · rcases List.mem_cons.mp hx with h2 | h2
      · refine absurd (hAeq e' h1 ?_) hkne
        rw [← hxid, h2]
      · exact Or.inl ⟨x, h2, hxid⟩
    · refine Or.inr (Or.inl ⟨PairGood_mono c _ e' ?_ ?_ hpg, hpk⟩)
      · intro x hx hxid2
        refine mem_filter_ne c.storeA.tasks a.id x hx ?_
        intro hxa
        refine hkne (hAeq e' h1 ?_)
        rw [← hxid2]
        exact hxa
      · intro y hy hyid
        exact hy
    · refine Or.inr (Or.inr ?_)
      intro x hx
      exact habs x (mem_filter_ne_elim c.storeA.tasks a.id x hx).1
  · intro e' he' hex y hy hyid
    obtain ⟨h1, _⟩ := (mem_delRecord_iff c.ledger r.key e').mp he'
    obtain ⟨x, hx, hxid⟩ := hex
    exact h.snapB e' h1 ⟨x, List.mem_cons_of_mem a hx, hxid⟩ y hy hyid
  · intro e' he' hnb
    obtain ⟨h1, hkne⟩ := (mem_delRecord_iff c.ledger r.key e').mp he'
    obtain ⟨hpg, hpk⟩ := h.origBu e' h1 hnb
    refine ⟨PairGood_mono c _ e' ?_ ?_ hpg, hpk⟩
    · intro x hx hxid2
      refine mem_filter_ne c.storeA.tasks a.id x hx ?_
      intro hxa
      refine hkne (hAeq e' h1 ?_)
      rw [← hxid2]
      exact hxa
    · intro y hy hyid
      exact hy
  · intro y hy
    rcases h.covSB y hy with hid | ⟨e, he, heb⟩
    · exact Or.inl hid
    · refine Or.inr ⟨e, (mem_delRecord_iff c.ledger r.key e).mpr ⟨he, ?_⟩, heb⟩
      intro hk
      have hee := hKr e he hk
      apply hnoB y hy
      rw [← heb, hee]
  · intro y hy hid
    rcases h.snapB2 y hy hid with ⟨e, he, heb⟩ | hyb
    · refine Or.inl ⟨e, (mem_delRecord_iff c.ledger r.key e).mpr ⟨he, ?_⟩, heb⟩
      intro hk
      have hee := hKr e he hk
      apply hnoB y hy
      rw [← heb, hee]
    · exact Or.inr hyb
  · intro k hk
    obtain ⟨e, he, hekk, x, hxs, hxid⟩ := h.prc k hk
    have hkney : e.1 ≠ r.key := by
      intro hkk
      have hee := hKr e he hkk
      apply hrkeyNP
      rw [← hekk] at hk
      rw [hee] at hk
      exact hk
    refine ⟨e, (mem_delRecord_iff c.ledger r.key e).mpr ⟨he, hkney⟩, hekk, x, ?_, hxid⟩
    refine mem_filter_ne c.storeA.tasks a.id x hxs ?_
    intro hxa
    refine hkney (hAeq e he ?_)
    rw [← hxid]
    exact hxa
  · intro e' he' hex
    obtain ⟨h1, _⟩ := (mem_delRecord_iff c.ledger r.key e').mp he'
    obtain ⟨x, hx, hxid⟩ := hex
    exact h.unm e' h1 ⟨x, List.mem_cons_of_mem a hx, hxid⟩

theorem createInB_phase1 (tasksA tasksB : List Task) (nB : Nat) (todo' : List Task)
    (c : Config) (a : Task) (now : Nat)
    (h : PhaseA tasksA tasksB nB (a :: todo') c)
    (hnin : a.id ∉ todo'.map Task.id)
    (hfn : findEntryByA c.ledger a.id = none) :
    PhaseA tasksA tasksB nB todo' (createInB now c a) := by
  have ha_store : a ∈ c.storeA.tasks := h.todoA a (List.mem_cons_self a todo')
  have hnoA : ∀ e ∈ c.ledger, e.2.accountAId ≠ a.id := findEntryByA_none c.ledger a.id hfn
  have hwf := createInB_wf [] [] now c a h.wf (h.sfA a ha_store) hfn
  have hhk : c.ledger.hasKey (a.id, c.storeB.nextId) = false := by
    apply (not_hasKey_iff c.ledger (a.id, c.storeB.nextId)).mpr
    intro hmem
    obtain ⟨e, he, hk⟩ := List.mem_map.mp hmem
    have h2 : e.2.key = (a.id, c.storeB.nextId) := by
      rw [← h.kc e he]
      exact hk
    exact hnoA e he (congrArg Prod.fst h2)
  have hshape : createInB now c a = { c with
      storeB := ⟨c.storeB.tasks ++ [⟨c.storeB.nextId, a.title, a.notes, a.status, a.due, none, now⟩], c.storeB.nextId + 1⟩,
      ledger := setRecord c.ledger (a.id, c.storeB.nextId) ⟨a.id, c.storeB.nextId, a.updated⟩,
      processed := c.processed ++ [(a.id, c.storeB.nextId)],
      ops := c.ops ++ [Op.createB a.payload] } := rfl
  rw [hshape, setRecord_eq_append c.ledger (a.id, c.storeB.nextId)
    ⟨a.id, c.storeB.nextId, a.updated⟩ hhk] at hwf ⊢
  refine ⟨hwf, ?_, h.sfA, ?_, h.twA, ?_, ?_, ?_, ?_, ?_, ?_, ?_, ?_, ?_, ?_, ?_, ?_, ?_⟩
  · intro e he
    rcases List.mem_append.mp he with h1 | h1
    · exact h.kc e h1
    · rw [List.mem_singleton.mp h1]
      rfl
  · intro x hx
    rcases List.mem_append.mp hx with h1 | h1
    · have hlt := h.sfB x h1
      show x.id < c.storeB.nextId + 1
      omega
    · rw [List.mem_singleton.mp h1]
      show c.storeB.nextId < c.storeB.nextId + 1
      omega
  · refine nodup_ids_append c.storeB.tasks _ h.twB ?_
    intro x hx
    have hlt := h.sfB x hx
    show x.id ≠ c.storeB.nextId
    omega
  · show nB ≤ c.storeB.nextId + 1
    have hle := h.nextB
    omega
  · intro x hx
    obtain ⟨y, hy, hyid⟩ := h.monoB x hx
    exact ⟨y, List.mem_append_left _ hy, hyid⟩
  · intro x hx
    exact h.todoA x (List.mem_cons_of_mem a hx)
  · intro x hx
    rcases h.covSA x hx with ⟨e, he, hea⟩ | ht
    · exact Or.inl ⟨e, List.mem_append_left _ he, hea⟩
    · rcases List.mem_cons.mp ht with h1 | h1
      · refine Or.inl ⟨((a.id, c.storeB.nextId), ⟨a.id, c.storeB.nextId, a.updated⟩),
          List.mem_append_right _ (List.mem_singleton.mpr rfl), ?_⟩
        rw [h1]
      · exact Or.inr h1
  · intro e' he'
    rcases List.mem_append.mp he' with h1 | h1
    · rcases h.cls e' h1 with ⟨x, hx, hxid⟩ | ⟨hpg, hpk⟩ | habs
      · rcases List.mem_cons.mp hx with h2 | h2
        · refine absurd ?_ (hnoA e' h1)
          rw [← hxid, h2]
        · exact Or.inl ⟨x, h2, hxid⟩
      · refine Or.inr (Or.inl ⟨PairGood_mono c _ e' ?_ ?_ hpg, List.mem_append_left _ hpk⟩)
        · intro x hx hxid
          exact hx
        · intro y hy hyid
          exact List.mem_append_left _ hy
      · exact Or.inr (Or.inr habs)
    · rw [List.mem_singleton.mp h1]
      refine Or.inr (Or.inl ⟨⟨a, ha_store, rfl,
        ⟨c.storeB.nextId, a.title, a.notes, a.status, a.due, none, now⟩,
        List.mem_append_right _ (List.mem_singleton.mpr rfl), rfl, Or.inl ?_⟩,
        List.mem_append_right _ (List.mem_singleton.mpr rfl)⟩)
      rw [tasksAreEqual_iff_payload]
      rfl
  · intro e' he' hex y hy hyid
    rcases List.mem_append.mp he' with h1 | h1
    · rcases List.mem_append.mp hy with hy1 | hy1
      · obtain ⟨x, hx, hxid⟩ := hex
        exact h.snapB e' h1 ⟨x, List.mem_cons_of_mem a hx, hxid⟩ y hy1 hyid
      · have hfb := h.wf.freshB e'.2 (List.mem_map_of_mem Prod.snd h1)
        rw [List.mem_singleton.mp hy1] at hyid
        have h3 : c.storeB.nextId = e'.2.accountBId := hyid
        exact absurd h3 (by omega)
    · obtain ⟨x, hx, hxid⟩ := hex
      rw [List.mem_singleton.mp h1] at hxid
      exact absurd (List.mem_map.mpr ⟨x, hx, hxid⟩) hnin
  · intro e' he' hnb
    rcases List.mem_append.mp he' with h1 | h1
    · obtain ⟨hpg, hpk⟩ := h.origBu e' h1 hnb
      refine ⟨PairGood_mono c _ e' ?_ ?_ hpg, List.mem_append_left _ hpk⟩
      · intro x hx hxid
        exact hx
      · intro y hy hyid
        exact List.mem_append_left _ hy
    · rw [List.mem_singleton.mp h1]
      refine ⟨⟨a, ha_store, rfl,
        ⟨c.storeB.nextId, a.title, a.notes, a.status, a.due, none, now⟩,
        List.mem_append_right _ (List.mem_singleton.mpr rfl), rfl, Or.inl ?_⟩,
        List.mem_append_right _ (List.mem_singleton.mpr rfl)⟩
      rw [tasksAreEqual_iff_payload]
      rfl
  · intro y hy
    rcases List.mem_append.mp hy with h1 | h1
    · exact h.bigB y h1
    · refine Or.inr ?_
      rw [List.mem_singleton.mp h1]
      show nB ≤ c.storeB.nextId
      exact h.nextB
  · intro y hy
    rcases List.mem_append.mp hy with h1 | h1
    · rcases h.covSB y h1 with hid | ⟨e, he, heb⟩
      · exact Or.inl hid
      · exact Or.inr ⟨e, List.mem_append_left _ he, heb⟩
    · refine Or.inr ⟨((a.id, c.storeB.nextId), ⟨a.id, c.storeB.nextId, a.updated⟩),
        List.mem_append_right _ (List.mem_singleton.mpr rfl), ?_⟩
      rw [List.mem_singleton.mp h1]
  · intro y hy hid
    rcases List.mem_append.mp hy with h1 | h1
    · rcases h.snapB2 y h1 hid with ⟨e, he, heb⟩ | hyb
      · exact Or.inl ⟨e, List.mem_append_left _ he, heb⟩
      · exact Or.inr hyb
    · refine Or.inl ⟨((a.id, c.storeB.nextId), ⟨a.id, c.storeB.nextId, a.updated⟩),
        List.mem_append_right _ (List.mem_singleton.mpr rfl), ?_⟩
      rw [List.mem_singleton.mp h1]
  · intro k hk
    rcases List.mem_append.mp hk with h1 | h1
    · obtain ⟨e, he, hekk, x, hxs, hxid⟩ := h.prc k h1
      exact ⟨e, List.mem_append_left _ he, hekk, x, hxs, hxid⟩
    · refine ⟨((a.id, c.storeB.nextId), ⟨a.id, c.storeB.nextId, a.updated⟩),
        List.mem_append_right _ (List.mem_singleton.mpr rfl), ?_, a, ha_store, rfl⟩
      rw [List.mem_singleton.mp h1]
      rfl
  · intro e' he' hex hmem
    rcases List.mem_append.mp he' with h1 | h1
    · obtain ⟨x, hx, hxid⟩ := hex
      rcases List.mem_append.mp hmem with h2 | h2
      · exact h.unm e' h1 ⟨x, List.mem_cons_of_mem a hx, hxid⟩ h2
      · have hkk : e'.2.key = (a.id, c.storeB.nextId) := List.mem_singleton.mp h2
        exact absurd (congrArg Prod.fst hkk) (hnoA e' h1)
    · obtain ⟨x, hx, hxid⟩ := hex
      rw [List.mem_singleton.mp h1] at hxid
      exact absurd (List.mem_map.mpr ⟨x, hx, hxid⟩) hnin

theorem stepA_phase1 (tasksA tasksB : List Task) (nB : Nat) (todo' : List Task)
    (c : Config) (a : Task) (now : Nat)
    (htB : TasksWF tasksB)
    (h : PhaseA tasksA tasksB nB (a :: todo') c)
    (hnin : a.id ∉ todo'.map Task.id) :
    PhaseA tasksA tasksB nB todo' (stepA tasksB now c a) := by
  unfold stepA
  cases hf : findEntryByA c.ledger a.id with
  | none => exact createInB_phase1 tasksA tasksB nB todo' c a now h hnin hf
  | some e =>
    obtain ⟨ek, r⟩ := e
    obtain ⟨hm, hra⟩ := findEntryByA_some c.ledger a.id ek r hf
    show PhaseA tasksA tasksB nB todo' (match tasksB.find? (fun t => t.id == r.accountBId) with
      | some taskB => reconcilePair now c ek r a taskB
      | none => deleteFromA c a r)
    cases hfb : tasksB.find? (fun t => t.id == r.accountBId) with
    | none =>
      refine deleteFromA_phase1 tasksA tasksB nB todo' c a ek r h hnin hm hra ?_
      intro z hz hzid
      have hz2 := List.find?_eq_none.mp hfb z hz
      simp [hzid] at hz2
    | some b =>
      have hbB : b ∈ tasksB := List.mem_of_find?_eq_some hfb
      have hbid : b.id = r.accountBId := by
        have h2 := List.find?_some hfb
        simpa using h2
      obtain ⟨y, hyS, hyid⟩ := h.monoB b hbB
      have hyT : y ∈ tasksB := h.snapB (ek, r) hm ⟨a, List.mem_cons_self a todo', hra.symm⟩
        y hyS (by rw [hyid]; exact hbid)
      have hyb : y = b := task_unique tasksB htB y b hyT hbB hyid
      have hbS : b ∈ c.storeB.tasks := hyb ▸ hyS
      exact reconcilePair_phase1 tasksA tasksB nB todo' c a b ek r now h hnin hm hra hbS hbid.symm

theorem foldA_phase1 (tasksA tasksB : List Task) (nB now : Nat) (htB : TasksWF tasksB) :
    ∀ (todo : List Task) (c : Config), (todo.map Task.id).Nodup →
    PhaseA tasksA tasksB nB todo c →
    PhaseA tasksA tasksB nB [] (todo.foldl (stepA tasksB now) c) := by
  intro todo
  induction todo with
  | nil =>
    intro c _ h
    exact h
  | cons a todo' ih =>
    intro c hnd h
    rw [List.map_cons] at hnd
    have hc := List.nodup_cons.mp hnd
    rw [List.foldl_cons]
    exact ih (stepA tasksB now c a) hc.2 (stepA_phase1 tasksA tasksB nB todo' c a now htB h hc.1)

theorem phaseA_init (sA sB : Store) (L : Ledger)
    (hkeys : keysNodup L) (huA : sideUniqueA L) (huB : sideUniqueB L)
    (hkc : keyConsistent L)
    (hfA : ∀ r ∈ Ledger.values L, r.accountAId < sA.nextId)
    (hfB : ∀ r ∈ Ledger.values L, r.accountBId < sB.nextId)
    (hsfA : StoreFresh sA) (hsfB : StoreFresh sB)
    (htwA : TasksWF sA.tasks) (htwB : TasksWF sB.tasks) :
    PhaseA sA.tasks sB.tasks sB.nextId sA.tasks ⟨sA, sB, L, [], []⟩ := by
  refine ⟨⟨hkeys, huA, huB, hfA, hfB, ?_, ?_⟩, hkc, hsfA, hsfB, htwA, htwB, Nat.le_refl _,
    ?_, ?_, ?_, ?_, ?_, ?_, ?_, ?_, ?_, ?_, ?_⟩
  · intro t ht
    exact absurd ht (List.not_mem_nil t)
  · intro t ht
    exact absurd ht (List.not_mem_nil t)
  · intro x hx
    exact ⟨x, hx, rfl⟩
  · intro x hx
    exact hx
  · intro x hx
    exact Or.inr hx
  · intro e he
    by_cases hex : ∃ x ∈ sA.tasks, x.id = e.2.accountAId
    · exact Or.inl hex
    · refine Or.inr (Or.inr ?_)
      intro x hx hxid
      exact hex ⟨x, hx, hxid⟩
  · intro e he hx y hy hyid
    exact hy
  · intro e he hnb
    have hlt := hfB e.2 (List.mem_map_of_mem Prod.snd he)
    exact absurd hnb (by omega)
  · intro y hy
    exact Or.inl (List.mem_map.mpr ⟨y, hy, rfl⟩)
  · intro y hy
    exact Or.inl (List.mem_map.mpr ⟨y, hy, rfl⟩)
  · intro y hy hid
    exact Or.inr hy
  · intro k hk
    exact absurd hk (List.not_mem_nil k)
  · intro e he hex hk
    exact absurd hk (List.not_mem_nil _)

theorem phaseA_to_phaseB (tasksA tasksB : List Task) (nB : Nat) (c : Config)
    (h : PhaseA tasksA tasksB nB [] c) : PhaseB tasksB nB tasksB c := by
  refine ⟨h.wf, h.kc, h.sfA, h.sfB, h.twA, h.twB, ?_, ?_, ?_, ?_, h.snapB2, h.prc⟩
  · intro z hz
    exact h.monoB z hz
  · intro x hx
    rcases h.covSA x hx with he | ht
    · exact he
    · exact absurd ht (List.not_mem_nil x)
  · intro y hy
    rcases h.covSB y hy with hid | he
    · obtain ⟨z, hz, hzid⟩ := List.mem_map.mp hid
      exact Or.inr ⟨z, hz, hzid⟩
    · exact Or.inl he
  · intro e he
    rcases h.cls e he with ⟨x, hx, _⟩ | ⟨hpg, hpk⟩ | habs
    · exact absurd hx (List.not_mem_nil x)
    · exact Or.inl ⟨hpg, Or.inl hpk⟩
    · refine Or.inr ⟨habs, ?_⟩
      by_cases hyB : ∃ y ∈ c.storeB.tasks, y.id = e.2.accountBId
      · obtain ⟨y, hy, hyid⟩ := hyB
        rcases h.bigB y hy with hid | hge
        · obtain ⟨z, hz, hzid⟩ := List.mem_map.mp hid
          refine Or.inl ⟨z, hz, ?_⟩
          rw [hzid, hyid]
        · have hnb : nB ≤ e.2.accountBId := by
            rw [← hyid]
            exact hge
          obtain ⟨hpg, _⟩ := h.origBu e he hnb
          obtain ⟨x, hx, hxid, _⟩ := hpg
          exact absurd hxid (habs x hx)
      · refine Or.inr ?_
        intro y hy hyid
        exact hyB ⟨y, hy, hyid⟩

theorem phaseB_skip (tasksB : List Task) (nB : Nat) (todoB' : List Task) (c : Config)
    (z : Task) (ek : Key) (r : PairRecord)
    (h : PhaseB tasksB nB (z :: todoB') c)
    (hm : (ek, r) ∈ c.ledger) (hrb : r.accountBId = z.id)
    (hp : r.key ∈ c.processed) :
    PhaseB tasksB nB todoB' c := by
  have hrval : r ∈ Ledger.values c.ledger := List.mem_map_of_mem Prod.snd hm
  refine ⟨h.wf, h.kc, h.sfA, h.sfB, h.twA, h.twB, ?_, h.covSA, ?_, ?_, h.snapB2, h.prcB⟩
  · intro z' hz'
    exact h.todoBpres z' (List.mem_cons_of_mem z hz')
  · intro y hy
    rcases h.covSB y hy with he | ⟨z', hz', hz'id⟩
    · exact Or.inl he
    · rcases List.mem_cons.mp hz' with h1 | h1
      · refine Or.inl ⟨(ek, r), hm, ?_⟩
        rw [hrb, ← h1]
        exact hz'id
      · exact Or.inr ⟨z', h1, hz'id⟩
  · intro e he
    rcases h.cls e he with ⟨hpg, hin⟩ | ⟨habs, hin⟩
    · refine Or.inl ⟨hpg, ?_⟩
      rcases hin with hk | hall
      · exact Or.inl hk
      · refine Or.inr ?_
        intro z' hz'
        exact hall z' (List.mem_cons_of_mem z hz')
    · refine Or.inr ⟨habs, ?_⟩
      rcases hin with ⟨z', hz', hz'id⟩ | hall
      · rcases List.mem_cons.mp hz' with h1 | h1
        · have heB : e.2.accountBId = r.accountBId := by
            rw [← hz'id, h1, hrb]
          have he2r : e.2 = r := value_unique_by_B c.ledger h.wf.uniqB e.2 r
            (List.mem_map_of_mem Prod.snd he) hrval heB
          obtain ⟨e2, he2, he2k, x, hxs, hxid⟩ := h.prcB r.key hp
          have hxa : x.id = e.2.accountAId := by
            rw [hxid, key_inj_A e2.2 r he2k, he2r]
          exact absurd hxa (habs x hxs)
        · exact Or.inl ⟨z', h1, hz'id⟩
      · exact Or.inr hall

theorem deleteFromB_phase1 (tasksB : List Task) (nB : Nat) (todoB' : List Task) (c : Config)
    (z : Task) (ek : Key) (r : PairRecord)
    (h : PhaseB tasksB nB (z :: todoB') c)
    (hninB : z.id ∉ todoB'.map Task.id)
    (hm : (ek, r) ∈ c.ledger) (hrb : r.accountBId = z.id)
    (hnp : r.key ∉ c.processed) :
    PhaseB tasksB nB todoB' (deleteFromB c z r) := by
  have hrval : r ∈ Ledger.values c.ledger := List.mem_map_of_mem Prod.snd hm
  have hek : ek = r.key := h.kc (ek, r) hm
  have habs : ∀ x ∈ c.storeA.tasks, x.id ≠ r.accountAId := by
    rcases h.cls (ek, r) hm with ⟨_, hin⟩ | ⟨habs0, _⟩
    · rcases hin with hk | hall
      · exact absurd hk hnp
      · exact absurd hrb.symm (hall z (List.mem_cons_self z todoB'))
    · exact habs0
  obtain ⟨y0, hy0, hy0id⟩ := h.todoBpres z (List.mem_cons_self z todoB')
  have hpre : c.storeB.hasId z.id = true := hasId_of_mem c.storeB y0 hy0 z.id hy0id
  rw [deleteFromB_present c z r hpre]
  have hKr : ∀ e ∈ c.ledger, e.1 = r.key → e = (ek, r) := by
    intro e he hk
    exact entry_unique_of_keysNodup c.ledger h.wf.keys ek r hm e he (by rw [hk, hek])
  have hBeq : ∀ e ∈ c.ledger, e.2.accountBId = z.id → e.1 = r.key := by
    intro e he hbi
    have he2r : e.2 = r := value_unique_by_B c.ledger h.wf.uniqB e.2 r
      (List.mem_map_of_mem Prod.snd he) hrval (by rw [hbi, hrb])
    rw [h.kc e he, he2r]
  refine ⟨?_, ?_, h.sfA, ?_, h.twA, ?_, ?_, ?_, ?_, ?_, ?_, ?_⟩
  · exact WFInv_congr [] [] { c with ledger := delRecord c.ledger r.key } _ rfl rfl rfl
      (WFInv_delLedger [] [] c r.key h.wf)
  · exact kc_delRecord c.ledger r.key h.kc
  · intro x hx
    exact h.sfB x (mem_filter_ne_elim c.storeB.tasks z.id x hx).1
  · exact TasksWF_filter c.storeB.tasks z.id h.twB
  · intro z' hz'
    obtain ⟨y, hy, hyid⟩ := h.todoBpres z' (List.mem_cons_of_mem z hz')
    refine ⟨y, mem_filter_ne c.storeB.tasks z.id y hy ?_, hyid⟩
    intro hya
    apply hninB
    refine List.mem_map.mpr ⟨z', hz', ?_⟩
    rw [← hyid]
    exact hya
  · intro x hx
    obtain ⟨e, he, hea⟩ := h.covSA x hx
    refine ⟨e, (mem_delRecord_iff c.ledger r.key e).mpr ⟨he, ?_⟩, hea⟩
    intro hk
    have he2 : e.2 = r := congrArg Prod.snd (hKr e he hk)
    apply habs x hx
    rw [← hea, he2]
  · intro y hy
    obtain ⟨hy0b, hyne⟩ := mem_filter_ne_elim c.storeB.tasks z.id y hy
    rcases h.covSB y hy0b with ⟨e, he, heb⟩ | ⟨z', hz', hz'id⟩
    · refine Or.inl ⟨e, (mem_delRecord_iff c.ledger r.key e).mpr ⟨he, ?_⟩, heb⟩
      intro hk
      have he2 : e.2 = r := congrArg Prod.snd (hKr e he hk)
      apply hyne
      rw [← heb, he2, hrb]
    · rcases List.mem_cons.mp hz' with h1 | h1
      · rw [h1] at hz'id
        exact absurd hz'id.symm hyne
      · exact Or.inr ⟨z', h1, hz'id⟩
  · intro e' he'
    obtain ⟨h1, hkne⟩ := (mem_delRecord_iff c.ledger r.key e').mp he'
    rcases h.cls e' h1 with ⟨hpg, hin⟩ | ⟨habs', hin⟩
    · refine Or.inl ⟨PairGood_mono c _ e' ?_ ?_ hpg, ?_⟩
      · intro x hx hxid
        exact hx
      · intro y hy hyid
        refine mem_filter_ne c.storeB.tasks z.id y hy ?_
        intro hyz
        refine hkne (hBeq e' h1 ?_)
        rw [← hyid]
        exact hyz
      · rcases hin with hk | hall
        · exact Or.inl hk
        · refine Or.inr ?_
          intro z' hz'
          exact hall z' (List.mem_cons_of_mem z hz')
    · refine Or.inr ⟨habs', ?_⟩
      rcases hin with ⟨z', hz', hz'id⟩ | hall
      · rcases List.mem_cons.mp hz' with h1z | h1z
        · refine absurd (hBeq e' h1 ?_) hkne
          rw [← hz'id, h1z]
        · exact Or.inl ⟨z', h1z, hz'id⟩
      · refine Or.inr ?_
        intro y hy
        exact hall y (mem_filter_ne_elim c.storeB.tasks z.id y hy).1
  · intro y hy hid
    obtain ⟨hy0b, hyne⟩ := mem_filter_ne_elim c.storeB.tasks z.id y hy
    rcases h.snapB2 y hy0b hid with ⟨e, he, heb⟩ | hyb
    · refine Or.inl ⟨e, (mem_delRecord_iff c.ledger r.key e).mpr ⟨he, ?_⟩, heb⟩
      intro hk
      have he2 : e.2 = r := congrArg Prod.snd (hKr e he hk)
      apply hyne
      rw [← heb, he2, hrb]
    · exact Or.inr hyb
  · intro k hk
    obtain ⟨e, he, hekk, x, hxs, hxid⟩ := h.prcB k hk
    have hkney : e.1 ≠ r.key := by
      intro hkk
      have he2 : e.2 = r := congrArg Prod.snd (hKr e he hkk)
      apply habs x hxs
      rw [hxid, he2]
    exact ⟨e, (mem_delRecord_iff c.ledger r.key e).mpr ⟨he, hkney⟩, hekk, x, hxs, hxid⟩

theorem createInA_phase1 (tasksB : List Task) (nB : Nat) (todoB' : List Task) (c : Config)
    (z : Task) (now : Nat)
    (htB : TasksWF tasksB)
    (h : PhaseB tasksB nB (z :: todoB') c)
    (hninB : z.id ∉ todoB'.map Task.id)
    (hz : z ∈ tasksB)
    (hfn : findEntryByB c.ledger z.id = none) :
    PhaseB tasksB nB todoB' (createInA now c z) := by
  have hnoB : ∀ e ∈ c.ledger, e.2.accountBId ≠ z.id := findEntryByB_none c.ledger z.id hfn
  obtain ⟨y0, hy0, hy0id⟩ := h.todoBpres z (List.mem_cons_self z todoB')
  have hzid_mem : y0.id ∈ tasksB.map Task.id := List.mem_map.mpr ⟨z, hz, hy0id.symm⟩
  have hzSB : z ∈ c.storeB.tasks := by
    rcases h.snapB2 y0 hy0 hzid_mem with ⟨e, he, heb⟩ | hyT
    · refine absurd ?_ (hnoB e he)
      rw [heb, hy0id]
    · have hy0z := task_unique tasksB htB y0 z hyT hz hy0id
      rw [← hy0z]
      exact hy0
  have hwf := createInA_wf [] [] now c z h.wf (h.sfB z hzSB) hfn
  have hhk : c.ledger.hasKey (c.storeA.nextId, z.id) = false := by
    apply (not_hasKey_iff c.ledger (c.storeA.nextId, z.id)).mpr
    intro hmem
    obtain ⟨e, he, hk⟩ := List.mem_map.mp hmem
    have h2 : e.2.key = (c.storeA.nextId, z.id) := by
      rw [← h.kc e he]
      exact hk
    exact hnoB e he (congrArg Prod.snd h2)
  have hshape : createInA now c z = { c with
      storeA := ⟨c.storeA.tasks ++ [⟨c.storeA.nextId, z.title, z.notes, z.status, z.due, none, now⟩], c.storeA.nextId + 1⟩,
      ledger := setRecord c.ledger (c.storeA.nextId, z.id) ⟨c.storeA.nextId, z.id, z.updated⟩,
      ops := c.ops ++ [Op.createA z.payload] } := rfl
  rw [hshape, setRecord_eq_append c.ledger (c.storeA.nextId, z.id)
    ⟨c.storeA.nextId, z.id, z.updated⟩ hhk] at hwf ⊢
  refine ⟨hwf, ?_, ?_, h.sfB, ?_, h.twB, ?_, ?_, ?_, ?_, ?_, ?_⟩
  · intro e he
    rcases List.mem_append.mp he with h1 | h1
    · exact h.kc e h1
    · rw [List.mem_singleton.mp h1]
      rfl
  · intro x hx
    rcases List.mem_append.mp hx with h1 | h1
    · have hlt := h.sfA x h1
      show x.id < c.storeA.nextId + 1
      omega
    · rw [List.mem_singleton.mp h1]
      show c.storeA.nextId < c.storeA.nextId + 1
      omega
  · refine nodup_ids_append c.storeA.tasks _ h.twA ?_
    intro x hx
    have hlt := h.sfA x hx
    show x.id ≠ c.storeA.nextId
    omega
  · intro z' hz'
    exact h.todoBpres z' (List.mem_cons_of_mem z hz')
  · intro x hx
    rcases List.mem_append.mp hx with h1 | h1
    · obtain ⟨e, he, hea⟩ := h.covSA x h1
      exact ⟨e, List.mem_append_left _ he, hea⟩
    · refine ⟨((c.storeA.nextId, z.id), ⟨c.storeA.nextId, z.id, z.updated⟩),
        List.mem_append_right _ (List.mem_singleton.mpr rfl), ?_⟩
      rw [List.mem_singleton.mp h1]
  · intro y hy
    rcases h.covSB y hy with ⟨e, he, heb⟩ | ⟨z', hz', hz'id⟩
    · exact Or.inl ⟨e, List.mem_append_left _ he, heb⟩
    · rcases List.mem_cons.mp hz' with h1 | h1
      · refine Or.inl ⟨((c.storeA.nextId, z.id), ⟨c.storeA.nextId, z.id, z.updated⟩),
          List.mem_append_right _ (List.mem_singleton.mpr rfl), ?_⟩
        show z.id = y.id
        rw [← h1]
        exact hz'id
      · exact Or.inr ⟨z', h1, hz'id⟩
  · intro e' he'
    rcases List.mem_append.mp he' with h1 | h1
    · rcases h.cls e' h1 with ⟨hpg, hin⟩ | ⟨habs', hin⟩
      · refine Or.inl ⟨PairGood_mono c _ e' ?_ ?_ hpg, ?_⟩
        · intro x hx hxid
          exact List.mem_append_left _ hx
        · intro y hy hyid
          exact hy
        · rcases hin with hk | hall
          · exact Or.inl hk
          · refine Or.inr ?_
            intro z' hz'
            exact hall z' (List.mem_cons_of_mem z hz')
      · refine Or.inr ⟨?_, ?_⟩
        · intro x hx
          rcases List.mem_append.mp hx with h2 | h2
          · exact habs' x h2
          · rw [List.mem_singleton.mp h2]
            have hlt := h.wf.freshA e'.2 (List.mem_map_of_mem Prod.snd h1)
            show c.storeA.nextId ≠ e'.2.accountAId
            omega
        · rcases hin with ⟨z', hz', hz'id⟩ | hall
          · rcases List.mem_cons.mp hz' with h2 | h2
            · refine absurd ?_ (hnoB e' h1)
              rw [← hz'id, h2]
            · exact Or.inl ⟨z', h2, hz'id⟩
          · exact Or.inr hall
    · rw [List.mem_singleton.mp h1]
      refine Or.inl ⟨⟨⟨c.storeA.nextId, z.title, z.notes, z.status, z.due, none, now⟩,
        List.mem_append_right _ (List.mem_singleton.mpr rfl), rfl, z, hzSB, rfl, Or.inl ?_⟩, ?_⟩
      · rw [tasksAreEqual_iff_payload]
        rfl
      · refine Or.inr ?_
        intro z' hz' hzid2
        apply hninB
        exact List.mem_map.mpr ⟨z', hz', hzid2⟩
  · intro y hy hid
    rcases h.snapB2 y hy hid with ⟨e, he, heb⟩ | hyb
    · exact Or.inl ⟨e, List.mem_append_left _ he, heb⟩
    · exact Or.inr hyb
  · intro k hk
    obtain ⟨e, he, hekk, x, hxs, hxid⟩ := h.prcB k hk
    exact ⟨e, List.mem_append_left _ he, hekk, x, List.mem_append_left _ hxs, hxid⟩

theorem stepB_phase1 (tasksB : List Task) (nB : Nat) (todoB' : List Task) (c : Config)
    (z : Task) (now : Nat) (htB : TasksWF tasksB)
    (h : PhaseB tasksB nB (z :: todoB') c)
    (hninB : z.id ∉ todoB'.map Task.id) (hz : z ∈ tasksB) :
    PhaseB tasksB nB todoB' (stepB now c z) := by
  unfold stepB
  cases hf : findEntryByB c.ledger z.id with
  | none => exact createInA_phase1 tasksB nB todoB' c z now htB h hninB hz hf
  | some e =>
    obtain ⟨ek, r⟩ := e
    obtain ⟨hm, hrb⟩ := findEntryByB_some c.ledger z.id ek r hf
    show PhaseB tasksB nB todoB' (if c.processed.contains r.key then c else deleteFromB c z r)
    by_cases hp : c.processed.contains r.key = true
    · rw [if_pos hp]
      exact phaseB_skip tasksB nB todoB' c z ek r h hm hrb (List.elem_iff.mp hp)
    · rw [if_neg hp]
      refine deleteFromB_phase1 tasksB nB todoB' c z ek r h hninB hm hrb ?_
      intro hmem
      exact hp (List.elem_iff.mpr hmem)

theorem foldB_phase1 (tasksB : List Task) (nB now : Nat) (htB : TasksWF tasksB) :
    ∀ (todoB : List Task) (c : Config), (todoB.map Task.id).Nodup → (∀ x ∈ todoB, x ∈ tasksB) →
    PhaseB tasksB nB todoB c →
    PhaseB tasksB nB [] (todoB.foldl (stepB now) c) := by
  intro todoB
  induction todoB with
  | nil =>
    intro c _ _ h
    exact h
  | cons z todoB' ih =>
    intro c hnd hsub h
    rw [List.map_cons] at hnd
    have hc := List.nodup_cons.mp hnd
    rw [List.foldl_cons]
    exact ih (stepB now c z) hc.2 (fun x hx => hsub x (List.mem_cons_of_mem z hx))
      (stepB_phase1 tasksB nB todoB' c z now htB h hc.1 (hsub z (List.mem_cons_self z todoB')))

theorem pass_converges (sA sB : Store) (L : Ledger) (now : Nat)
    (hkeys : keysNodup L) (huA : sideUniqueA L) (huB : sideUniqueB L)
    (hkc : keyConsistent L)
    (hfA : ∀ r ∈ Ledger.values L, r.accountAId < sA.nextId)
    (hfB : ∀ r ∈ Ledger.values L, r.accountBId < sB.nextId)
    (hsfA : StoreFresh sA) (hsfB : StoreFresh sB)
    (htwA : TasksWF sA.tasks) (htwB : TasksWF sB.tasks) :
    PhaseB sB.tasks sB.nextId []
      (sB.tasks.foldl (stepB now) (sA.tasks.foldl (stepA sB.tasks now) ⟨sA, sB, L, [], []⟩)) := by
  have h0 := phaseA_init sA sB L hkeys huA huB hkc hfA hfB hsfA hsfB htwA htwB
  have h1 := foldA_phase1 sA.tasks sB.tasks sB.nextId now htwB sA.tasks
    ⟨sA, sB, L, [], []⟩ htwA h0
  have h2 := phaseA_to_phaseB sA.tasks sB.tasks sB.nextId _ h1
  exact foldB_phase1 sB.tasks sB.nextId now htwB sB.tasks _ htwB (fun x hx => hx) h2

/-- C4.  Idempotence of the reconcile pass: starting from a consistent
fetch (snapshots equal to the store contents) and any ledger the source
could have persisted (distinct object keys, per-side unique records whose
stored key matches their ids, service-assigned ids below the stores' fresh
counters), running the pass a second time on the outputs of the first
(converged snapshots, final stores and the updated sync state) issues no
create, update or delete operation and leaves both stores unchanged: the
first pass's output is a fixed point. -/
theorem reconcile_idempotent (sA sB : Store) (L : Ledger) (t now now2 : Nat)
    (hkeys : keysNodup L) (huA : sideUniqueA L) (huB : sideUniqueB L)
    (hkc : keyConsistent L)
    (hfA : ∀ r ∈ Ledger.values L, r.accountAId < sA.nextId)
    (hfB : ∀ r ∈ Ledger.values L, r.accountBId < sB.nextId)
    (hsfA : StoreFresh sA) (hsfB : StoreFresh sB)
    (htwA : TasksWF sA.tasks) (htwB : TasksWF sB.tasks) :
    (syncTaskLists (syncTaskLists sA.tasks sB.tasks sA sB ⟨L, t⟩ now).storeA.tasks
      (syncTaskLists sA.tasks sB.tasks sA sB ⟨L, t⟩ now).storeB.tasks
      (syncTaskLists sA.tasks sB.tasks sA sB ⟨L, t⟩ now).storeA
      (syncTaskLists sA.tasks sB.tasks sA sB ⟨L, t⟩ now).storeB
      (syncTaskLists sA.tasks sB.tasks sA sB ⟨L, t⟩ now).syncState now2).ops = []
    ∧ (syncTaskLists (syncTaskLists sA.tasks sB.tasks sA sB ⟨L, t⟩ now).storeA.tasks
        (syncTaskLists sA.tasks sB.tasks sA sB ⟨L, t⟩ now).storeB.tasks
        (syncTaskLists sA.tasks sB.tasks sA sB ⟨L, t⟩ now).storeA
        (syncTaskLists sA.tasks sB.tasks sA sB ⟨L, t⟩ now).storeB
        (syncTaskLists sA.tasks sB.tasks sA sB ⟨L, t⟩ now).syncState now2).storeA =
      (syncTaskLists sA.tasks sB.tasks sA sB ⟨L, t⟩ now).storeA
    ∧ (syncTaskLists (syncTaskLists sA.tasks sB.tasks sA sB ⟨L, t⟩ now).storeA.tasks
        (syncTaskLists sA.tasks sB.tasks sA sB ⟨L, t⟩ now).storeB.tasks
        (syncTaskLists sA.tasks sB.tasks sA sB ⟨L, t⟩ now).storeA
        (syncTaskLists sA.tasks sB.tasks sA sB ⟨L, t⟩ now).storeB
        (syncTaskLists sA.tasks sB.tasks sA sB ⟨L, t⟩ now).syncState now2).storeB =
      (syncTaskLists sA.tasks sB.tasks sA sB ⟨L, t⟩ now).storeB := by
  have hB := pass_converges sA sB L now hkeys huA huB hkc hfA hfB hsfA hsfB htwA htwB
  have hcovA : ∀ a1 ∈ (sB.tasks.foldl (stepB now)
      (sA.tasks.foldl (stepA sB.tasks now) ⟨sA, sB, L, [], []⟩)).storeA.tasks,
      a1.id ∈ (Ledger.values (sB.tasks.foldl (stepB now)
        (sA.tasks.foldl (stepA sB.tasks now) ⟨sA, sB, L, [], []⟩)).ledger).map
        PairRecord.accountAId := by
    intro a1 ha1
    obtain ⟨e, he, hea⟩ := hB.covSA a1 ha1
    exact List.mem_map.mpr ⟨e.2, List.mem_map_of_mem Prod.snd he, hea⟩
  have hcovB : ∀ b1 ∈ (sB.tasks.foldl (stepB now)
      (sA.tasks.foldl (stepA sB.tasks now) ⟨sA, sB, L, [], []⟩)).storeB.tasks,
      b1.id ∈ (Ledger.values (sB.tasks.foldl (stepB now)
        (sA.tasks.foldl (stepA sB.tasks now) ⟨sA, sB, L, [], []⟩)).ledger).map
        PairRecord.accountBId := by
    intro b1 hb1
    rcases hB.covSB b1 hb1 with ⟨e, he, heb⟩ | ⟨z, hz, _⟩
    · exact List.mem_map.mpr ⟨e.2, List.mem_map_of_mem Prod.snd he, heb⟩
    · exact absurd hz (List.not_mem_nil z)
  have hrOK : ∀ rv ∈ Ledger.values (sB.tasks.foldl (stepB now)
      (sA.tasks.foldl (stepA sB.tasks now) ⟨sA, sB, L, [], []⟩)).ledger,
      recOKplus (sB.tasks.foldl (stepB now)
        (sA.tasks.foldl (stepA sB.tasks now) ⟨sA, sB, L, [], []⟩)).storeA.tasks
        (sB.tasks.foldl (stepB now)
          (sA.tasks.foldl (stepA sB.tasks now) ⟨sA, sB, L, [], []⟩)).storeB.tasks rv := by
    intro rv hrv
    obtain ⟨e, he, hev⟩ := List.mem_map.mp hrv
    rcases hB.cls e he with ⟨hpg, _⟩ | ⟨habsA, hin⟩
    · obtain ⟨x, hx, hxid, y, hy, hyid, hg⟩ := hpg
      rw [← hev]
      exact Or.inl ⟨x, hx, hxid, y, hy, hyid, hg⟩
    · rcases hin with ⟨z, hz, _⟩ | habsB
      · exact absurd hz (List.not_mem_nil z)
      · rw [← hev]
        exact Or.inr ⟨habsA, habsB⟩
  exact converged_pass_noop
    (sB.tasks.foldl (stepB now) (sA.tasks.foldl (stepA sB.tasks now) ⟨sA, sB, L, [], []⟩)).storeA
    (sB.tasks.foldl (stepB now) (sA.tasks.foldl (stepA sB.tasks now) ⟨sA, sB, L, [], []⟩)).storeB
    (sB.tasks.foldl (stepB now) (sA.tasks.foldl (stepA sB.tasks now) ⟨sA, sB, L, [], []⟩)).ledger
    now now2 hB.wf.keys hB.wf.uniqA hB.wf.uniqB hB.wf.freshA hB.wf.freshB hB.sfA hB.sfB
    hB.twA hB.twB hcovA hcovB hrOK

/-- Witness for reconcile_idempotent: a concrete pass over one modified
paired task on each side followed by a re-run on its outputs. -/
theorem reconcile_idempotent_witness :
    (syncTaskLists (syncTaskLists (⟨[mkTask 0 10 "x"], 50⟩ : Store).tasks
        (⟨[mkTask 100 3 "y"], 150⟩ : Store).tasks ⟨[mkTask 0 10 "x"], 50⟩
        ⟨[mkTask 100 3 "y"], 150⟩ ⟨[((0, 100), ⟨0, 100, 5⟩)], 0⟩ 1000).storeA.tasks
      (syncTaskLists (⟨[mkTask 0 10 "x"], 50⟩ : Store).tasks
        (⟨[mkTask 100 3 "y"], 150⟩ : Store).tasks ⟨[mkTask 0 10 "x"], 50⟩
        ⟨[mkTask 100 3 "y"], 150⟩ ⟨[((0, 100), ⟨0, 100, 5⟩)], 0⟩ 1000).storeB.tasks
      (syncTaskLists (⟨[mkTask 0 10 "x"], 50⟩ : Store).tasks
        (⟨[mkTask 100 3 "y"], 150⟩ : Store).tasks ⟨[mkTask 0 10 "x"], 50⟩
        ⟨[mkTask 100 3 "y"], 150⟩ ⟨[((0, 100), ⟨0, 100, 5⟩)], 0⟩ 1000).storeA
      (syncTaskLists (⟨[mkTask 0 10 "x"], 50⟩ : Store).tasks
        (⟨[mkTask 100 3 "y"], 150⟩ : Store).tasks ⟨[mkTask 0 10 "x"], 50⟩
        ⟨[mkTask 100 3 "y"], 150⟩ ⟨[((0, 100), ⟨0, 100, 5⟩)], 0⟩ 1000).storeB
      (syncTaskLists (⟨[mkTask 0 10 "x"], 50⟩ : Store).tasks
        (⟨[mkTask 100 3 "y"], 150⟩ : Store).tasks ⟨[mkTask 0 10 "x"], 50⟩
        ⟨[mkTask 100 3 "y"], 150⟩ ⟨[((0, 100), ⟨0, 100, 5⟩)], 0⟩ 1000).syncState
      2000).ops = []
    ∧ (syncTaskLists (syncTaskLists (⟨[mkTask 0 10 "x"], 50⟩ : Store).tasks
        (⟨[mkTask 100 3 "y"], 150⟩ : Store).tasks ⟨[mkTask 0 10 "x"], 50⟩
        ⟨[mkTask 100 3 "y"], 150⟩ ⟨[((0, 100), ⟨0, 100, 5⟩)], 0⟩ 1000).storeA.tasks
      (syncTaskLists (⟨[mkTask 0 10 "x"], 50⟩ : Store).tasks
        (⟨[mkTask 100 3 "y"], 150⟩ : Store).tasks ⟨[mkTask 0 10 "x"], 50⟩
        ⟨[mkTask 100 3 "y"], 150⟩ ⟨[((0, 100), ⟨0, 100, 5⟩)], 0⟩ 1000).storeB.tasks
      (syncTaskLists (⟨[mkTask 0 10 "x"], 50⟩ : Store).tasks
        (⟨[mkTask 100 3 "y"], 150⟩ : Store).tasks ⟨[mkTask 0 10 "x"], 50⟩
        ⟨[mkTask 100 3 "y"], 150⟩ ⟨[((0, 100), ⟨0, 100, 5⟩)], 0⟩ 1000).storeA
      (syncTaskLists (⟨[mkTask 0 10 "x"], 50⟩ : Store).tasks
        (⟨[mkTask 100 3 "y"], 150⟩ : Store).tasks ⟨[mkTask 0 10 "x"], 50⟩
        ⟨[mkTask 100 3 "y"], 150⟩ ⟨[((0, 100), ⟨0, 100, 5⟩)], 0⟩ 1000).storeB
      (syncTaskLists (⟨[mkTask 0 10 "x"], 50⟩ : Store).tasks
        (⟨[mkTask 100 3 "y"], 150⟩ : Store).tasks ⟨[mkTask 0 10 "x"], 50⟩
        ⟨[mkTask 100 3 "y"], 150⟩ ⟨[((0, 100), ⟨0, 100, 5⟩)], 0⟩ 1000).syncState
      2000).storeA =
      (syncTaskLists (⟨[mkTask 0 10 "x"], 50⟩ : Store).tasks
        (⟨[mkTask 100 3 "y"], 150⟩ : Store).tasks ⟨[mkTask 0 10 "x"], 50⟩
        ⟨[mkTask 100 3 "y"], 150⟩ ⟨[((0, 100), ⟨0, 100, 5⟩)], 0⟩ 1000).storeA
    ∧ (syncTaskLists (syncTaskLists (⟨[mkTask 0 10 "x"], 50⟩ : Store).tasks
        (⟨[mkTask 100 3 "y"], 150⟩ : Store).tasks ⟨[mkTask 0 10 "x"], 50⟩
        ⟨[mkTask 100 3 "y"], 150⟩ ⟨[((0, 100), ⟨0, 100, 5⟩)], 0⟩ 1000).storeA.tasks
      (syncTaskLists (⟨[mkTask 0 10 "x"], 50⟩ : Store).tasks
        (⟨[mkTask 100 3 "y"], 150⟩ : Store).tasks ⟨[mkTask 0 10 "x"], 50⟩
        ⟨[mkTask 100 3 "y"], 150⟩ ⟨[((0, 100), ⟨0, 100, 5⟩)], 0⟩ 1000).storeB.tasks
      (syncTaskLists (⟨[mkTask 0 10 "x"], 50⟩ : Store).tasks
        (⟨[mkTask 100 3 "y"], 150⟩ : Store).tasks ⟨[mkTask 0 10 "x"], 50⟩
        ⟨[mkTask 100 3 "y"], 150⟩ ⟨[((0, 100), ⟨0, 100, 5⟩)], 0⟩ 1000).storeA
      (syncTaskLists (⟨[mkTask 0 10 "x"], 50⟩ : Store).tasks
        (⟨[mkTask 100 3 "y"], 150⟩ : Store).tasks ⟨[mkTask 0 10 "x"], 50⟩
        ⟨[mkTask 100 3 "y"], 150⟩ ⟨[((0, 100), ⟨0, 100, 5⟩)], 0⟩ 1000).storeB
      (syncTaskLists (⟨[mkTask 0 10 "x"], 50⟩ : Store).tasks
        (⟨[mkTask 100 3 "y"], 150⟩ : Store).tasks ⟨[mkTask 0 10 "x"], 50⟩
        ⟨[mkTask 100 3 "y"], 150⟩ ⟨[((0, 100), ⟨0, 100, 5⟩)], 0⟩ 1000).syncState
      2000).storeB =
      (syncTaskLists (⟨[mkTask 0 10 "x"], 50⟩ : Store).tasks
        (⟨[mkTask 100 3 "y"], 150⟩ : Store).tasks ⟨[mkTask 0 10 "x"], 50⟩
        ⟨[mkTask 100 3 "y"], 150⟩ ⟨[((0, 100), ⟨0, 100, 5⟩)], 0⟩ 1000).storeB := by
  exact reconcile_idempotent ⟨[mkTask 0 10 "x"], 50⟩ ⟨[mkTask 100 3 "y"], 150⟩
    [((0, 100), ⟨0, 100, 5⟩)] 0 1000 2000
    (by unfold keysNodup; decide) (by unfold sideUniqueA; decide) (by unfold sideUniqueB; decide)
    (by unfold keyConsistent; decide) (by decide) (by decide)
    (by unfold StoreFresh; decide) (by unfold StoreFresh; decide)
    (by unfold TasksWF; decide) (by unfold TasksWF; decide)

end GTSync
